import Mathlib

/-!
# SDF_C, `src/sdf_control.c`: domain decomposition, extents and payload release

A shallow embedding of the parts of `sdf_control.c` that the specification
speaks about, followed by the theorems that settle its claims.

Conventions of the embedding.

* The file is modelled as built with `PARALLEL` defined: `factor2d`, `factor3d`
  and the splitting branch of `sdf_get_domain_extents` exist only in that build.
* C `int` values are integers (`Int`), `uint64_t` values are naturals (`Nat`).
  The conversions between the two types are written out: `toU64` (to `uint64_t`,
  modulo 2^64) and `toI32` (to `int`, two's complement, modulo 2^32). They occur
  where the source mixes the types: `MIN(ncpus, dims[i])` stored in an `int`, and
  the quotient `dims[n] / cpu_split[n]` and the difference
  `dims[n] - cpu_split[n] * npoint_min`, which C computes in `uint64_t` and stores
  in an `int`. The statements `dims[n]--` and `dims[n]++` wrap at 2^64.
  Arithmetic inside `int` is exact: the overflow of a signed operation is
  undefined behaviour in C and has no counterpart here.
* Signed division and remainder are the truncating ones of C (`Int.tdiv`,
  `Int.tmod`).
* C arrays are functions from the index to the element; a pointer is the address
  it holds, `0` being `NULL`.
* A division by zero (undefined behaviour in C) makes a function return `none`.
* C `float` arithmetic is a parameter (`FloatOps`): every theorem that does not
  name a particular instance holds for any float semantics. `f32Ops` is the
  instance that rounds the result of every operation to 24 significant bits, to
  nearest, ties to even, as IEEE binary32 does; its exponent range is not limited
  (no overflow to infinity, no subnormal numbers) and a division by zero yields 0.
  `exactOps` is the instance that computes exactly, on fractions; it agrees with
  binary floating point whenever all values involved are integers of small
  magnitude.
-/

set_option autoImplicit false

namespace SDF

/-! ## Integer and float helpers -/

/-- Conversion of a C integer to `uint64_t`. -/
def toU64 (x : Int) : Int := x % 2 ^ 64

/-- Conversion to a signed 64-bit integer (`long long`), wrapping. -/
def toI64 (x : Int) : Int := (x + 2 ^ 63) % 2 ^ 64 - 2 ^ 63

/-- Conversion to a signed 32-bit integer (`int`), wrapping. -/
def toI32 (x : Int) : Int := (x + 2 ^ 31) % 2 ^ 32 - 2 ^ 31

/-- The C macro `MIN(a,b) (((a) < (b)) ? (a) : (b))` on integers. -/
def MIN (a b : Int) : Int := if a < b then a else b

/-- The operations on C `float` used by the decomposition search. -/
structure FloatOps where
  /-- the carrier of float values -/
  F : Type
  /-- conversion of an integer (`int` or `uint64_t`) to float -/
  ofInt : Int → F
  /-- float multiplication -/
  mul : F → F → F
  /-- float division -/
  div : F → F → F
  /-- float subtraction -/
  sub : F → F → F
  /-- float negation -/
  neg : F → F
  /-- the comparison `a < b` -/
  lt : F → F → Bool

/-- A fraction `num / den` of integers, not normalised; `den` is positive in
every value computed from a non-zero divisor. -/
structure Frac where
  /-- numerator -/
  num : Int
  /-- denominator -/
  den : Nat
  deriving DecidableEq, Repr

/-- The rational number a fraction stands for. -/
def Frac.toRat (a : Frac) : ℚ := (a.num : ℚ) / (a.den : ℚ)

/-- Exact division of fractions; the sign of the divisor moves to the numerator. -/
def Frac.div (a b : Frac) : Frac :=
  if 0 < b.num then ⟨a.num * b.den, a.den * b.num.toNat⟩
  else ⟨-(a.num * b.den), a.den * (-b.num).toNat⟩

/-- Exact arithmetic on fractions as an instance of the float operations: no
rounding takes place. -/
def exactOps : FloatOps where
  F := Frac
  ofInt := fun n => ⟨n, 1⟩
  mul := fun a b => ⟨a.num * b.num, a.den * b.den⟩
  div := Frac.div
  sub := fun a b => ⟨a.num * b.den - b.num * a.den, a.den * b.den⟩
  neg := fun a => ⟨-a.num, a.den⟩
  lt := fun a b => decide (a.num * b.den < b.num * a.den)

/-- A binary fraction `num / 2^exp`. -/
structure Dyadic where
  /-- numerator -/
  num : Int
  /-- exponent of the denominator -/
  exp : Nat
  deriving DecidableEq, Repr

/-- The rational number a binary fraction stands for. -/
def Dyadic.toRat (a : Dyadic) : ℚ := (a.num : ℚ) / (2 : ℚ) ^ a.exp

/-- The number of binary digits of `n`, computed in at most `fuel` steps. -/
def bitLength : Nat → Nat → Nat
  | 0, _ => 0
  | fuel + 1, n => if n = 0 then 0 else bitLength fuel (n / 2) + 1

/-- The quotient `N / D` rounded to the nearest integer, a tie to the even one. -/
def roundHalfEven (N D : Nat) : Nat :=
  let m := N / D
  let r := N % D
  if 2 * r < D then m else if D < 2 * r then m + 1 else if m % 2 = 0 then m else m + 1

/-- The positive quotient `a / q` rounded to 24 significant bits. With `la`, `lq`
the numbers of digits of `a` and `q`, the quotient scaled by `2^(24 + lq - la)`
lies between `2^23` and `2^25`; halved when it is `2^24` or more, it lies between
`2^23` and `2^24`, where it is rounded to an integer. -/
def roundPos24 (a q : Nat) : Dyadic :=
  let la := bitLength a a
  let lq := bitLength q q
  let up := (24 + lq) - la
  let dn := la - (24 + lq)
  let dn' := if a * 2 ^ up < 2 ^ 24 * (q * 2 ^ dn) then dn else dn + 1
  let m := roundHalfEven (a * 2 ^ up) (q * 2 ^ dn')
  ⟨((m * 2 ^ dn' : Nat) : Int), up⟩

/-- The quotient `p / q` rounded to 24 significant bits, to nearest, ties to
even; 0 for `p = 0` and for `q = 0`. -/
def round24 (p : Int) (q : Nat) : Dyadic :=
  if p = 0 ∨ q = 0 then ⟨0, 0⟩
  else if 0 < p then roundPos24 p.toNat q
  else ⟨-(roundPos24 (-p).toNat q).num, (roundPos24 (-p).toNat q).exp⟩

/-- Single-precision arithmetic as an instance of the float operations: the exact
result of every operation, rounded to 24 significant bits. -/
def f32Ops : FloatOps where
  F := Dyadic
  ofInt := fun n => round24 n 1
  mul := fun a b => round24 (a.num * b.num) (2 ^ (a.exp + b.exp))
  div := fun a b =>
    if 0 < b.num then round24 (a.num * 2 ^ b.exp) (b.num.toNat * 2 ^ a.exp)
    else round24 (-(a.num * 2 ^ b.exp)) ((-b.num).toNat * 2 ^ a.exp)
  sub := fun a b => round24 (a.num * 2 ^ b.exp - b.num * 2 ^ a.exp) (2 ^ (a.exp + b.exp))
  neg := fun a => ⟨-a.num, a.exp⟩
  lt := fun a b => decide (a.num * 2 ^ b.exp < b.num * 2 ^ a.exp)

/-- The C macro `ABS(a) (((a) > 0) ? (a) : (-(a)))` on a float. -/
def ABS (fm : FloatOps) (a : fm.F) : fm.F :=
  if fm.lt (fm.ofInt 0) a then a else fm.neg a

/-! ## `factor2d` and `factor3d` -/

/-- What the search loops of `factor2d`/`factor3d` carry from one iteration to
the next: `mindeviation` and the output array `cpu_split`. The field `assigned`
is a ghost flag, set when the loop body stores into `cpu_split`. -/
structure FactorState (fm : FloatOps) where
  /-- the C local `mindeviation` -/
  mindeviation : fm.F
  /-- the output array `cpu_split` -/
  cpu_split : Nat → Int
  /-- ghost: has `cpu_split` been written -/
  assigned : Bool

/-- The statement `npoint_min = dims[n] / cpu_split[n]` (lines 331, 389, 442) for
`dims[n] = d`, `cpu_split[n] = s`: the split factor is converted to `uint64_t`,
the quotient of the two `uint64_t` values is converted to `int`. -/
def npointMin (d : Nat) (s : Int) : Int := toI32 ((d : Int) / toU64 s)

/-- The statement `split_big = dims[n] - cpu_split[n] * npoint_min` (lines 332,
390, 443): the product of two `int` values is converted to `uint64_t`, the
difference of the two `uint64_t` values is converted to `int`. -/
def splitBig (d : Nat) (s : Int) : Int :=
  toI32 (toU64 ((d : Int) - toU64 (s * npointMin d s)))

/-- The pair `grids[n][0], grids[n][1]` computed for one axis (source lines
330-335 and 388-393). -/
def gridsOf (dim : Nat) (cpu_split_tmp : Int) : Int × Int :=
  let npoint_min := npointMin dim cpu_split_tmp
  let split_big := splitBig dim cpu_split_tmp
  let g0 := npoint_min
  let g1 := npoint_min + 1
  let g0 := if cpu_split_tmp = split_big then 0 else g0
  let g1 := if split_big = 0 then 0 else g1
  (g0, g1)

/-- The body of the corner loops: compare the deviation of the candidate cell
count `grid` and, when it is smaller, store the candidate split. -/
def tryCorner (fm : FloatOps) (gridav : fm.F) (ndims : Nat) (cpu_split_tmp : Nat → Int)
    (st : FactorState fm) (grid : Int) : FactorState fm :=
  let deviation := ABS fm (fm.sub (fm.ofInt grid) gridav)
  if fm.lt deviation st.mindeviation then
    { mindeviation := deviation
      cpu_split := fun n => if n < ndims then cpu_split_tmp n else st.cpu_split n
      assigned := true }
  else st

/-- The temporary array `cpu_split_tmp` of `factor2d`. -/
def tmp2 (t0 t1 : Int) : Nat → Int := fun n => if n = 0 then t0 else t1

/-- The temporary array `cpu_split_tmp` of `factor3d`. -/
def tmp3 (t0 t1 t2 : Int) : Nat → Int :=
  fun n => if n = 0 then t0 else if n = 1 then t1 else t2

/-- One iteration of the innermost split loop of `factor2d` (lines 321-347) with
`cpu_split_tmp = [t0, t1]`. -/
def factor2dBody (fm : FloatOps) (dims : Nat → Nat) (gridav : fm.F) (maxcpus : Int)
    (t0 t1 : Int) (st : FactorState fm) : FactorState fm :=
  let cpus := 1 * t0 * t1
  if cpus ≠ maxcpus then st
  else
    let g0 := gridsOf (dims 0) t0
    let g1 := gridsOf (dims 1) t1
    [g0.1 * g1.1, g0.1 * g1.2, g0.2 * g1.1, g0.2 * g1.2].foldl
      (tryCorner fm gridav 2 (tmp2 t0 t1)) st

/-- The search of `factor2d` (lines 306-348): the final loop state. -/
def factor2dSearch (fm : FloatOps) (ncpus : Int) (dims : Nat → Nat)
    (cpu_split : Nat → Int) : FactorState fm :=
  let dmin0 := toI32 (MIN (toU64 ncpus) (dims 0))
  let dmin1 := toI32 (MIN (toU64 ncpus) (dims 1))
  let cpus := 1 * dmin0 * dmin1
  let gridav := fm.mul (fm.mul (fm.ofInt 1) (fm.ofInt (dims 0))) (fm.ofInt (dims 1))
  let mindeviation := gridav
  let gridav := fm.div gridav (fm.ofInt ncpus)
  let maxcpus := MIN ncpus cpus
  (List.range dmin1.toNat).foldl
    (fun st (j : Nat) =>
      (List.range dmin0.toNat).foldl
        (fun st (i : Nat) =>
          factor2dBody fm dims gridav maxcpus (dmin0 - (i : Int)) (dmin1 - (j : Int)) st) st)
    { mindeviation := mindeviation, cpu_split := cpu_split, assigned := false }

/-- The C function `factor2d`: its return value and the array `cpu_split` after
the call. -/
def factor2d (fm : FloatOps) (ncpus : Int) (dims : Nat → Nat)
    (cpu_split : Nat → Int) : Int × (Nat → Int) :=
  (0, (factor2dSearch fm ncpus dims cpu_split).cpu_split)

/-- One iteration of the innermost split loop of `factor3d` (lines 379-406) with
`cpu_split_tmp = [t0, t1, t2]`. -/
def factor3dBody (fm : FloatOps) (dims : Nat → Nat) (gridav : fm.F) (maxcpus : Int)
    (t0 t1 t2 : Int) (st : FactorState fm) : FactorState fm :=
  let cpus := 1 * t0 * t1 * t2
  if cpus ≠ maxcpus then st
  else
    let g0 := gridsOf (dims 0) t0
    let g1 := gridsOf (dims 1) t1
    let g2 := gridsOf (dims 2) t2
    [g0.1 * g1.1 * g2.1, g0.1 * g1.1 * g2.2, g0.1 * g1.2 * g2.1, g0.1 * g1.2 * g2.2,
     g0.2 * g1.1 * g2.1, g0.2 * g1.1 * g2.2, g0.2 * g1.2 * g2.1, g0.2 * g1.2 * g2.2].foldl
      (tryCorner fm gridav 3 (tmp3 t0 t1 t2)) st

/-- The search of `factor3d` (lines 362-407): the final loop state. -/
def factor3dSearch (fm : FloatOps) (ncpus : Int) (dims : Nat → Nat)
    (cpu_split : Nat → Int) : FactorState fm :=
  let dmin0 := toI32 (MIN (toU64 ncpus) (dims 0))
  let dmin1 := toI32 (MIN (toU64 ncpus) (dims 1))
  let dmin2 := toI32 (MIN (toU64 ncpus) (dims 2))
  let cpus := 1 * dmin0 * dmin1 * dmin2
  let gridav :=
    fm.mul (fm.mul (fm.mul (fm.ofInt 1) (fm.ofInt (dims 0))) (fm.ofInt (dims 1)))
      (fm.ofInt (dims 2))
  let mindeviation := gridav
  let gridav := fm.div gridav (fm.ofInt ncpus)
  let maxcpus := MIN ncpus cpus
  (List.range dmin2.toNat).foldl
    (fun st (k : Nat) =>
      (List.range dmin1.toNat).foldl
        (fun st (j : Nat) =>
          (List.range dmin0.toNat).foldl
            (fun st (i : Nat) =>
              factor3dBody fm dims gridav maxcpus (dmin0 - (i : Int)) (dmin1 - (j : Int))
                (dmin2 - (k : Int)) st) st)
        st)
    { mindeviation := mindeviation, cpu_split := cpu_split, assigned := false }

/-- The C function `factor3d`: its return value and the array `cpu_split` after
the call. -/
def factor3d (fm : FloatOps) (ncpus : Int) (dims : Nat → Nat)
    (cpu_split : Nat → Int) : Int × (Nat → Int) :=
  (0, (factor3dSearch fm ncpus dims cpu_split).cpu_split)

/-! ## The handle and the block -/

/-- Modelled from the spec: the value of the constant `SDF_STAGGER_CELL_CENTRE`,
declared in `sdf.h`, which is not among the sources. The spec describes the
stagger as marking axes as non-cell-centred; the cell-centred stagger marks no
axis, so it is the empty bit mask. -/
def SDF_STAGGER_CELL_CENTRE : Nat := 0

/-- The fields of `sdf_file_t` that the modelled functions read or write. The
block `h->current_block` is passed to the functions next to the handle. -/
structure sdf_file_t where
  /-- number of ranks of the job -/
  ncpus : Int := 1
  /-- rank of this process -/
  rank : Int := 0
  /-- address of the memory mapping of the file, `0` when there is none -/
  mmap : Nat := 0

/-- The fields of `sdf_block_t` that the modelled functions read or write.
`gridsMem` is the content of the pointer array that `grids` points to. -/
structure sdf_block_t where
  /-- number of axes -/
  ndims : Nat := 0
  /-- global dimensions (`uint64_t`, as `factor2d` takes them) -/
  dims : Nat → Nat := fun _ => 0
  /-- stagger of the block -/
  stagger : Nat := 0
  /-- split factor of each axis -/
  cpu_split : Nat → Int := fun _ => 0
  /-- first element of this rank on each axis -/
  starts : Nat → Int := fun _ => 0
  /-- number of elements of this rank on each axis -/
  local_dims : Nat → Int := fun _ => 0
  /-- number of elements of this rank -/
  nlocal : Int := 0
  /-- neighbouring rank on the low side of each axis -/
  proc_min : Nat → Int := fun _ => 0
  /-- neighbouring rank on the high side of each axis -/
  proc_max : Nat → Int := fun _ => 0
  /-- address of the array of per-axis grid buffers -/
  grids : Nat := 0
  /-- the addresses stored in the array `grids` points to -/
  gridsMem : Nat → Nat := fun _ => 0
  /-- address of the data buffer -/
  data : Nat := 0
  /-- non-zero once the payload has been read -/
  done_data : Int := 0
  /-- non-zero when the payload belongs to the caller -/
  dont_own_data : Int := 0
  /-- address of the node list -/
  node_list : Nat := 0
  /-- address of the boundary cell list -/
  boundary_cells : Nat := 0

/-! ## `sdf_free_block_data` -/

/-- The buffers of a block that `sdf_free_block_data` may hand to `free`. -/
inductive Buffer where
  /-- the buffer `b->grids[i]` -/
  | grid (i : Nat)
  /-- the pointer array `b->grids` -/
  | grids
  /-- the buffer `b->data` -/
  | data
  /-- the buffer `b->node_list` -/
  | node_list
  /-- the buffer `b->boundary_cells` -/
  | boundary_cells
  deriving DecidableEq, Repr

/-- One call of `free`: the buffer of the block it releases and the address. -/
structure FreeCall where
  /-- which buffer of the block -/
  buffer : Buffer
  /-- the address passed to `free` -/
  addr : Nat
  deriving DecidableEq, Repr

/-- What a call of `sdf_free_block_data` leaves behind: the value returned, the
block (`none` for a null pointer) and the calls of `free` it made, in order. -/
structure FreeResult where
  /-- the value returned -/
  ret : Int
  /-- the block after the call -/
  block : Option sdf_block_t
  /-- the calls of `free`, in order -/
  freed : List FreeCall

/-- The C function `sdf_free_block_data(h, b)` (lines 115-138); `b = none` is the
null pointer. -/
def sdf_free_block_data (h : sdf_file_t) (b : Option sdf_block_t) : FreeResult :=
  match b with
  | none => { ret := 1, block := none, freed := [] }
  | some b =>
    let f1 : List FreeCall :=
      if b.grids ≠ 0 then
        (if h.mmap = 0 ∧ b.done_data ≠ 0 then
          (List.range b.ndims).filterMap
            (fun i => if b.gridsMem i ≠ 0 then some ⟨Buffer.grid i, b.gridsMem i⟩ else none)
         else []) ++ [⟨Buffer.grids, b.grids⟩]
      else []
    let f2 : List FreeCall :=
      if h.mmap = 0 ∧ b.data ≠ 0 ∧ b.done_data ≠ 0 ∧ b.dont_own_data = 0 then
        [⟨Buffer.data, b.data⟩]
      else []
    let f3 : List FreeCall := if b.node_list ≠ 0 then [⟨Buffer.node_list, b.node_list⟩] else []
    let f4 : List FreeCall :=
      if b.boundary_cells ≠ 0 then [⟨Buffer.boundary_cells, b.boundary_cells⟩] else []
    { ret := 0
      block := some { b with node_list := 0, boundary_cells := 0, done_data := 0,
                             grids := 0, data := 0 }
      freed := f1 ++ f2 ++ f3 ++ f4 }

/-! ## `sdf_get_domain_extents` -/

/-- The statement `dims[n]--` on a `uint64_t`. -/
def decU64 (d : Nat) : Nat := (d + (2 ^ 64 - 1)) % 2 ^ 64

/-- The statement `dims[n]++` on a `uint64_t`. -/
def incU64 (d : Nat) : Nat := (d + 1) % 2 ^ 64

/-- What the axis loop of `sdf_get_domain_extents` (lines 427-452) carries from
one axis to the next. -/
structure ExtState where
  /-- the C local `div`, the product of the split factors of the axes done -/
  div : Int
  /-- `b->proc_min` -/
  proc_min : Nat → Int
  /-- `b->proc_max` -/
  proc_max : Nat → Int
  /-- the output array `start` -/
  start : Nat → Int
  /-- the output array `local` -/
  local_ : Nat → Int

/-- The body of the axis loop of `sdf_get_domain_extents` for axis `n` (lines
429-451). -/
def extentsAxis (MPI_PROC_NULL : Int) (rank : Int) (dims : Nat → Nat)
    (cpu_split : Nat → Int) (st : ExtState) (n : Nat) : ExtState :=
  let coords := Int.tmod (Int.tdiv rank st.div) (cpu_split n)
  let proc_min :=
    Function.update st.proc_min n (if coords = 0 then MPI_PROC_NULL else rank - st.div)
  let proc_max :=
    Function.update st.proc_max n
      (if coords = cpu_split n - 1 then MPI_PROC_NULL else rank + st.div)
  let div := st.div * cpu_split n
  let npoint_min := npointMin (dims n) (cpu_split n)
  let split_big := splitBig (dims n) (cpu_split n)
  if coords ≥ split_big then
    { div := div, proc_min := proc_min, proc_max := proc_max
      start :=
        Function.update st.start n
          (split_big * (npoint_min + 1) + (coords - split_big) * npoint_min)
      local_ := Function.update st.local_ n npoint_min }
  else
    { div := div, proc_min := proc_min, proc_max := proc_max
      start := Function.update st.start n (coords * (npoint_min + 1))
      local_ := Function.update st.local_ n (npoint_min + 1) }

/-- The axis loop of `sdf_get_domain_extents` over the axes `0 .. ndims-1`. -/
def extentsLoop (MPI_PROC_NULL : Int) (rank : Int) (ndims : Nat) (dims : Nat → Nat)
    (cpu_split : Nat → Int) (st : ExtState) : ExtState :=
  (List.range ndims).foldl (extentsAxis MPI_PROC_NULL rank dims cpu_split) st

/-- What `sdf_get_domain_extents` leaves behind: its return value, the block and
the two output arrays. -/
structure Extents where
  /-- the value returned -/
  ret : Int
  /-- the block after the call -/
  block : sdf_block_t
  /-- the output array `start` -/
  start : Nat → Int
  /-- the output array `local` -/
  local_ : Nat → Int

/-- The C function `sdf_get_domain_extents(h, rank, start, local)` on the block
`b = h->current_block`. `MPI_PROC_NULL` is the constant of `mpi.h`, taken as a
parameter. The loop divides by every `cpu_split[n]`, `n < ndims` (and by `div`,
a product of them), so the call has a result exactly when none of them is zero. -/
def sdf_get_domain_extents (MPI_PROC_NULL : Int) (b : sdf_block_t) (rank : Int)
    (start local_ : Nat → Int) : Option Extents :=
  if (List.range b.ndims).all (fun n => decide (b.cpu_split n ≠ 0)) then
    let dims1 : Nat → Nat :=
      if b.stagger ≠ SDF_STAGGER_CELL_CENTRE then
        fun n => if n < b.ndims then decU64 (b.dims n) else b.dims n
      else b.dims
    let start0 : Nat → Int := fun i => if i < 3 then 0 else start i
    let st := extentsLoop MPI_PROC_NULL rank b.ndims dims1 b.cpu_split
      { div := 1, proc_min := b.proc_min, proc_max := b.proc_max,
        start := start0, local_ := local_ }
    let dims2 : Nat → Nat :=
      if b.stagger ≠ SDF_STAGGER_CELL_CENTRE then
        fun n => if n < b.ndims then incU64 (dims1 n) else dims1 n
      else dims1
    let local1 : Nat → Int :=
      if b.stagger ≠ SDF_STAGGER_CELL_CENTRE then
        fun n => if n < b.ndims then st.local_ n + 1 else st.local_ n
      else st.local_
    let local2 : Nat → Int := fun n => if b.ndims ≤ n ∧ n < 3 then 1 else local1 n
    some
      { ret := 0
        block := { b with dims := dims2, proc_min := st.proc_min, proc_max := st.proc_max }
        start := st.start
        local_ := local2 }
  else none

/-! ## `sdf_factor` -/

/-- The first loop of `sdf_factor` (lines 479-483) on one dimension of axis `n`:
`if (b->stagger & n) b->dims[n]--; if (b->dims[n] < 1) b->dims[n] = 1;`. -/
def adjustDim (stagger : Nat) (n : Nat) (d : Nat) : Nat :=
  let d1 := if stagger &&& n ≠ 0 then decU64 d else d
  if d1 < 1 then 1 else d1

/-- The dimensions `sdf_factor` hands to `factor2d`/`factor3d`: those of the block
after the loop of lines 479-483. -/
def adjustedDims (b : sdf_block_t) : Nat → Nat :=
  fun n => if n < b.ndims then adjustDim b.stagger n (b.dims n) else b.dims n

/-- The final state of the search that `sdf_factor` runs (lines 485-488):
`factor2d` for a block of two axes, `factor3d` otherwise. -/
def sdf_factor_search (fm : FloatOps) (h : sdf_file_t) (b : sdf_block_t) : FactorState fm :=
  if b.ndims = 2 then factor2dSearch fm h.ncpus (adjustedDims b) b.cpu_split
  else factor3dSearch fm h.ncpus (adjustedDims b) b.cpu_split

/-- The C function `sdf_factor(h)` on the block `b = h->current_block`: the
value returned and the block after the call. -/
def sdf_factor (fm : FloatOps) (MPI_PROC_NULL : Int) (h : sdf_file_t) (b : sdf_block_t) :
    Option (Int × sdf_block_t) :=
  let old_dims := b.dims
  let dimsAdj := adjustedDims b
  let split :=
    if b.ndims = 2 then (factor2d fm h.ncpus dimsAdj b.cpu_split).2
    else (factor3d fm h.ncpus dimsAdj b.cpu_split).2
  let dimsBack : Nat → Nat := fun n => if n < b.ndims then old_dims n else dimsAdj n
  let b1 : sdf_block_t := { b with dims := dimsBack, cpu_split := split }
  match sdf_get_domain_extents MPI_PROC_NULL b1 h.rank b1.starts b1.local_dims with
  | none => none
  | some e =>
    let b2 : sdf_block_t := { e.block with starts := e.start, local_dims := e.local_ }
    let nlocal := (List.range b2.ndims).foldl (fun acc n => acc * b2.local_dims n) 1
    some (0, { b2 with nlocal := nlocal })

/-! ## Notions used to state and prove the theorems -/

/-- The value of the C local `div` when the axis loop reaches axis `n`: the
product of the split factors of the axes below `n`. -/
def prodBelow (s : Nat → Int) : Nat → Int
  | 0 => 1
  | n + 1 => prodBelow s n * s n

/-- The coordinate of `rank` on axis `n`: the C local `coords` (line 429). -/
def coordOf (s : Nat → Int) (rank : Int) (n : Nat) : Int :=
  Int.tmod (Int.tdiv rank (prodBelow s n)) (s n)

/-- The value stored into `start[n]` (lines 442-451) for an axis of `d` elements
split into `s` pieces, at coordinate `c`. -/
def axisStart (d : Nat) (s c : Int) : Int :=
  let npoint_min := npointMin d s
  let split_big := splitBig d s
  if c ≥ split_big then split_big * (npoint_min + 1) + (c - split_big) * npoint_min
  else c * (npoint_min + 1)

/-- The value stored into `local[n]` (lines 442-451). -/
def axisLocal (d : Nat) (s c : Int) : Int :=
  let npoint_min := npointMin d s
  let split_big := splitBig d s
  if c ≥ split_big then npoint_min else npoint_min + 1

/-- The start of the piece at coordinate `c` when an axis of `d` elements is cut
into `s` pieces, the first `d mod s` of them one element longer: what `axisStart`
is for values that fit an `int`. -/
def idealStart (d : Nat) (s c : Int) : Int :=
  let npoint_min := Int.tdiv (d : Int) s
  let split_big := (d : Int) - s * npoint_min
  if c ≥ split_big then split_big * (npoint_min + 1) + (c - split_big) * npoint_min
  else c * (npoint_min + 1)

/-- The size of the piece at coordinate `c`: what `axisLocal` is for values that
fit an `int`. -/
def idealLocal (d : Nat) (s c : Int) : Int :=
  let npoint_min := Int.tdiv (d : Int) s
  let split_big := (d : Int) - s * npoint_min
  if c ≥ split_big then npoint_min else npoint_min + 1

/-- The state of the axis loop after the axes `0 .. k-1`, written out. -/
def extentsClosed (MPI_PROC_NULL : Int) (rank : Int) (dims : Nat → Nat)
    (s : Nat → Int) (st0 : ExtState) (k : Nat) : ExtState where
  div := prodBelow s k
  proc_min := fun n =>
    if n < k then (if coordOf s rank n = 0 then MPI_PROC_NULL else rank - prodBelow s n)
    else st0.proc_min n
  proc_max := fun n =>
    if n < k then
      (if coordOf s rank n = s n - 1 then MPI_PROC_NULL else rank + prodBelow s n)
    else st0.proc_max n
  start := fun n =>
    if n < k then axisStart (dims n) (s n) (coordOf s rank n) else st0.start n
  local_ := fun n =>
    if n < k then axisLocal (dims n) (s n) (coordOf s rank n) else st0.local_ n

/-- The dimensions the axis loop of `sdf_get_domain_extents` works on (lines
422-423): those of the block, each axis below `ndims` decremented when the
stagger is not cell-centred. -/
def workDims (b : sdf_block_t) : Nat → Nat :=
  if b.stagger ≠ SDF_STAGGER_CELL_CENTRE then
    fun n => if n < b.ndims then decU64 (b.dims n) else b.dims n
  else b.dims

/-- The cell-centred block with the dimensions of `b` reduced as lines 422-423
reduce them. -/
def cellCentred (b : sdf_block_t) : sdf_block_t :=
  { b with stagger := SDF_STAGGER_CELL_CENTRE, dims := workDims b }

/-- Modelled from the spec: which axes a stagger value marks as non-cell-centred.
The stagger constants are declared in `sdf.h`, which is not among the sources; the
spec speaks of "axes the caller marked as non-cell-centered", and the value is a
bit mask with one bit per axis (face-x = 1, face-y = 2, face-z = 4, vertex = 7). -/
def staggerMarks (stagger n : Nat) : Bool := stagger.testBit n

/-- The invariant of the search loops of `factor2d`/`factor3d` over `k` axes:
either nothing has been stored and `cpu_split` is the array `cs0` the call
started with, or the first `k` entries are a candidate `tmp` that satisfies
`good` and the other entries are those of `cs0`. -/
def FactorInv {fm : FloatOps} (k : Nat) (good : (Nat → Int) → Prop) (cs0 : Nat → Int)
    (st : FactorState fm) : Prop :=
  (st.assigned = false ∧ st.cpu_split = cs0) ∨
  (st.assigned = true ∧ ∃ tmp, good tmp ∧
    st.cpu_split = fun n => if n < k then tmp n else cs0 n)

/-- Two states of the search agree up to the content `cpu_split` had before the
call: same `mindeviation`, same flag, and the same first `k` entries once
something has been stored. -/
def SameSearch {fm : FloatOps} (k : Nat) (st st' : FactorState fm) : Prop :=
  st.mindeviation = st'.mindeviation ∧ st.assigned = st'.assigned ∧
    (st.assigned = true → ∀ n, n < k → st.cpu_split n = st'.cpu_split n)

/-- The product of the first `n` entries of `t`: `prodBelow` on naturals. -/
def prodBelowN (t : Nat → Nat) : Nat → Nat
  | 0 => 1
  | n + 1 => prodBelowN t n * t n

/-- The coordinate of rank `r` on axis `n`, on naturals. -/
def coordN (t : Nat → Nat) (r n : Nat) : Nat := r / prodBelowN t n % t n

/-- The rank with the coordinates `c` on the axes below `k`. -/
def encodeN (t c : Nat → Nat) : Nat → Nat
  | 0 => 0
  | k + 1 => encodeN t c k + c k * prodBelowN t k

/-! ## Inputs of the scenarios, witnesses and counterexamples -/

/-- The array `[a, b, c]` (indices from 3 on read as 0). -/
def arr3 {α : Type} [Zero α] (a b c : α) : Nat → α :=
  fun n => if n = 0 then a else if n = 1 then b else if n = 2 then c else 0

/-- One axis of 7 elements split into 3: the block of the 1-D scenario. -/
def block7 : sdf_block_t := { ndims := 1, dims := arr3 7 0 0, cpu_split := arr3 3 0 0 }

/-- A cell-centred 10 x 10 grid split 2 x 2: the block of the 2-D scenario once
`factor2d` has run. -/
def block10 : sdf_block_t := { ndims := 2, dims := arr3 10 10 0, cpu_split := arr3 2 2 0 }

/-- A cell-centred grid of 10 x 10 cells, not yet decomposed. -/
def grid10 : sdf_block_t := { ndims := 2, dims := arr3 10 10 0 }

/-- A cell-centred grid of 3 x 3 cells, not yet decomposed (`cpu_split` is zero). -/
def grid3 : sdf_block_t := { ndims := 2, dims := arr3 3 3 0 }

/-- A cell-centred grid of 1 x 1 cells, not yet decomposed. -/
def block1x1 : sdf_block_t := { ndims := 2, dims := arr3 1 1 0 }

/-- A 2-D block of 11 x 11 samples staggered on axis 0 only (stagger 1), split
2 x 2. -/
def blockFaceX : sdf_block_t :=
  { ndims := 2, dims := arr3 11 11 0, stagger := 1, cpu_split := arr3 2 2 0 }

/-- A memory-mapped handle. -/
def mappedHandle : sdf_file_t := { mmap := 4096 }

/-- A materialized mesh block with two grid buffers and a node list. -/
def meshBlock : sdf_block_t :=
  { ndims := 2, grids := 100, gridsMem := arr3 200 300 0, done_data := 1, node_list := 400 }

/-! ## The whole block and the whole handle

`sdf_block_t` and `sdf_file_t` above hold the fields that the decomposition and
`sdf_free_block_data` use. The functions below use further fields of the same C
structures; they are added here. The list `h->blocklist`, `->next`, ... up to the
null pointer is a Lean list of blocks. -/

/-- The block with the metadata buffers that `sdf_free_block` releases and the
datatype fields. `variable_idsMem` and `material_namesMem` are the contents of the
pointer arrays `variable_ids` and `material_names`. -/
structure sdf_block_full_t extends sdf_block_t where
  /-- address of the id string -/
  id : Nat := 0
  /-- address of the units string -/
  units : Nat := 0
  /-- address of the mesh id string -/
  mesh_id : Nat := 0
  /-- address of the material id string -/
  material_id : Nat := 0
  /-- address of the name string -/
  name : Nat := 0
  /-- address of the material name string -/
  material_name : Nat := 0
  /-- address of the array `dims_in` -/
  dims_in : Nat := 0
  /-- address of the array `dim_mults` -/
  dim_mults : Nat := 0
  /-- address of the array `extents` -/
  extents : Nat := 0
  /-- number of entries of `variable_ids` and `material_names`, 0 for `ndims` -/
  n_ids : Int := 0
  /-- address of the pointer array `variable_ids` -/
  variable_ids : Nat := 0
  /-- the addresses stored in the array `variable_ids` -/
  variable_idsMem : Nat → Nat := fun _ => 0
  /-- address of the pointer array `material_names` -/
  material_names : Nat := 0
  /-- the addresses stored in the array `material_names` -/
  material_namesMem : Nat → Nat := fun _ => 0
  /-- datatype of the data as stored in the file -/
  datatype : Nat := 0
  /-- datatype of the data as handed out -/
  datatype_out : Nat := 0
  /-- size in bytes of an element as handed out -/
  type_size_out : Int := 0
  /-- MPI type of an element as handed out -/
  mpitype_out : Nat := 0

/-- The handle with its byte stream, its list of blocks and its own buffers. -/
structure sdf_file_full_t extends sdf_file_t where
  /-- the byte stream, `0` when the file is not open -/
  filehandle : Nat := 0
  /-- the blocks reached from `blocklist` through `next` -/
  blocklist : List sdf_block_full_t := []
  /-- the number of blocks -/
  nblocks : Int := 0
  /-- address of the read buffer -/
  buffer : Nat := 0
  /-- address of the code name string -/
  code_name : Nat := 0
  /-- address of the file name string -/
  filename : Nat := 0
  /-- non-zero when the caller wants 4-byte floats -/
  use_float : Int := 0

/-! ## `sdf_free_block`, `sdf_free_blocklist_data`, `sdf_free_handle`, `sdf_fclose`, `sdf_close` -/

/-- What the functions on the handle do to the world outside the handle: they
release memory and close the byte stream. Blocks are named by their position in
the list. -/
inductive HandleEvent where
  /-- `MPI_Barrier` and `MPI_File_close` on the byte stream -/
  | closed (filehandle : Nat)
  /-- a `free` made by `sdf_free_block_data` on block `i` -/
  | blockData (i : Nat) (c : FreeCall)
  /-- `free` of a metadata buffer of block `i` in `sdf_free_block` -/
  | blockMeta (i : Nat) (addr : Nat)
  /-- `free(b)` on block `i` in `sdf_free_block` -/
  | blockObject (i : Nat)
  /-- `free(h->buffer)` -/
  | buffer (addr : Nat)
  /-- `free(h->code_name)` -/
  | code_name (addr : Nat)
  /-- `free(h->filename)` -/
  | filename (addr : Nat)
  /-- `free(h)` -/
  | handleObject
  deriving DecidableEq, Repr

/-- What a function on the handle leaves behind: the value returned, the handle
(`none` for a null pointer and for a handle that has been freed) and what it did
to memory and to the byte stream, in order. -/
structure HandleResult where
  /-- the value returned -/
  ret : Int
  /-- the handle after the call -/
  handle : Option sdf_file_full_t
  /-- the events, in order -/
  events : List HandleEvent

/-- The calls `if (p) free(p)` on a list of pointers, in order. -/
def freeNonNull (ps : List Nat) : List Nat := ps.filter (fun p => decide (p ≠ 0))

/-- The macro `FREE_ARRAY(value)` (lines 101-112): the addresses it frees. -/
def FREE_ARRAY (b : sdf_block_full_t) (value : Nat) (valueMem : Nat → Nat) : List Nat :=
  if value ≠ 0 then
    (if b.n_ids ≠ 0 then freeNonNull ((List.range b.n_ids.toNat).map valueMem)
     else freeNonNull ((List.range b.ndims).map valueMem)) ++ [value]
  else []

/-- The C function `sdf_free_block(h, b)` (lines 141-162) on the block at position
`i` of the list: the events. The block is gone afterwards. -/
def sdf_free_block (h : sdf_file_full_t) (i : Nat) (b : sdf_block_full_t) : List HandleEvent :=
  ((freeNonNull [b.id, b.units, b.mesh_id, b.material_id, b.name, b.material_name,
        b.dims_in, b.dim_mults, b.extents]
      ++ FREE_ARRAY b b.variable_ids b.variable_idsMem
      ++ FREE_ARRAY b b.material_names b.material_namesMem).map (HandleEvent.blockMeta i))
    ++ (sdf_free_block_data h.tosdf_file_t (some b.tosdf_block_t)).freed.map
        (HandleEvent.blockData i)
    ++ [HandleEvent.blockObject i]

/-- The loop of `sdf_free_handle` (lines 198-203): `k` iterations are left, `i` is
the position of the block `b` points to, the list holds the blocks from `b` on.
The loop is left at a block that has no successor, before that block is freed. -/
def freeHandleLoop (h : sdf_file_full_t) :
    Nat → Nat → List sdf_block_full_t → List HandleEvent
  | 0, _, _ => []
  | _ + 1, _, [] => []
  | _ + 1, _, [_] => []
  | k + 1, i, b :: b' :: rest => sdf_free_block h i b ++ freeHandleLoop h k (i + 1) (b' :: rest)

/-- The C function `sdf_free_handle(h)` (lines 188-214). -/
def sdf_free_handle (h : Option sdf_file_full_t) : HandleResult :=
  match h with
  | none => { ret := 1, handle := none, events := [] }
  | some h =>
    if h.filehandle = 0 then { ret := 1, handle := some h, events := [] }
    else
      { ret := 0
        handle := none
        events :=
          freeHandleLoop h h.nblocks.toNat 0 h.blocklist
            ++ (if h.buffer ≠ 0 then [HandleEvent.buffer h.buffer] else [])
            ++ (if h.code_name ≠ 0 then [HandleEvent.code_name h.code_name] else [])
            ++ (if h.filename ≠ 0 then [HandleEvent.filename h.filename] else [])
            ++ [HandleEvent.handleObject] }

/-- The C function `sdf_fclose(h)` (lines 218-233). -/
def sdf_fclose (h : Option sdf_file_full_t) : HandleResult :=
  match h with
  | none => { ret := 1, handle := none, events := [] }
  | some h =>
    if h.filehandle = 0 then { ret := 1, handle := some h, events := [] }
    else
      { ret := 0
        handle := some { h with filehandle := 0 }
        events := [HandleEvent.closed h.filehandle] }

/-- The C function `sdf_close(h)` (lines 237-248): `sdf_fclose`, then
`sdf_free_handle` on what it left; the values the two return are not looked at. -/
def sdf_close (h : Option sdf_file_full_t) : HandleResult :=
  match h with
  | none => { ret := 1, handle := none, events := [] }
  | some h =>
    if h.filehandle = 0 then { ret := 1, handle := some h, events := [] }
    else
      let r1 := sdf_fclose (some h)
      let r2 := sdf_free_handle r1.handle
      { ret := 0, handle := r2.handle, events := r1.events ++ r2.events }

/-- Modelled from the spec: the constant `SDF_DATATYPE_REAL8` of `sdf.h` (not among
the sources), the tag of the stored datatype "full (8-byte float)". -/
def SDF_DATATYPE_REAL8 : Nat := 4

/-- Modelled from the spec: the constant `SDF_DATATYPE_REAL4` of `sdf.h` (not among
the sources), the tag of the "reduced (4-byte float)" datatype. -/
def SDF_DATATYPE_REAL4 : Nat := 3

/-- What a buffer holds: an array of `double`, an array of `float`, or nothing
that can be relied on. -/
inductive Content (D F : Type) where
  /-- an array of 8-byte floats -/
  | doubles (v : List D)
  /-- an array of 4-byte floats -/
  | floats (v : List F)
  /-- no defined content -/
  | undefined

/-- A call of the allocator. -/
inductive MemEvent where
  /-- `malloc(size)` returned `addr` -/
  | malloc (size : Int) (addr : Nat)
  /-- `free(addr)` -/
  | free (addr : Nat)
  deriving DecidableEq, Repr

/-- What `sdf_convert_array_to_float` leaves behind. -/
structure ConvertResult (D F : Type) where
  /-- the value returned -/
  ret : Int
  /-- the block after the call -/
  block : sdf_block_full_t
  /-- the pointer `*var_in` after the call -/
  var_in : Nat
  /-- the content of the buffer `*var_in` points to after the call -/
  content : Content D F
  /-- the calls of the allocator, in order -/
  events : List MemEvent

/-- The loop `*r4++ = (float)(*r8++)` over `count` elements read as `double` from
the old buffer: defined when the old buffer holds at least `count` doubles. -/
def narrowed {D F : Type} (cast : D → F) (old : Content D F) (count : Int) : Content D F :=
  match old with
  | Content.doubles v =>
    if count.toNat ≤ v.length then Content.floats ((v.take count.toNat).map cast)
    else Content.undefined
  | _ => if count ≤ 0 then Content.floats [] else Content.undefined

/-- The C function `sdf_convert_array_to_float(h, var_in, count)` (lines 507-527)
on the block `b = h->current_block`. `cast` is the conversion `(float)` of a
`double`, `fresh` the address that `malloc` returns, `MPI_FLOAT` the constant of
`mpi.h`; `var_in` and `content` are the pointer `*var_in` and what it points to. -/
def sdf_convert_array_to_float {D F : Type} (cast : D → F) (fresh MPI_FLOAT : Nat)
    (h : sdf_file_full_t) (b : sdf_block_full_t) (var_in : Nat) (content : Content D F)
    (count : Int) : ConvertResult D F :=
  if h.use_float ≠ 0 ∧ b.datatype = SDF_DATATYPE_REAL8 then
    { ret := 0
      block := { b with datatype_out := SDF_DATATYPE_REAL4, type_size_out := 4,
                        mpitype_out := MPI_FLOAT }
      var_in := fresh
      content := narrowed cast content count
      events := MemEvent.malloc (count * 4) fresh
        :: (if h.mmap = 0 then [MemEvent.free var_in] else []) }
  else
    { ret := 0, block := b, var_in := var_in, content := content, events := [] }

/-- A handle that asks for 4-byte floats. -/
def floatHandle : sdf_file_full_t := { use_float := 1 }

/-- A block whose stored datatype is the 8-byte float. -/
def real8Block : sdf_block_full_t :=
  { datatype := SDF_DATATYPE_REAL8, datatype_out := SDF_DATATYPE_REAL8, type_size_out := 8 }

/-- A 2-D block of 11 x 11 samples staggered on every axis (the vertex stagger,
7), not yet decomposed. -/
def vertexBlock : sdf_block_t := { ndims := 2, dims := arr3 11 11 0, stagger := 7 }

/-- Truncation to `uint32_t`. -/
def u32 (x : Nat) : Nat := x % 2 ^ 32

/-- The static variables of the generator (line 565): the table `Q` of 41790
entries and `indx`, `carry`, `xcng`, `xs`. -/
structure RngState where
  /-- the table `Q` -/
  Q : Fin 41790 → Nat
  /-- the cursor into `Q` -/
  indx : Nat
  /-- the carry of the multiply-with-carry generator -/
  carry : Nat
  /-- the state of the congruential generator -/
  xcng : Nat
  /-- the state of the xorshift generator -/
  xs : Nat

/-- The macro `CNG (xcng = 69609 * xcng + 123)`: the new `xcng`, which is also the
value of the expression. -/
def CNG (xcng : Nat) : Nat := u32 (69609 * xcng + 123)

/-- The macro `XS (xs ^= xs<<13, xs ^= (unsigned)xs>>17, xs ^= xs>>5)`: the new
`xs`, which is also the value of the expression. -/
def XS (xs : Nat) : Nat :=
  let xs1 := xs ^^^ u32 (xs <<< 13)
  let xs2 := xs1 ^^^ (xs1 >>> 17)
  xs2 ^^^ (xs2 >>> 5)

/-- One iteration of the loop of `refill` (lines 577-579) on entry `i`:
`t = 7010176LL * Q[i] + carry; carry = (t>>32); Q[i] =~ (t);`. -/
def refillStep (s : RngState) (i : Fin 41790) : RngState :=
  let t := (7010176 * s.Q i + s.carry) % 2 ^ 64
  { s with carry := u32 (t >>> 32), Q := Function.update s.Q i (u32 (2 ^ 64 - 1 - t)) }

/-- The C function `refill()` (lines 572-583): the value returned and the state. -/
def refill (s : RngState) : Nat × RngState :=
  let s1 := (List.finRange 41790).foldl refillStep s
  (s1.Q ⟨0, by decide⟩, { s1 with indx := 1 })

/-- The macro `SUPR (indx < 41790 ? Q[indx++] : refill())`. -/
def SUPR (s : RngState) : Nat × RngState :=
  if h : s.indx < 41790 then (s.Q ⟨s.indx, h⟩, { s with indx := s.indx + 1 })
  else refill s

/-- The C function `sdf_random()` (lines 586-589), `KISS = SUPR + CNG + XS` in
`uint32_t`: the value returned and the state. -/
def sdf_random (s : RngState) : Nat × RngState :=
  let r := SUPR s
  let xcng := CNG r.2.xcng
  let xs := XS r.2.xs
  (u32 (r.1 + xcng + xs), { r.2 with xcng := xcng, xs := xs })

/-- One iteration of the first loop of `sdf_random_init` (line 599):
`Q[i] = CNG + XS`. -/
def seedStep (s : RngState) (i : Fin 41790) : RngState :=
  let xcng := CNG s.xcng
  let xs := XS s.xs
  { s with xcng := xcng, xs := xs, Q := Function.update s.Q i (u32 (xcng + xs)) }

/-- The C function `sdf_random_init()` (lines 592-601). -/
def sdf_random_init (s : RngState) : RngState :=
  let s0 : RngState :=
    { Q := s.Q, indx := 41790, carry := 362436, xcng := 1236789, xs := 521288629 }
  let s1 := (List.finRange 41790).foldl seedStep s0
  (List.range 41790).foldl (fun st _ => (sdf_random st).2) s1

/-- The values of `n` calls of `sdf_random()` in a row, and the state after them. -/
def draws : Nat → RngState → List Nat × RngState
  | 0, s => ([], s)
  | n + 1, s =>
    let r := sdf_random s
    let rest := draws n r.2
    (r.1 :: rest.1, rest.2)

/-- The expression `1LL * count * sdf_random() / SDF_MAX_RND` assigned to an `int`
(lines 542-543), for the draw `d`: a product in `long long`, divided by
`1LL<<32`. -/
def swapIndex (count : Int) (d : Nat) : Int :=
  toI32 (Int.tdiv (toI64 (toI64 (1 * count) * (d : Int))) (2 ^ 32))

/-- What the loop of `sdf_randomize_array` carries: the array, the generator and
(ghost) the pairs of indices swapped so far. -/
structure ShuffleState (α : Type) where
  /-- the array `*var_in` -/
  array : Nat → α
  /-- the generator -/
  rng : RngState
  /-- the pairs `(id1, id2)` swapped, in order -/
  swaps : List (Int × Int)

/-- One iteration of the loop of `sdf_randomize_array` (lines 542-546). -/
def shuffleStep {α : Type} (count : Int) (st : ShuffleState α) : ShuffleState α :=
  let r1 := sdf_random st.rng
  let id1 := swapIndex count r1.1
  let r2 := sdf_random r1.2
  let id2 := swapIndex count r2.1
  let tmp := st.array id1.toNat
  let a1 := Function.update st.array id1.toNat (st.array id2.toNat)
  let a2 := Function.update a1 id2.toNat tmp
  { array := a2, rng := r2.2, swaps := st.swaps ++ [(id1, id2)] }

/-- The C function `sdf_randomize_array(h, var_in, count)` (lines 531-562) on the
block `b = h->current_block`: the value returned and the final state of the loop.
The two branches, for an array of `double` and for an array of `float`, run the
same statements; `α` is the element type of the branch taken. -/
def sdf_randomize_array {α : Type} (s : RngState) (b : sdf_block_full_t)
    (array : Nat → α) (count : Int) : Int × ShuffleState α :=
  let s0 := sdf_random_init s
  if b.datatype_out = SDF_DATATYPE_REAL8 then
    (0, (List.range count.toNat).foldl (fun st _ => shuffleStep count st)
      { array := array, rng := s0, swaps := [] })
  else
    (0, (List.range count.toNat).foldl (fun st _ => shuffleStep count st)
      { array := array, rng := s0, swaps := [] })

/-- A generator that has never been used: the state of zero-initialised statics. -/
def zeroRng : RngState :=
  { Q := fun _ => 0, indx := 0, carry := 0, xcng := 0, xs := 0 }

/-! ## Notions used to state and prove what the search keeps -/

/-- The candidate cell counts `grid` of the corner loops of `factor2d` (lines
338-340) for the combination `[t0, t1]`, in the order of the loops. -/
def corners2 (dims : Nat → Nat) (t0 t1 : Int) : List Int :=
  let g0 := gridsOf (dims 0) t0
  let g1 := gridsOf (dims 1) t1
  [g0.1 * g1.1, g0.1 * g1.2, g0.2 * g1.1, g0.2 * g1.2]

/-- The candidate cell counts `grid` of the corner loops of `factor3d` (lines
396-399) for the combination `[t0, t1, t2]`, in the order of the loops. -/
def corners3 (dims : Nat → Nat) (t0 t1 t2 : Int) : List Int :=
  let g0 := gridsOf (dims 0) t0
  let g1 := gridsOf (dims 1) t1
  let g2 := gridsOf (dims 2) t2
  [g0.1 * g1.1 * g2.1, g0.1 * g1.1 * g2.2, g0.1 * g1.2 * g2.1, g0.1 * g1.2 * g2.2,
   g0.2 * g1.1 * g2.1, g0.2 * g1.1 * g2.2, g0.2 * g1.2 * g2.1, g0.2 * g1.2 * g2.2]

/-- The two per-rank sizes of an axis of `d` elements cut into `t` pieces that the
search tries: `floor(d/t)`, and `floor(d/t) + 1`, replaced by 0 when `t` divides
`d`. This is `gridsOf` for values that fit an `int`. -/
def sizesOf (d : Nat) (t : Int) : Int × Int :=
  ((d : Int) / t, if (d : Int) % t = 0 then 0 else (d : Int) / t + 1)

/-- The candidate cell counts of the combination `[t0, t1]`: the products of one
of the two sizes of each axis. -/
def candidates2 (dims : Nat → Nat) (t0 t1 : Int) : List Int :=
  let g0 := sizesOf (dims 0) t0
  let g1 := sizesOf (dims 1) t1
  [g0.1 * g1.1, g0.1 * g1.2, g0.2 * g1.1, g0.2 * g1.2]

/-- The candidate cell counts of the combination `[t0, t1, t2]`. -/
def candidates3 (dims : Nat → Nat) (t0 t1 t2 : Int) : List Int :=
  let g0 := sizesOf (dims 0) t0
  let g1 := sizesOf (dims 1) t1
  let g2 := sizesOf (dims 2) t2
  [g0.1 * g1.1 * g2.1, g0.1 * g1.1 * g2.2, g0.1 * g1.2 * g2.1, g0.1 * g1.2 * g2.2,
   g0.2 * g1.1 * g2.1, g0.2 * g1.1 * g2.2, g0.2 * g1.2 * g2.1, g0.2 * g1.2 * g2.2]

/-- The float `deviation = ABS(grid - gridav)` of a candidate cell count (lines
341, 400). -/
def deviationOf (fm : FloatOps) (gridav : fm.F) (grid : Int) : fm.F :=
  ABS fm (fm.sub (fm.ofInt grid) gridav)

/-- The float total of `factor2d`: the value of `gridav` after the first loop
(lines 304-310), which is the initial `mindeviation`. -/
def floatTotal2 (fm : FloatOps) (dims : Nat → Nat) : fm.F :=
  fm.mul (fm.mul (fm.ofInt 1) (fm.ofInt (dims 0))) (fm.ofInt (dims 1))

/-- The float total of `factor3d` (lines 362-368). -/
def floatTotal3 (fm : FloatOps) (dims : Nat → Nat) : fm.F :=
  fm.mul (fm.mul (fm.mul (fm.ofInt 1) (fm.ofInt (dims 0))) (fm.ofInt (dims 1)))
    (fm.ofInt (dims 2))

/-- The float average `gridav = gridav / ncpus` of `factor2d` (line 312). -/
def floatAverage2 (fm : FloatOps) (ncpus : Int) (dims : Nat → Nat) : fm.F :=
  fm.div (floatTotal2 fm dims) (fm.ofInt ncpus)

/-- The float average `gridav = gridav / ncpus` of `factor3d` (line 370). -/
def floatAverage3 (fm : FloatOps) (ncpus : Int) (dims : Nat → Nat) : fm.F :=
  fm.div (floatTotal3 fm dims) (fm.ofInt ncpus)

/-- The least of `m` and the floats `ds` for the float comparison, the earlier
one among equals. -/
def leastOf (fm : FloatOps) (m : fm.F) (ds : List fm.F) : fm.F :=
  ds.foldl (fun m d => if fm.lt d m then d else m) m

/-- The least float deviation among the candidate cell counts `gs`. -/
def bestCandidate (fm : FloatOps) (gridav : fm.F) : List Int → fm.F
  | [] => fm.ofInt 0
  | g :: gs => leastOf fm (deviationOf fm gridav g) (gs.map (deviationOf fm gridav))

/-- The least float deviation among the candidates of the combination `[t0, t1]`. -/
def bestCandidate2 (fm : FloatOps) (ncpus : Int) (dims : Nat → Nat) (t0 t1 : Int) : fm.F :=
  bestCandidate fm (floatAverage2 fm ncpus dims) (candidates2 dims t0 t1)

/-- The least float deviation among the candidates of the combination
`[t0, t1, t2]`. -/
def bestCandidate3 (fm : FloatOps) (ncpus : Int) (dims : Nat → Nat) (t0 t1 t2 : Int) :
    fm.F :=
  bestCandidate fm (floatAverage3 fm ncpus dims) (candidates3 dims t0 t1 t2)

/-- The state of the search after the combinations `Done` have been tried, for a
float comparison that is the order of the values `val`: either nothing has been
stored, `mindeviation` is still the initial one and no combination tried has a
candidate below it; or the combination `w` stored is one of those tried,
`mindeviation` is its least deviation `key w`, no combination tried has a smaller
one, and those tried before `w` have a larger one. -/
def SearchInv {ι α : Type} [LinearOrder α] (fm : FloatOps) (val : fm.F → α) (m0 : α)
    (cs : Nat → Int) (k : Nat) (key : ι → α) (tmpOf : ι → Nat → Int)
    (Before : ι → ι → Prop) (Done : ι → Prop) (st : FactorState fm) : Prop :=
  (st.assigned = false ∧ val st.mindeviation = m0 ∧ st.cpu_split = cs ∧
      ∀ t, Done t → m0 ≤ key t) ∨
  (st.assigned = true ∧ ∃ w, Done w ∧
      st.cpu_split = (fun n => if n < k then tmpOf w n else cs n) ∧
      val st.mindeviation = key w ∧ key w < m0 ∧
      ∀ t, Done t → key w ≤ key t ∧ (Before t w → key w < key t))

/-- The state of the search as far as writing goes: either nothing has been stored
and `mindeviation` is still the initial one `m0`, or something has been stored and
the fact `W` holds. -/
def WriteInv (fm : FloatOps) (m0 : fm.F) (W : Prop) (st : FactorState fm) : Prop :=
  (st.assigned = false ∧ st.mindeviation = m0) ∨ (st.assigned = true ∧ W)

/-- The per-rank size of an axis of `d` elements split into `t` pieces, rounded
down. -/
def floorSize (d : Nat) (t : Int) : Int := (d : Int) / t

/-- The per-rank size of an axis of `d` elements split into `t` pieces, rounded
up. -/
def ceilSize (d : Nat) (t : Int) : Int := ((d : Int) + t - 1) / t

/-- The deviation `|cells - total / ncpus|` of a per-rank cell count from the
average, computed exactly. -/
def cornerDeviation (ncpus total cells : Int) : ℚ :=
  |(cells : ℚ) - (total : ℚ) / (ncpus : ℚ)|

/-- The exact deviation of the best corner of the combination `[t0, t1]`: the
smallest deviation over the choices of the floor or the ceiling size on each
axis. -/
def bestCorner2 (ncpus : Int) (dims : Nat → Nat) (t0 t1 : Int) : ℚ :=
  let dev := cornerDeviation ncpus ((dims 0 : Int) * (dims 1 : Int))
  let f0 := floorSize (dims 0) t0
  let c0 := ceilSize (dims 0) t0
  let f1 := floorSize (dims 1) t1
  let c1 := ceilSize (dims 1) t1
  min (min (min (dev (f0 * f1)) (dev (f0 * c1))) (dev (c0 * f1))) (dev (c0 * c1))

/-- The combinations of two split factors the search chooses among: each factor
between 1 and `min(ncpus, dims[n])`, the product equal to
`min(ncpus, product of min(ncpus, dims[n]))`. -/
def admissible2 (ncpus : Int) (dims : Nat → Nat) (t0 t1 : Int) : Prop :=
  (1 ≤ t0 ∧ t0 ≤ min ncpus (dims 0)) ∧ (1 ≤ t1 ∧ t1 ≤ min ncpus (dims 1)) ∧
  t0 * t1 = min ncpus (min ncpus (dims 0) * min ncpus (dims 1))

/-- The combinations of three split factors the search chooses among. -/
def admissible3 (ncpus : Int) (dims : Nat → Nat) (t0 t1 t2 : Int) : Prop :=
  (1 ≤ t0 ∧ t0 ≤ min ncpus (dims 0)) ∧ (1 ≤ t1 ∧ t1 ≤ min ncpus (dims 1)) ∧
  (1 ≤ t2 ∧ t2 ≤ min ncpus (dims 2)) ∧
  t0 * t1 * t2
    = min ncpus (min ncpus (dims 0) * min ncpus (dims 1) * min ncpus (dims 2))

/-- The combination `t` comes before `w` in the enumeration of `factor2d`: axis 1
is the outer loop, and both loops run from the largest factor down. -/
def precedes2 (t w : Int × Int) : Prop :=
  w.2 < t.2 ∨ (w.2 = t.2 ∧ w.1 < t.1)

/-- The combination `t` comes before `w` in the enumeration of `factor3d`: axis 2
is the outermost loop, axis 0 the innermost, all from the largest factor down. -/
def precedes3 (t w : Int × Int × Int) : Prop :=
  w.2.2 < t.2.2 ∨ (w.2.2 = t.2.2 ∧ (w.2.1 < t.2.1 ∨ (w.2.1 = t.2.1 ∧ w.1 < t.1)))

/-! ## Inputs beyond the range of `int`, and of a list shorter than `nblocks` -/

/-- A cell-centred axis of 2^32 + 10 cells in one piece. -/
def wideBlock : sdf_block_t :=
  { ndims := 1, dims := arr3 4294967306 0 0, cpu_split := arr3 1 0 0 }

theorem extentsLoop_succ (pn rank : Int) (k : Nat) (dims : Nat → Nat) (s : Nat → Int)
    (st : ExtState) :
    extentsLoop pn rank (k + 1) dims s st
      = extentsAxis pn rank dims s (extentsLoop pn rank k dims s st) k := by
  simp [extentsLoop, List.range_succ, List.foldl_append]

theorem extentsAxis_eq (pn rank : Int) (dims : Nat → Nat) (s : Nat → Int)
    (st : ExtState) (n : Nat) :
    extentsAxis pn rank dims s st n =
      { div := st.div * s n
        proc_min := Function.update st.proc_min n
          (if Int.tmod (Int.tdiv rank st.div) (s n) = 0 then pn else rank - st.div)
        proc_max := Function.update st.proc_max n
          (if Int.tmod (Int.tdiv rank st.div) (s n) = s n - 1 then pn else rank + st.div)
        start := Function.update st.start n
          (axisStart (dims n) (s n) (Int.tmod (Int.tdiv rank st.div) (s n)))
        local_ := Function.update st.local_ n
          (axisLocal (dims n) (s n) (Int.tmod (Int.tdiv rank st.div) (s n))) } := by
  unfold extentsAxis axisStart axisLocal
  simp only []
  split <;> rfl

theorem update_below (k : Nat) (f g : Nat → Int) :
    Function.update (fun n => if n < k then g n else f n) k (g k)
      = fun n => if n < k + 1 then g n else f n := by
  funext n
  by_cases hn : n = k
  · subst hn; simp
  · rw [Function.update_noteq hn]
    by_cases h1 : n < k
    · have : n < k + 1 := by omega
      simp [h1, this]
    · have : ¬ n < k + 1 := by omega
      simp [h1, this]

theorem extentsLoop_closed (pn rank : Int) (dims : Nat → Nat) (s : Nat → Int)
    (st0 : ExtState) (h0 : st0.div = 1) (k : Nat) :
    extentsLoop pn rank k dims s st0 = extentsClosed pn rank dims s st0 k := by
  induction k with
  | zero =>
    cases st0
    simp_all [extentsLoop, extentsClosed, prodBelow]
  | succ k ih =>
    rw [extentsLoop_succ, ih, extentsAxis_eq]
    simp only [extentsClosed, prodBelow]
    have e1 := update_below k st0.proc_min
      (fun n => if coordOf s rank n = 0 then pn else rank - prodBelow s n)
    have e2 := update_below k st0.proc_max
      (fun n => if coordOf s rank n = s n - 1 then pn else rank + prodBelow s n)
    have e3 := update_below k st0.start
      (fun n => axisStart (dims n) (s n) (coordOf s rank n))
    have e4 := update_below k st0.local_
      (fun n => axisLocal (dims n) (s n) (coordOf s rank n))
    simp only [coordOf] at e1 e2 e3 e4 ⊢
    rw [e1, e2, e3, e4]

/-! ## Mixed-radix arithmetic of ranks -/

theorem prodBelowN_pos (t : Nat → Nat) (k : Nat) (h : ∀ n, n < k → 0 < t n) :
    0 < prodBelowN t k := by
  induction k with
  | zero => simp [prodBelowN]
  | succ k ih =>
    simp only [prodBelowN]
    exact Nat.mul_pos (ih fun n hn => h n (by omega)) (h k (by omega))

theorem prodBelowN_dvd (t : Nat → Nat) (n k : Nat) (h : n < k) :
    prodBelowN t n * t n ∣ prodBelowN t k := by
  induction k with
  | zero => omega
  | succ k ih =>
    by_cases hk : n = k
    · subst hk; exact dvd_rfl
    · exact Dvd.dvd.mul_right (ih (by omega)) _

theorem encodeN_coordN (t : Nat → Nat) (r k : Nat) :
    encodeN t (coordN t r) k = r % prodBelowN t k := by
  induction k with
  | zero => simp [encodeN, prodBelowN, Nat.mod_one]
  | succ k ih =>
    simp only [encodeN, prodBelowN, ih, coordN]
    rw [Nat.mod_mul, Nat.mul_comm (r / prodBelowN t k % t k)]

theorem encodeN_congr (t c c' : Nat → Nat) (k : Nat) (h : ∀ n, n < k → c n = c' n) :
    encodeN t c k = encodeN t c' k := by
  induction k with
  | zero => rfl
  | succ k ih =>
    simp only [encodeN]
    rw [ih (fun n hn => h n (by omega)), h k (by omega)]

theorem encodeN_lt (t c : Nat → Nat) (k : Nat) (h : ∀ n, n < k → c n < t n) :
    encodeN t c k < prodBelowN t k := by
  induction k with
  | zero => simp [encodeN, prodBelowN]
  | succ k ih =>
    have h1 := ih fun n hn => h n (by omega)
    have h2 := h k (by omega)
    simp only [encodeN, prodBelowN]
    calc encodeN t c k + c k * prodBelowN t k
        < prodBelowN t k + c k * prodBelowN t k := by omega
      _ = (c k + 1) * prodBelowN t k := by ring
      _ ≤ t k * prodBelowN t k := Nat.mul_le_mul_right _ h2
      _ = prodBelowN t k * t k := Nat.mul_comm _ _

theorem coordN_encodeN (t c : Nat → Nat) (k : Nat) (h : ∀ n, n < k → c n < t n) :
    ∀ n, n < k → coordN t (encodeN t c k) n = c n := by
  induction k with
  | zero => intro n hn; omega
  | succ k ih =>
    intro n hn
    have hlt := encodeN_lt t c k fun m hm => h m (by omega)
    have hpos : 0 < prodBelowN t k := by omega
    by_cases hk : n = k
    · subst hk
      simp only [encodeN, coordN]
      rw [Nat.mul_comm, Nat.add_mul_div_left _ _ hpos, Nat.div_eq_of_lt hlt, Nat.zero_add]
      exact Nat.mod_eq_of_lt (h n (by omega))
    · have hn2 : n < k := by omega
      obtain ⟨M, hM⟩ := prodBelowN_dvd t n k hn2
      have hpn : 0 < prodBelowN t n := by
        rcases Nat.eq_zero_or_pos (prodBelowN t n) with h0 | h0
        · rw [h0] at hM; omega
        · exact h0
      have := ih (fun m hm => h m (by omega)) n hn2
      simp only [encodeN, coordN] at this ⊢
      rw [hM]
      have e : encodeN t c k + c k * (prodBelowN t n * t n * M)
          = encodeN t c k + prodBelowN t n * (t n * (M * c k)) := by ring
      rw [e, Nat.add_mul_div_left _ _ hpn, Nat.add_mul_mod_self_left]
      exact this

theorem rank_eq_of_coordN_eq (t : Nat → Nat) (k r r' : Nat)
    (hr : r < prodBelowN t k) (hr' : r' < prodBelowN t k)
    (h : ∀ n, n < k → coordN t r n = coordN t r' n) : r = r' := by
  have e1 := encodeN_coordN t r k
  have e2 := encodeN_coordN t r' k
  rw [Nat.mod_eq_of_lt hr] at e1
  rw [Nat.mod_eq_of_lt hr'] at e2
  rw [← e1, ← e2]
  exact encodeN_congr t _ _ k h

theorem coordN_lt (t : Nat → Nat) (r n : Nat) (h : 0 < t n) : coordN t r n < t n :=
  Nat.mod_lt _ h

/-! ## From the integers of the code to naturals -/

theorem prodBelow_eq_cast (s : Nat → Int) (k : Nat) (h : ∀ n, n < k → 1 ≤ s n) :
    prodBelow s k = ((prodBelowN (fun m => (s m).toNat) k : Nat) : Int) := by
  induction k with
  | zero => simp [prodBelow, prodBelowN]
  | succ k ih =>
    have hk := h k (by omega)
    simp only [prodBelow, prodBelowN, ih fun n hn => h n (by omega)]
    push_cast
    rw [Int.toNat_of_nonneg (by omega)]

theorem prodBelow_pos (s : Nat → Int) (k : Nat) (h : ∀ n, n < k → 1 ≤ s n) :
    0 < prodBelow s k := by
  rw [prodBelow_eq_cast s k h]
  have := prodBelowN_pos (fun m => (s m).toNat) k (fun n hn => by
    have := h n hn
    show 0 < (s n).toNat
    omega)
  exact_mod_cast this

theorem tdiv_cast (a b : Nat) : Int.tdiv (a : Int) (b : Int) = ((a / b : Nat) : Int) :=
  (Int.ofNat_tdiv a b).symm

theorem tmod_cast (a b : Nat) : Int.tmod (a : Int) (b : Int) = ((a % b : Nat) : Int) := by
  rw [Int.tmod_eq_emod (by omega) (by omega)]
  norm_cast

theorem coordOf_eq_cast (s : Nat → Int) (r : Nat) (n : Nat) (h : ∀ m, m ≤ n → 1 ≤ s m) :
    coordOf s (r : Int) n = ((coordN (fun m => (s m).toNat) r n : Nat) : Int) := by
  unfold coordOf coordN
  rw [prodBelow_eq_cast s n fun m hm => h m (by omega)]
  have hn := h n (le_refl n)
  have e : s n = (((s n).toNat : Nat) : Int) := by omega
  rw [tdiv_cast]
  conv_lhs => rw [e]
  rw [tmod_cast]

theorem coordOf_bounds (s : Nat → Int) (r : Int) (n : Nat) (hr : 0 ≤ r)
    (h : ∀ m, m ≤ n → 1 ≤ s m) : 0 ≤ coordOf s r n ∧ coordOf s r n < s n := by
  obtain ⟨r, rfl⟩ := Int.eq_ofNat_of_zero_le hr
  rw [coordOf_eq_cast s r n h]
  have hn := h n (le_refl n)
  have := coordN_lt (fun m => (s m).toNat) r n (by show 0 < (s n).toNat; omega)
  simp only at this
  omega

/-! ## One axis: sizes and starts -/

theorem axis_div_mod (d : Nat) (s : Int) (hs : 1 ≤ s) :
    Int.tdiv (d : Int) s = (d : Int) / s ∧
      (d : Int) - s * ((d : Int) / s) = (d : Int) % s := by
  refine ⟨Int.tdiv_eq_ediv (by omega) (by omega), ?_⟩
  rw [Int.emod_def]

theorem idealLocal_eq (d : Nat) (s c : Int) (hs : 1 ≤ s) :
    idealLocal d s c = if c < (d : Int) % s then (d : Int) / s + 1 else (d : Int) / s := by
  obtain ⟨e1, e2⟩ := axis_div_mod d s hs
  unfold idealLocal
  simp only []
  rw [e1, e2]
  by_cases h : c < (d : Int) % s
  · rw [if_neg (by omega), if_pos h]
  · rw [if_pos (by omega), if_neg h]

theorem idealStart_eq (d : Nat) (s c : Int) (hs : 1 ≤ s) :
    idealStart d s c =
      if c < (d : Int) % s then c * ((d : Int) / s + 1)
      else (d : Int) % s * ((d : Int) / s + 1) + (c - (d : Int) % s) * ((d : Int) / s) := by
  obtain ⟨e1, e2⟩ := axis_div_mod d s hs
  unfold idealStart
  simp only []
  rw [e1, e2]
  by_cases h : c < (d : Int) % s
  · rw [if_neg (by omega), if_pos h]
  · rw [if_pos (by omega), if_neg h]

theorem idealStart_zero (d : Nat) (s : Int) (hs : 1 ≤ s) : idealStart d s 0 = 0 := by
  rw [idealStart_eq d s 0 hs]
  have := Int.emod_nonneg (d : Int) (show s ≠ 0 by omega)
  split
  · simp
  · have : (d : Int) % s = 0 := by omega
    simp [this]

theorem idealStart_succ (d : Nat) (s c : Int) (hs : 1 ≤ s) :
    idealStart d s (c + 1) = idealStart d s c + idealLocal d s c := by
  rw [idealStart_eq d s _ hs, idealStart_eq d s c hs, idealLocal_eq d s c hs]
  by_cases h1 : c + 1 < (d : Int) % s
  · have h2 : c < (d : Int) % s := by omega
    simp only [h1, h2, if_true]
    ring
  · by_cases h2 : c < (d : Int) % s
    · have h3 : (d : Int) % s = c + 1 := by omega
      rw [if_neg h1, if_pos h2, if_pos h2, h3]
      ring
    · simp only [h1, h2, if_false]
      ring

theorem idealStart_full (d : Nat) (s : Int) (hs : 1 ≤ s) : idealStart d s s = d := by
  rw [idealStart_eq d s s hs]
  have h1 := Int.emod_lt_of_pos (d : Int) (show 0 < s by omega)
  have h2 := Int.emod_add_ediv (d : Int) s
  simp only [not_lt.mpr (le_of_lt h1), if_false]
  linear_combination h2

theorem idealLocal_nonneg (d : Nat) (s c : Int) (hs : 1 ≤ s) : 0 ≤ idealLocal d s c := by
  rw [idealLocal_eq d s c hs]
  have : 0 ≤ (d : Int) / s := Int.ediv_nonneg (by omega) (by omega)
  split <;> omega

theorem idealStart_mono (d : Nat) (s : Int) (hs : 1 ≤ s) (a b : Nat) (hab : a ≤ b) :
    idealStart d s (a : Int) ≤ idealStart d s (b : Int) := by
  induction b with
  | zero =>
    have : a = 0 := by omega
    subst this
    exact le_refl _
  | succ b ih =>
    by_cases h : a = b + 1
    · subst h; exact le_refl _
    · have h1 := ih (by omega)
      have h2 := idealStart_succ d s (b : Int) hs
      have h3 := idealLocal_nonneg d s (b : Int) hs
      push_cast
      omega

theorem axis_cover (d : Nat) (s : Int) (hs : 1 ≤ s) (x : Int) (hx0 : 0 ≤ x) (n : Nat)
    (hx : x < idealStart d s (n : Int)) :
    ∃ c : Nat, c < n ∧ idealStart d s (c : Int) ≤ x ∧
      x < idealStart d s (c : Int) + idealLocal d s (c : Int) := by
  induction n with
  | zero =>
    have := idealStart_zero d s hs
    simp only [Nat.cast_zero] at hx
    omega
  | succ n ih =>
    by_cases h : x < idealStart d s (n : Int)
    · obtain ⟨c, hc, h1, h2⟩ := ih h
      exact ⟨c, by omega, h1, h2⟩
    · refine ⟨n, by omega, by omega, ?_⟩
      have := idealStart_succ d s (n : Int) hs
      push_cast at hx
      omega

theorem axis_unique (d : Nat) (s : Int) (hs : 1 ≤ s) (x : Int) (a b : Nat)
    (ha : idealStart d s (a : Int) ≤ x ∧ x < idealStart d s (a : Int) + idealLocal d s (a : Int))
    (hb : idealStart d s (b : Int) ≤ x ∧ x < idealStart d s (b : Int) + idealLocal d s (b : Int)) :
    a = b := by
  by_contra hne
  rcases Nat.lt_or_gt_of_ne hne with h | h
  · have h1 := idealStart_mono d s hs (a + 1) b (by omega)
    have h2 := idealStart_succ d s (a : Int) hs
    push_cast at h1
    omega
  · have h1 := idealStart_mono d s hs (b + 1) a (by omega)
    have h2 := idealStart_succ d s (b : Int) hs
    push_cast at h1
    omega

theorem axis_within (d : Nat) (s : Int) (hs : 1 ≤ s) (c : Nat) (hc : (c : Int) < s) :
    0 ≤ idealStart d s (c : Int) ∧
      idealStart d s (c : Int) + idealLocal d s (c : Int) ≤ (d : Int) := by
  constructor
  · have := idealStart_mono d s hs 0 c (by omega)
    rw [Nat.cast_zero, idealStart_zero d s hs] at this
    exact this
  · have h1 := idealStart_mono d s hs (c + 1) s.toNat (by omega)
    have h2 := idealStart_succ d s (c : Int) hs
    have h3 : ((s.toNat : Nat) : Int) = s := by omega
    rw [h3, idealStart_full d s hs] at h1
    push_cast at h1
    omega

/-! ## Closed form of `sdf_get_domain_extents` -/

theorem all_ne_zero_iff (s : Nat → Int) (k : Nat) :
    (List.range k).all (fun n => decide (s n ≠ 0)) = true ↔ ∀ n, n < k → s n ≠ 0 := by
  simp [List.all_eq_true]

theorem extentsLoop_init (pn rank : Int) (k : Nat) (dims : Nat → Nat) (s : Nat → Int)
    (pm pM st lo : Nat → Int) :
    extentsLoop pn rank k dims s
        { div := 1, proc_min := pm, proc_max := pM, start := st, local_ := lo }
      = extentsClosed pn rank dims s
        { div := 1, proc_min := pm, proc_max := pM, start := st, local_ := lo } k :=
  extentsLoop_closed pn rank dims s _ rfl k

theorem sdf_get_domain_extents_eq (pn : Int) (b : sdf_block_t) (rank : Int)
    (start local_ : Nat → Int) (hs : ∀ n, n < b.ndims → b.cpu_split n ≠ 0) :
    ∃ e, sdf_get_domain_extents pn b rank start local_ = some e ∧ e.ret = 0 ∧
      (∀ n, n < b.ndims →
        e.start n = axisStart (workDims b n) (b.cpu_split n) (coordOf b.cpu_split rank n) ∧
        e.local_ n = axisLocal (workDims b n) (b.cpu_split n) (coordOf b.cpu_split rank n)
          + (if b.stagger ≠ SDF_STAGGER_CELL_CENTRE then 1 else 0) ∧
        e.block.proc_min n =
          (if coordOf b.cpu_split rank n = 0 then pn else rank - prodBelow b.cpu_split n) ∧
        e.block.proc_max n =
          (if coordOf b.cpu_split rank n = b.cpu_split n - 1 then pn
           else rank + prodBelow b.cpu_split n)) ∧
      (∀ n, b.ndims ≤ n → n < 3 → e.start n = 0 ∧ e.local_ n = 1) := by
  have hall := (all_ne_zero_iff b.cpu_split b.ndims).mpr hs
  unfold sdf_get_domain_extents
  rw [if_pos hall]
  refine ⟨_, rfl, rfl, ?_, ?_⟩
  · intro n hn
    have hn3 : ¬ (b.ndims ≤ n ∧ n < 3) := by omega
    simp only [extentsLoop_init, extentsClosed, hn, if_true, workDims, hn3, if_false]
    by_cases hst : b.stagger ≠ SDF_STAGGER_CELL_CENTRE
    · simp [hst, hn]
    · simp [hst, hn]
  · intro n hn h3
    have : ¬ n < b.ndims := by omega
    simp only [extentsLoop_init, extentsClosed, this, if_false, h3, if_true, hn, and_self]

/-! ## Ranks and their coordinates -/

theorem idealStart_eq_sum (d : Nat) (s : Int) (hs : 1 ≤ s) (c : Nat) :
    idealStart d s (c : Int) = ∑ k ∈ Finset.range c, idealLocal d s (k : Int) := by
  induction c with
  | zero => simp [idealStart_zero d s hs]
  | succ c ih =>
    rw [Finset.sum_range_succ, ← ih]
    push_cast
    exact idealStart_succ d s (c : Int) hs

/-- The rank whose rectangle holds a cell is determined by the cell: two ranks
below the product of the split factors whose rectangles (as the axis loop
computes them) share a point are equal. -/
theorem rank_unique_of_common_cell (dims : Nat → Nat) (s : Nat → Int) (k : Nat)
    (hs : ∀ n, n < k → 1 ≤ s n) (x : Nat → Int) (r r' : Int)
    (hr : 0 ≤ r) (hrP : r < prodBelow s k) (hr' : 0 ≤ r') (hrP' : r' < prodBelow s k)
    (hx : ∀ n, n < k →
      idealStart (dims n) (s n) (coordOf s r n) ≤ x n ∧
      x n < idealStart (dims n) (s n) (coordOf s r n) + idealLocal (dims n) (s n) (coordOf s r n))
    (hx' : ∀ n, n < k →
      idealStart (dims n) (s n) (coordOf s r' n) ≤ x n ∧
      x n < idealStart (dims n) (s n) (coordOf s r' n)
        + idealLocal (dims n) (s n) (coordOf s r' n)) :
    r = r' := by
  obtain ⟨a, rfl⟩ := Int.eq_ofNat_of_zero_le hr
  obtain ⟨a', rfl⟩ := Int.eq_ofNat_of_zero_le hr'
  rw [prodBelow_eq_cast s k hs] at hrP hrP'
  have hc : ∀ n, n < k →
      coordN (fun m => (s m).toNat) a n = coordN (fun m => (s m).toNat) a' n := by
    intro n hn
    have h1 := hx n hn
    have h2 := hx' n hn
    rw [coordOf_eq_cast s a n fun m hm => hs m (by omega)] at h1
    rw [coordOf_eq_cast s a' n fun m hm => hs m (by omega)] at h2
    exact axis_unique (dims n) (s n) (hs n hn) (x n) _ _ h1 h2
  have := rank_eq_of_coordN_eq (fun m => (s m).toNat) k a a' (by exact_mod_cast hrP)
    (by exact_mod_cast hrP') hc
  rw [this]

/-- Every cell of the domain lies in the rectangle of some rank below the product
of the split factors. -/
theorem rank_exists_for_cell (dims : Nat → Nat) (s : Nat → Int) (k : Nat)
    (hs : ∀ n, n < k → 1 ≤ s n) (x : Nat → Int)
    (hx : ∀ n, n < k → 0 ≤ x n ∧ x n < (dims n : Int)) :
    ∃ r : Int, 0 ≤ r ∧ r < prodBelow s k ∧ ∀ n, n < k →
      idealStart (dims n) (s n) (coordOf s r n) ≤ x n ∧
      x n < idealStart (dims n) (s n) (coordOf s r n)
        + idealLocal (dims n) (s n) (coordOf s r n) := by
  have hex : ∀ n, ∃ c : Nat, n < k →
      (c < (s n).toNat ∧ idealStart (dims n) (s n) (c : Int) ≤ x n ∧
        x n < idealStart (dims n) (s n) (c : Int) + idealLocal (dims n) (s n) (c : Int)) := by
    intro n
    by_cases hn : n < k
    · have h1 := hs n hn
      have h2 := hx n hn
      have h3 : x n < idealStart (dims n) (s n) (((s n).toNat : Nat) : Int) := by
        rw [Int.toNat_of_nonneg (by omega), idealStart_full (dims n) (s n) h1]
        exact h2.2
      obtain ⟨c, hc, h4⟩ := axis_cover (dims n) (s n) h1 (x n) h2.1 _ h3
      exact ⟨c, fun _ => ⟨hc, h4⟩⟩
    · exact ⟨0, fun h => absurd h hn⟩
  choose c hc using hex
  have hlt := encodeN_lt (fun m => (s m).toNat) c k (fun n hn => (hc n hn).1)
  have hco := coordN_encodeN (fun m => (s m).toNat) c k (fun n hn => (hc n hn).1)
  refine ⟨((encodeN (fun m => (s m).toNat) c k : Nat) : Int), by omega, ?_, ?_⟩
  · rw [prodBelow_eq_cast s k hs]
    exact_mod_cast hlt
  · intro n hn
    rw [coordOf_eq_cast s _ n fun m hm => hs m (by omega), hco n hn]
    exact (hc n hn).2

/-! ## Values that fit an `int` -/

theorem toI32_fits (x : Int) (h0 : -2 ^ 31 ≤ x) (h1 : x < 2 ^ 31) : toI32 x = x := by
  unfold toI32
  omega

theorem toI32_range (x : Int) : -2 ^ 31 ≤ toI32 x ∧ toI32 x < 2 ^ 31 := by
  unfold toI32
  omega

theorem toU64_fits (x : Int) (h0 : 0 ≤ x) (h1 : x < 2 ^ 64) : toU64 x = x := by
  unfold toU64
  omega

/-- For a split factor `1 ≤ s` and a dimension `d` that fit an `int`, the
conversions of the source change nothing: `npoint_min` is the quotient and
`split_big` the remainder. -/
theorem npointMin_fits (d : Nat) (s : Int) (hs : 1 ≤ s) (hs' : s < 2 ^ 31)
    (hd : (d : Int) < 2 ^ 31) :
    npointMin d s = (d : Int) / s ∧ splitBig d s = (d : Int) % s := by
  have hq0 : 0 ≤ (d : Int) / s := Int.ediv_nonneg (by omega) (by omega)
  have hq1 : (d : Int) / s ≤ (d : Int) := Int.ediv_le_self _ (by omega)
  have hr0 : 0 ≤ (d : Int) % s := Int.emod_nonneg _ (by omega)
  have hr1 : (d : Int) % s < s := Int.emod_lt_of_pos _ (by omega)
  have hdef : (d : Int) - s * ((d : Int) / s) = (d : Int) % s := by rw [Int.emod_def]
  have e1 : npointMin d s = (d : Int) / s := by
    unfold npointMin
    rw [toU64_fits s (by omega) (by omega), toI32_fits _ (by omega) (by omega)]
  refine ⟨e1, ?_⟩
  unfold splitBig
  rw [e1]
  have hp : 0 ≤ s * ((d : Int) / s) ∧ s * ((d : Int) / s) ≤ (d : Int) := by
    constructor
    · exact Int.mul_nonneg (by omega) hq0
    · omega
  rw [toU64_fits _ hp.1 (by omega), hdef, toU64_fits _ hr0 (by omega),
    toI32_fits _ (by omega) (by omega)]

/-- For values that fit an `int` the start and the size that the axis loop stores
are those of the cut into `s` pieces. -/
theorem axis_fits (d : Nat) (s c : Int) (hs : 1 ≤ s) (hs' : s < 2 ^ 31)
    (hd : (d : Int) < 2 ^ 31) :
    axisStart d s c = idealStart d s c ∧ axisLocal d s c = idealLocal d s c := by
  obtain ⟨e1, e2⟩ := npointMin_fits d s hs hs' hd
  obtain ⟨e3, e4⟩ := axis_div_mod d s hs
  unfold axisStart axisLocal idealStart idealLocal
  simp only []
  rw [e1, e2, e3, e4]
  exact ⟨rfl, rfl⟩

theorem workDims_cell_centre (b : sdf_block_t) (h : b.stagger = SDF_STAGGER_CELL_CENTRE) :
    workDims b = b.dims := by
  simp [workDims, h]

/-- What `sdf_get_domain_extents` returns for a cell-centred block whose split
factors and dimensions fit an `int`: the start and the size of the rank on each
axis. -/
theorem extents_cell_centre (pn : Int) (b : sdf_block_t) (rank : Int)
    (start local_ : Nat → Int) (hcc : b.stagger = SDF_STAGGER_CELL_CENTRE)
    (hs : ∀ n, n < b.ndims → 1 ≤ b.cpu_split n)
    (hfit : ∀ n, n < b.ndims → b.cpu_split n < 2 ^ 31 ∧ (b.dims n : Int) < 2 ^ 31) :
    ∃ e, sdf_get_domain_extents pn b rank start local_ = some e ∧
      ∀ n, n < b.ndims →
        e.start n = idealStart (b.dims n) (b.cpu_split n) (coordOf b.cpu_split rank n) ∧
        e.local_ n = idealLocal (b.dims n) (b.cpu_split n) (coordOf b.cpu_split rank n) := by
  obtain ⟨e, he, _, h1, _⟩ := sdf_get_domain_extents_eq pn b rank start local_
    (fun n hn => by have := hs n hn; omega)
  refine ⟨e, he, fun n hn => ?_⟩
  have := h1 n hn
  rw [workDims_cell_centre b hcc] at this
  simp only [hcc, ne_eq, not_true_eq_false, if_false, add_zero] at this
  obtain ⟨f1, f2⟩ := axis_fits (b.dims n) (b.cpu_split n) (coordOf b.cpu_split rank n)
    (hs n hn) (hfit n hn).1 (hfit n hn).2
  rw [← f1, ← f2]
  exact ⟨this.1, this.2.1⟩

/-- C2, as stated, fails: on the block `wideBlock`, one axis of 2^32 + 10 cells in
one piece, `sdf_get_domain_extents` gives the only rank the start 0 and the size
10 (the quotient 2^32 + 10 is stored in an `int`), so the cell 10 of the domain
lies in the rectangle of no rank. -/
theorem wide_axis_not_tiled :
    (sdf_get_domain_extents (-1) wideBlock 0 (arr3 0 0 0) (arr3 0 0 0)).map
        (fun e => (e.start 0, e.local_ 0)) = some (0, 10) ∧
    prodBelow wideBlock.cpu_split wideBlock.ndims = 1 ∧
    (10 : Int) < (wideBlock.dims 0 : Int) ∧
    ¬ ∃ (r : Int) (e : Extents), 0 ≤ r ∧ r < prodBelow wideBlock.cpu_split wideBlock.ndims ∧
        sdf_get_domain_extents (-1) wideBlock r (arr3 0 0 0) (arr3 0 0 0) = some e ∧
        e.start 0 ≤ 10 ∧ 10 < e.start 0 + e.local_ 0 := by
  refine ⟨by decide, by decide, by decide, ?_⟩
  rintro ⟨r, e, h0, h1, he, hx⟩
  have hP : prodBelow wideBlock.cpu_split wideBlock.ndims = 1 := by decide
  rw [hP] at h1
  have hr : r = 0 := by omega
  subst hr
  have key : (sdf_get_domain_extents (-1) wideBlock 0 (arr3 0 0 0) (arr3 0 0 0)).map
      (fun e => (e.start 0, e.local_ 0)) = some (0, 10) := by decide
  rw [he] at key
  simp only [Option.map_some', Option.some.injEq, Prod.mk.injEq] at key
  omega

/-- C2, as amended. For a cell-centred block with 1 to 3 axes, split factors that
are all at least 1, and dimensions and a product `P` of the split factors below
2^31 (the values an `int` holds), the rectangles `[start[n], start[n] + local[n])`
that `sdf_get_domain_extents` computes for the ranks `0 .. P-1` tile the global
domain: every cell `x` with `0 ≤ x n < dims n` lies in the rectangle of exactly
one of these ranks, and the rectangle of each of these ranks stays inside the
domain. -/
theorem extents_tile_domain (pn : Int) (b : sdf_block_t) (start local_ : Nat → Int)
    (hcc : b.stagger = SDF_STAGGER_CELL_CENTRE)
    (hnd : 1 ≤ b.ndims ∧ b.ndims ≤ 3)
    (hs : ∀ n, n < b.ndims → 1 ≤ b.cpu_split n)
    (hfit : ∀ n, n < b.ndims → b.cpu_split n < 2 ^ 31 ∧ (b.dims n : Int) < 2 ^ 31)
    (hP : prodBelow b.cpu_split b.ndims < 2 ^ 31) :
    (∀ x : Nat → Int, (∀ n, n < b.ndims → 0 ≤ x n ∧ x n < (b.dims n : Int)) →
      ∃! r : Int, 0 ≤ r ∧ r < prodBelow b.cpu_split b.ndims ∧
        ∃ e, sdf_get_domain_extents pn b r start local_ = some e ∧
          ∀ n, n < b.ndims → e.start n ≤ x n ∧ x n < e.start n + e.local_ n) ∧
    (∀ r : Int, 0 ≤ r → r < prodBelow b.cpu_split b.ndims →
      ∃ e, sdf_get_domain_extents pn b r start local_ = some e ∧
        ∀ n, n < b.ndims →
          0 ≤ e.start n ∧ 0 ≤ e.local_ n ∧ e.start n + e.local_ n ≤ (b.dims n : Int)) := by
  have _ := hnd
  have _ := hP
  constructor
  · intro x hx
    obtain ⟨r, hr0, hrP, hr⟩ := rank_exists_for_cell b.dims b.cpu_split b.ndims hs x hx
    refine ⟨r, ⟨hr0, hrP, ?_⟩, ?_⟩
    · obtain ⟨e, he, h1⟩ := extents_cell_centre pn b r start local_ hcc hs hfit
      refine ⟨e, he, fun n hn => ?_⟩
      rw [(h1 n hn).1, (h1 n hn).2]
      exact hr n hn
    · rintro r' ⟨hr0', hrP', e', he', h'⟩
      obtain ⟨e, he, h1⟩ := extents_cell_centre pn b r' start local_ hcc hs hfit
      rw [he] at he'
      cases he'
      refine rank_unique_of_common_cell b.dims b.cpu_split b.ndims hs x r' r hr0' hrP'
        hr0 hrP (fun n hn => ?_) hr
      have := h' n hn
      rw [(h1 n hn).1, (h1 n hn).2] at this
      exact this
  · intro r hr0 hrP
    obtain ⟨e, he, h1⟩ := extents_cell_centre pn b r start local_ hcc hs hfit
    refine ⟨e, he, fun n hn => ?_⟩
    rw [(h1 n hn).1, (h1 n hn).2]
    have hsn := hs n hn
    obtain ⟨c0, c1⟩ := coordOf_bounds b.cpu_split r n hr0 (fun m hm => hs m (by omega))
    obtain ⟨c, hc⟩ := Int.eq_ofNat_of_zero_le c0
    rw [hc] at c1 ⊢
    have := axis_within (b.dims n) (b.cpu_split n) hsn c c1
    exact ⟨this.1, idealLocal_nonneg _ _ _ hsn, this.2⟩

/-- C2 as amended, at a concrete block: a 2-D grid of 10 x 7 cells split 2 x 3. -/
theorem extents_tile_domain_witness :
    (∀ x : Nat → Int, (∀ n, n < 2 → 0 ≤ x n ∧ x n < ((arr3 10 7 0 : Nat → Nat) n : Int)) →
      ∃! r : Int, 0 ≤ r ∧ r < prodBelow (arr3 2 3 0) 2 ∧
        ∃ e, sdf_get_domain_extents (-1)
            { ndims := 2, dims := arr3 10 7 0, cpu_split := arr3 2 3 0 } r
            (arr3 0 0 0) (arr3 0 0 0) = some e ∧
          ∀ n, n < 2 → e.start n ≤ x n ∧ x n < e.start n + e.local_ n) ∧
    (∀ r : Int, 0 ≤ r → r < prodBelow (arr3 2 3 0) 2 →
      ∃ e, sdf_get_domain_extents (-1)
          { ndims := 2, dims := arr3 10 7 0, cpu_split := arr3 2 3 0 } r
          (arr3 0 0 0) (arr3 0 0 0) = some e ∧
        ∀ n, n < 2 →
          0 ≤ e.start n ∧ 0 ≤ e.local_ n ∧
            e.start n + e.local_ n ≤ ((arr3 10 7 0 : Nat → Nat) n : Int)) :=
  extents_tile_domain (-1) { ndims := 2, dims := arr3 10 7 0, cpu_split := arr3 2 3 0 }
    (arr3 0 0 0) (arr3 0 0 0) rfl (by decide)
    (fun n hn => by
      have : n = 0 ∨ n = 1 := by
        have : n < 2 := hn
        omega
      rcases this with h | h <;> subst h <;> decide)
    (fun n hn => by
      have : n = 0 ∨ n = 1 := by
        have : n < 2 := hn
        omega
      rcases this with h | h <;> subst h <;> decide)
    (by decide)

/-- C3, as stated, fails: on the block `wideBlock`, an axis of `d = 2^32 + 10`
elements with split factor `s = 1`, `sdf_get_domain_extents` gives the rank at
coordinate 0 the local size 10, not `floor(d/s) = d`, and the sizes do not sum to
`d`. -/
theorem wide_axis_size_is_truncated :
    (sdf_get_domain_extents (-1) wideBlock 0 (arr3 0 0 0) (arr3 0 0 0)).map
        (fun e => e.local_ 0) = some 10 ∧
    coordOf wideBlock.cpu_split 0 0 = 0 ∧
    (wideBlock.dims 0 : Int) % wideBlock.cpu_split 0 = 0 ∧
    (wideBlock.dims 0 : Int) / wideBlock.cpu_split 0 = 4294967306 := by
  decide

/-- C3, as amended. On an axis `n` of a cell-centred block with `d = dims[n]`
elements and split factor `s = cpu_split[n] ≥ 1`, the dimensions and the product
`P` of the split factors below 2^31 (the values an `int` holds),
`sdf_get_domain_extents` gives the rank `0 ≤ rank < P` whose coordinate on the
axis is `c` (it satisfies `0 ≤ c < s`) the local size `d / s + 1` if `c < d % s`
and `d / s` otherwise, and a start equal to the sum of the local sizes of the
coordinates `0 .. c-1`; the sizes of the coordinates `0 .. s-1` sum to `d`. -/
theorem axis_sizes_and_starts (pn : Int) (b : sdf_block_t) (rank : Int)
    (start local_ : Nat → Int) (n : Nat)
    (hcc : b.stagger = SDF_STAGGER_CELL_CENTRE)
    (hn : n < b.ndims)
    (hs : ∀ m, m < b.ndims → 1 ≤ b.cpu_split m)
    (hfit : ∀ m, m < b.ndims → b.cpu_split m < 2 ^ 31 ∧ (b.dims m : Int) < 2 ^ 31)
    (hP : prodBelow b.cpu_split b.ndims < 2 ^ 31)
    (hr : 0 ≤ rank) (hrP : rank < prodBelow b.cpu_split b.ndims) :
    ∃ e, sdf_get_domain_extents pn b rank start local_ = some e ∧
      0 ≤ coordOf b.cpu_split rank n ∧ coordOf b.cpu_split rank n < b.cpu_split n ∧
      e.local_ n =
        (if coordOf b.cpu_split rank n < (b.dims n : Int) % b.cpu_split n
         then (b.dims n : Int) / b.cpu_split n + 1 else (b.dims n : Int) / b.cpu_split n) ∧
      e.start n =
        ∑ k ∈ Finset.range (coordOf b.cpu_split rank n).toNat,
          (if (k : Int) < (b.dims n : Int) % b.cpu_split n
           then (b.dims n : Int) / b.cpu_split n + 1 else (b.dims n : Int) / b.cpu_split n) ∧
      ∑ k ∈ Finset.range (b.cpu_split n).toNat,
          (if (k : Int) < (b.dims n : Int) % b.cpu_split n
           then (b.dims n : Int) / b.cpu_split n + 1 else (b.dims n : Int) / b.cpu_split n)
        = (b.dims n : Int) := by
  have _ := hP
  have _ := hrP
  obtain ⟨e, he, h1⟩ := extents_cell_centre pn b rank start local_ hcc hs hfit
  have hsn := hs n hn
  obtain ⟨c0, c1⟩ := coordOf_bounds b.cpu_split rank n hr (fun m hm => hs m (by omega))
  have hsum : ∀ c : Nat,
      ∑ k ∈ Finset.range c,
          (if (k : Int) < (b.dims n : Int) % b.cpu_split n
           then (b.dims n : Int) / b.cpu_split n + 1 else (b.dims n : Int) / b.cpu_split n)
        = idealStart (b.dims n) (b.cpu_split n) (c : Int) := by
    intro c
    rw [idealStart_eq_sum _ _ hsn]
    exact Finset.sum_congr rfl fun k _ => (idealLocal_eq _ _ _ hsn).symm
  refine ⟨e, he, c0, c1, ?_, ?_, ?_⟩
  · rw [(h1 n hn).2, idealLocal_eq _ _ _ hsn]
  · rw [(h1 n hn).1, hsum, Int.toNat_of_nonneg c0]
  · rw [hsum, Int.toNat_of_nonneg (by omega), idealStart_full _ _ hsn]

/-- C3 as amended, the scenario `d = 7`, `s = 3`: the statement at rank 2, and the values the
code computes for the ranks 0, 1, 2: sizes 3, 2, 2 and starts 0, 3, 5. -/
theorem axis_sizes_and_starts_witness :
    (∃ e, sdf_get_domain_extents (-1) block7 2 (arr3 0 0 0) (arr3 0 0 0) = some e ∧
      0 ≤ coordOf block7.cpu_split 2 0 ∧ coordOf block7.cpu_split 2 0 < block7.cpu_split 0 ∧
      e.local_ 0 =
        (if coordOf block7.cpu_split 2 0 < (block7.dims 0 : Int) % block7.cpu_split 0
         then (block7.dims 0 : Int) / block7.cpu_split 0 + 1
         else (block7.dims 0 : Int) / block7.cpu_split 0) ∧
      e.start 0 =
        ∑ k ∈ Finset.range (coordOf block7.cpu_split 2 0).toNat,
          (if (k : Int) < (block7.dims 0 : Int) % block7.cpu_split 0
           then (block7.dims 0 : Int) / block7.cpu_split 0 + 1
           else (block7.dims 0 : Int) / block7.cpu_split 0) ∧
      ∑ k ∈ Finset.range (block7.cpu_split 0).toNat,
          (if (k : Int) < (block7.dims 0 : Int) % block7.cpu_split 0
           then (block7.dims 0 : Int) / block7.cpu_split 0 + 1
           else (block7.dims 0 : Int) / block7.cpu_split 0)
        = (block7.dims 0 : Int)) ∧
    (sdf_get_domain_extents (-1) block7 0 (arr3 0 0 0) (arr3 0 0 0)).map
        (fun e => (e.start 0, e.local_ 0)) = some (0, 3) ∧
    (sdf_get_domain_extents (-1) block7 1 (arr3 0 0 0) (arr3 0 0 0)).map
        (fun e => (e.start 0, e.local_ 0)) = some (3, 2) ∧
    (sdf_get_domain_extents (-1) block7 2 (arr3 0 0 0) (arr3 0 0 0)).map
        (fun e => (e.start 0, e.local_ 0)) = some (5, 2) :=
  ⟨axis_sizes_and_starts (-1) block7 2 (arr3 0 0 0) (arr3 0 0 0) 0 rfl (by decide)
      (fun m hm => by
        have : m = 0 := by
          have : m < 1 := hm
          omega
        subst this; decide)
      (fun m hm => by
        have : m = 0 := by
          have : m < 1 := hm
          omega
        subst this; decide)
      (by decide) (by decide) (by decide),
    by decide, by decide, by decide⟩

/-! ## Neighbouring ranks -/

theorem encodeN_update (t c : Nat → Nat) (n v k : Nat) (hn : n < k) :
    encodeN t (Function.update c n v) k + c n * prodBelowN t n
      = encodeN t c k + v * prodBelowN t n := by
  induction k with
  | zero => omega
  | succ k ih =>
    simp only [encodeN]
    by_cases h : n = k
    · subst h
      have : encodeN t (Function.update c n v) n = encodeN t c n :=
        encodeN_congr t _ _ n fun m hm => Function.update_noteq (by omega) _ _
      rw [this, Function.update_same]
      omega
    · have := ih (by omega)
      rw [Function.update_noteq (Ne.symm h)]
      omega

theorem neighbour_coords (t : Nat → Nat) (K r n v : Nat) (ht : ∀ m, m < K → 0 < t m)
    (hr : r < prodBelowN t K) (hn : n < K) (hv : v < t n) :
    ∃ r', r' + coordN t r n * prodBelowN t n = r + v * prodBelowN t n ∧
      r' < prodBelowN t K ∧ coordN t r' n = v ∧
      ∀ m, m < K → m ≠ n → coordN t r' m = coordN t r m := by
  have e1 := encodeN_coordN t r K
  rw [Nat.mod_eq_of_lt hr] at e1
  have hdig : ∀ m, m < K → Function.update (coordN t r) n v m < t m := by
    intro m hm
    by_cases h : m = n
    · subst h; rw [Function.update_same]; exact hv
    · rw [Function.update_noteq h]; exact coordN_lt t r m (ht m hm)
  refine ⟨encodeN t (Function.update (coordN t r) n v) K, ?_, encodeN_lt t _ K hdig, ?_, ?_⟩
  · rw [encodeN_update t _ n v K hn, e1]
  · rw [coordN_encodeN t _ K hdig n hn, Function.update_same]
  · intro m hm hmn
    rw [coordN_encodeN t _ K hdig m hm, Function.update_noteq hmn]

/-- The ranks `r - div_n` and `r + div_n` are the neighbours of `r` on axis `n`. -/
theorem neighbour_ranks (s : Nat → Int) (K : Nat) (r : Int) (n : Nat)
    (hs : ∀ m, m < K → 1 ≤ s m) (hr : 0 ≤ r) (hrP : r < prodBelow s K) (hn : n < K) :
    (coordOf s r n ≠ 0 →
      0 ≤ r - prodBelow s n ∧ r - prodBelow s n < prodBelow s K ∧
      coordOf s (r - prodBelow s n) n = coordOf s r n - 1 ∧
      ∀ m, m < K → m ≠ n → coordOf s (r - prodBelow s n) m = coordOf s r m) ∧
    (coordOf s r n ≠ s n - 1 →
      0 ≤ r + prodBelow s n ∧ r + prodBelow s n < prodBelow s K ∧
      coordOf s (r + prodBelow s n) n = coordOf s r n + 1 ∧
      ∀ m, m < K → m ≠ n → coordOf s (r + prodBelow s n) m = coordOf s r m) := by
  obtain ⟨a, rfl⟩ := Int.eq_ofNat_of_zero_le hr
  have hsK : ∀ m, m < K → ∀ j, j ≤ m → 1 ≤ s j := fun m hm j hj => hs j (by omega)
  have hpos : ∀ m, m < K → 0 < (fun m => (s m).toNat) m := fun m hm => by
    have := hs m hm
    show 0 < (s m).toNat
    omega
  have hP := prodBelow_eq_cast s K hs
  have hpn := prodBelow_eq_cast s n fun m hm => hs m (by omega)
  have hcn := coordOf_eq_cast s a n (hsK n hn)
  have hlt := coordN_lt (fun m => (s m).toNat) a n (hpos n hn)
  have haP : a < prodBelowN (fun m => (s m).toNat) K := by
    rw [hP] at hrP; exact_mod_cast hrP
  have hsn := hs n hn
  simp only at hlt
  constructor
  · intro hc
    have hc0 : coordN (fun m => (s m).toNat) a n ≠ 0 := by
      intro h0; rw [hcn, h0] at hc; exact hc rfl
    obtain ⟨r', h1, h2, h3, h4⟩ := neighbour_coords (fun m => (s m).toNat) K a n
      (coordN (fun m => (s m).toNat) a n - 1) hpos haP hn
      (by show _ < (s n).toNat; omega)
    have hmul : coordN (fun m => (s m).toNat) a n * prodBelowN (fun m => (s m).toNat) n
        = (coordN (fun m => (s m).toNat) a n - 1) * prodBelowN (fun m => (s m).toNat) n
          + prodBelowN (fun m => (s m).toNat) n := by
      conv_lhs => rw [show coordN (fun m => (s m).toNat) a n
        = (coordN (fun m => (s m).toNat) a n - 1) + 1 by omega]
      ring
    have hr' : (a : Int) - prodBelow s n = (r' : Int) := by
      rw [hpn]; omega
    rw [hr', hP]
    refine ⟨by omega, by exact_mod_cast h2, ?_, ?_⟩
    · rw [coordOf_eq_cast s r' n (hsK n hn), hcn, h3]
      omega
    · intro m hm hmn
      rw [coordOf_eq_cast s r' m (hsK m hm), coordOf_eq_cast s a m (hsK m hm), h4 m hm hmn]
  · intro hc
    have hc0 : coordN (fun m => (s m).toNat) a n + 1 < (s n).toNat := by
      have : (coordN (fun m => (s m).toNat) a n : Int) ≠ s n - 1 := by
        rw [← hcn]; exact hc
      omega
    obtain ⟨r', h1, h2, h3, h4⟩ := neighbour_coords (fun m => (s m).toNat) K a n
      (coordN (fun m => (s m).toNat) a n + 1) hpos haP hn hc0
    have hmul : (coordN (fun m => (s m).toNat) a n + 1) * prodBelowN (fun m => (s m).toNat) n
        = coordN (fun m => (s m).toNat) a n * prodBelowN (fun m => (s m).toNat) n
          + prodBelowN (fun m => (s m).toNat) n := by
      ring
    have hr' : (a : Int) + prodBelow s n = (r' : Int) := by
      rw [hpn]; omega
    rw [hr', hP]
    refine ⟨by omega, by exact_mod_cast h2, ?_, ?_⟩
    · rw [coordOf_eq_cast s r' n (hsK n hn), hcn, h3]
      omega
    · intro m hm hmn
      rw [coordOf_eq_cast s r' m (hsK m hm), coordOf_eq_cast s a m (hsK m hm), h4 m hm hmn]

/-- C5. For split factors that are all at least 1, with product `P`, a rank `r` in
`0 .. P-1` and an axis `n`, with `div_n` the product of the split factors of the
axes below `n` and `MPI_PROC_NULL` a negative constant: `proc_min[n]` is
`MPI_PROC_NULL` exactly when the coordinate of `r` on axis `n` is 0 and is
`r - div_n` otherwise; `proc_max[n]` is `MPI_PROC_NULL` exactly when the coordinate
is `cpu_split[n] - 1` and is `r + div_n` otherwise; every neighbour that is not
`MPI_PROC_NULL` is a rank in `0 .. P-1` whose coordinate on axis `n` is one less
(low side) or one more (high side) and whose coordinates on the other axes are
those of `r`. -/
theorem neighbours_of_rank (pn : Int) (b : sdf_block_t) (r : Int)
    (start local_ : Nat → Int) (n : Nat)
    (hpn : pn < 0)
    (hs : ∀ m, m < b.ndims → 1 ≤ b.cpu_split m)
    (hr : 0 ≤ r) (hrP : r < prodBelow b.cpu_split b.ndims)
    (hn : n < b.ndims) :
    ∃ e, sdf_get_domain_extents pn b r start local_ = some e ∧
      (e.block.proc_min n = pn ↔ coordOf b.cpu_split r n = 0) ∧
      (coordOf b.cpu_split r n ≠ 0 → e.block.proc_min n = r - prodBelow b.cpu_split n) ∧
      (e.block.proc_max n = pn ↔ coordOf b.cpu_split r n = b.cpu_split n - 1) ∧
      (coordOf b.cpu_split r n ≠ b.cpu_split n - 1 →
        e.block.proc_max n = r + prodBelow b.cpu_split n) ∧
      (e.block.proc_min n ≠ pn →
        0 ≤ e.block.proc_min n ∧ e.block.proc_min n < prodBelow b.cpu_split b.ndims ∧
        coordOf b.cpu_split (e.block.proc_min n) n = coordOf b.cpu_split r n - 1 ∧
        ∀ m, m < b.ndims → m ≠ n →
          coordOf b.cpu_split (e.block.proc_min n) m = coordOf b.cpu_split r m) ∧
      (e.block.proc_max n ≠ pn →
        0 ≤ e.block.proc_max n ∧ e.block.proc_max n < prodBelow b.cpu_split b.ndims ∧
        coordOf b.cpu_split (e.block.proc_max n) n = coordOf b.cpu_split r n + 1 ∧
        ∀ m, m < b.ndims → m ≠ n →
          coordOf b.cpu_split (e.block.proc_max n) m = coordOf b.cpu_split r m) := by
  obtain ⟨e, he, _, h1, _⟩ := sdf_get_domain_extents_eq pn b r start local_
    (fun m hm => by have := hs m hm; omega)
  obtain ⟨_, _, hmin, hmax⟩ := h1 n hn
  obtain ⟨hlo, hhi⟩ := neighbour_ranks b.cpu_split b.ndims r n hs hr hrP hn
  refine ⟨e, he, ?_, ?_, ?_, ?_, ?_, ?_⟩
  · rw [hmin]
    constructor
    · intro h
      by_contra hc
      rw [if_neg hc] at h
      have := (hlo hc).1
      omega
    · intro h; rw [if_pos h]
  · intro hc; rw [hmin, if_neg hc]
  · rw [hmax]
    constructor
    · intro h
      by_contra hc
      rw [if_neg hc] at h
      have := (hhi hc).1
      omega
    · intro h; rw [if_pos h]
  · intro hc; rw [hmax, if_neg hc]
  · intro hne
    have hc : coordOf b.cpu_split r n ≠ 0 := by
      intro h; rw [hmin, if_pos h] at hne; exact hne rfl
    rw [hmin, if_neg hc]
    exact hlo hc
  · intro hne
    have hc : coordOf b.cpu_split r n ≠ b.cpu_split n - 1 := by
      intro h; rw [hmax, if_pos h] at hne; exact hne rfl
    rw [hmax, if_neg hc]
    exact hhi hc

/-- C5, at a concrete block: the 2 x 2 split of a 10 x 10 grid, rank 1, axis 0,
with `MPI_PROC_NULL = -1`. -/
theorem neighbours_of_rank_witness :
    ∃ e, sdf_get_domain_extents (-1) block10 1 (arr3 0 0 0) (arr3 0 0 0) = some e ∧
      (e.block.proc_min 0 = -1 ↔ coordOf block10.cpu_split 1 0 = 0) ∧
      (coordOf block10.cpu_split 1 0 ≠ 0 →
        e.block.proc_min 0 = 1 - prodBelow block10.cpu_split 0) ∧
      (e.block.proc_max 0 = -1 ↔ coordOf block10.cpu_split 1 0 = block10.cpu_split 0 - 1) ∧
      (coordOf block10.cpu_split 1 0 ≠ block10.cpu_split 0 - 1 →
        e.block.proc_max 0 = 1 + prodBelow block10.cpu_split 0) ∧
      (e.block.proc_min 0 ≠ -1 →
        0 ≤ e.block.proc_min 0 ∧
        e.block.proc_min 0 < prodBelow block10.cpu_split block10.ndims ∧
        coordOf block10.cpu_split (e.block.proc_min 0) 0
          = coordOf block10.cpu_split 1 0 - 1 ∧
        ∀ m, m < block10.ndims → m ≠ 0 →
          coordOf block10.cpu_split (e.block.proc_min 0) m
            = coordOf block10.cpu_split 1 m) ∧
      (e.block.proc_max 0 ≠ -1 →
        0 ≤ e.block.proc_max 0 ∧
        e.block.proc_max 0 < prodBelow block10.cpu_split block10.ndims ∧
        coordOf block10.cpu_split (e.block.proc_max 0) 0
          = coordOf block10.cpu_split 1 0 + 1 ∧
        ∀ m, m < block10.ndims → m ≠ 0 →
          coordOf block10.cpu_split (e.block.proc_max 0) m
            = coordOf block10.cpu_split 1 m) :=
  neighbours_of_rank (-1) block10 1 (arr3 0 0 0) (arr3 0 0 0) 0 (by decide)
    (fun m hm => by
      have : m = 0 ∨ m = 1 := by
        have : m < 2 := hm
        omega
      rcases this with h | h <;> subst h <;> decide)
    (by decide) (by decide) (by decide)

/-! ## The search of `factor2d` and `factor3d` -/

theorem foldl_invariant {α β : Type} (P : β → Prop) (f : β → α → β) (l : List α)
    (h : ∀ b a, a ∈ l → P b → P (f b a)) (b0 : β) (h0 : P b0) : P (l.foldl f b0) := by
  induction l generalizing b0 with
  | nil => exact h0
  | cons a l ih =>
    simp only [List.foldl_cons]
    exact ih (fun b a' ha' hb => h b a' (List.mem_cons_of_mem _ ha') hb) _
      (h b0 a (List.mem_cons_self _ _) h0)

theorem tryCorner_inv (fm : FloatOps) (gridav : fm.F) (k : Nat) (tmp : Nat → Int)
    (good : (Nat → Int) → Prop) (cs0 : Nat → Int) (hg : good tmp)
    (st : FactorState fm) (grid : Int) (h : FactorInv k good cs0 st) :
    FactorInv k good cs0 (tryCorner fm gridav k tmp st grid) := by
  unfold tryCorner
  simp only []
  split
  · right
    refine ⟨rfl, tmp, hg, ?_⟩
    funext n
    by_cases hn : n < k
    · simp [hn]
    · rcases h with ⟨_, h⟩ | ⟨_, t, _, h⟩
      · simp [hn, h]
      · simp [hn, h]
  · exact h

theorem factor2dBody_inv (fm : FloatOps) (dims : Nat → Nat) (gridav : fm.F)
    (maxcpus t0 t1 : Int) (good : (Nat → Int) → Prop) (cs0 : Nat → Int)
    (hg : 1 * t0 * t1 = maxcpus → good (tmp2 t0 t1))
    (st : FactorState fm) (h : FactorInv 2 good cs0 st) :
    FactorInv 2 good cs0 (factor2dBody fm dims gridav maxcpus t0 t1 st) := by
  unfold factor2dBody
  simp only []
  split
  · exact h
  · rename_i hc
    have hc : 1 * t0 * t1 = maxcpus := by
      by_contra h'; exact hc h'
    exact foldl_invariant _ _ _
      (fun b a _ hb => tryCorner_inv fm gridav 2 _ good cs0 (hg hc) b a hb) st h

theorem factor3dBody_inv (fm : FloatOps) (dims : Nat → Nat) (gridav : fm.F)
    (maxcpus t0 t1 t2 : Int) (good : (Nat → Int) → Prop) (cs0 : Nat → Int)
    (hg : 1 * t0 * t1 * t2 = maxcpus → good (tmp3 t0 t1 t2))
    (st : FactorState fm) (h : FactorInv 3 good cs0 st) :
    FactorInv 3 good cs0 (factor3dBody fm dims gridav maxcpus t0 t1 t2 st) := by
  unfold factor3dBody
  simp only []
  split
  · exact h
  · rename_i hc
    have hc : 1 * t0 * t1 * t2 = maxcpus := by
      by_contra h'; exact hc h'
    exact foldl_invariant _ _ _
      (fun b a _ hb => tryCorner_inv fm gridav 3 _ good cs0 (hg hc) b a hb) st h

theorem loop_value_bounds (dmin : Int) (i : Nat) (hi : i ∈ List.range dmin.toNat) :
    1 ≤ dmin - (i : Int) ∧ dmin - (i : Int) ≤ dmin := by
  have := List.mem_range.mp hi
  omega

/-- What `factor2d` leaves in `cpu_split`: either the array is untouched, or its
first two entries are factors between 1 and `dmin[n]` whose product is
`maxcpus`. -/
theorem factor2dSearch_inv (fm : FloatOps) (ncpus : Int) (dims : Nat → Nat)
    (cs : Nat → Int) :
    FactorInv 2
      (fun tmp =>
        (1 ≤ tmp 0 ∧ tmp 0 ≤ toI32 (MIN (toU64 ncpus) (dims 0))) ∧
        (1 ≤ tmp 1 ∧ tmp 1 ≤ toI32 (MIN (toU64 ncpus) (dims 1))) ∧
        tmp 0 * tmp 1
          = MIN ncpus (1 * toI32 (MIN (toU64 ncpus) (dims 0)) * toI32 (MIN (toU64 ncpus) (dims 1))))
      cs (factor2dSearch fm ncpus dims cs) := by
  unfold factor2dSearch
  simp only []
  refine foldl_invariant _ _ _ (fun st j hj hst => ?_) _ (Or.inl ⟨rfl, rfl⟩)
  refine foldl_invariant _ _ _ (fun st i hi hst => ?_) _ hst
  refine factor2dBody_inv fm dims _ _ _ _ _ cs (fun hc => ?_) st hst
  refine ⟨loop_value_bounds _ i hi, loop_value_bounds _ j hj, ?_⟩
  simp only [tmp2, if_true, one_ne_zero, if_false]
  rw [← hc]; ring

/-- What `factor3d` leaves in `cpu_split`: either the array is untouched, or its
first three entries are factors between 1 and `dmin[n]` whose product is
`maxcpus`. -/
theorem factor3dSearch_inv (fm : FloatOps) (ncpus : Int) (dims : Nat → Nat)
    (cs : Nat → Int) :
    FactorInv 3
      (fun tmp =>
        (1 ≤ tmp 0 ∧ tmp 0 ≤ toI32 (MIN (toU64 ncpus) (dims 0))) ∧
        (1 ≤ tmp 1 ∧ tmp 1 ≤ toI32 (MIN (toU64 ncpus) (dims 1))) ∧
        (1 ≤ tmp 2 ∧ tmp 2 ≤ toI32 (MIN (toU64 ncpus) (dims 2))) ∧
        tmp 0 * tmp 1 * tmp 2
          = MIN ncpus (1 * toI32 (MIN (toU64 ncpus) (dims 0)) * toI32 (MIN (toU64 ncpus) (dims 1))
              * toI32 (MIN (toU64 ncpus) (dims 2))))
      cs (factor3dSearch fm ncpus dims cs) := by
  unfold factor3dSearch
  simp only []
  refine foldl_invariant _ _ _ (fun st k hk hst => ?_) _ (Or.inl ⟨rfl, rfl⟩)
  refine foldl_invariant _ _ _ (fun st j hj hst => ?_) _ hst
  refine foldl_invariant _ _ _ (fun st i hi hst => ?_) _ hst
  refine factor3dBody_inv fm dims _ _ _ _ _ _ cs (fun hc => ?_) st hst
  refine ⟨loop_value_bounds _ i hi, loop_value_bounds _ j hj, loop_value_bounds _ k hk, ?_⟩
  simp only [tmp3, if_true, one_ne_zero, if_false]
  rw [← hc]
  norm_num

theorem MIN_le_left (a b : Int) : MIN a b ≤ a := by
  unfold MIN; split <;> omega

theorem MIN_le_right (a b : Int) : MIN a b ≤ b := by
  unfold MIN; split <;> omega

/-! ## `sdf_factor` -/

/-- The block `sdf_factor` hands to `sdf_get_domain_extents`: the dimensions are
back to their values and `cpu_split` is what the search left. -/
theorem sdf_factor_eq (fm : FloatOps) (pn : Int) (h : sdf_file_t) (b : sdf_block_t) :
    sdf_factor fm pn h b =
      (sdf_get_domain_extents pn
          { b with dims := fun n => if n < b.ndims then b.dims n else adjustedDims b n,
                   cpu_split := (sdf_factor_search fm h b).cpu_split }
          h.rank b.starts b.local_dims).map
        (fun e => ((0 : Int),
          { e.block with
              starts := e.start, local_dims := e.local_,
              nlocal := (List.range e.block.ndims).foldl (fun acc n => acc * e.local_ n) 1 })) := by
  unfold sdf_factor sdf_factor_search factor2d factor3d
  simp only []
  by_cases h2 : b.ndims = 2
  · simp only [h2, if_true]
    split <;> simp_all
  · simp only [h2, if_false]
    split <;> simp_all

theorem prodBelow_two (s : Nat → Int) : prodBelow s 2 = s 0 * s 1 := by
  simp [prodBelow]

theorem prodBelow_three (s : Nat → Int) : prodBelow s 3 = s 0 * s 1 * s 2 := by
  simp [prodBelow]

/-- When the search of `sdf_factor` has stored split factors for a block of 2 or 3
axes, each of them is at least 1 and fits an `int`, and their product is at most
`ncpus`. -/
theorem sdf_factor_search_assigned (fm : FloatOps) (h : sdf_file_t) (b : sdf_block_t)
    (hnd : b.ndims = 2 ∨ b.ndims = 3)
    (ha : (sdf_factor_search fm h b).assigned = true) :
    (∀ n, n < b.ndims → 1 ≤ (sdf_factor_search fm h b).cpu_split n ∧
      (sdf_factor_search fm h b).cpu_split n < 2 ^ 31) ∧
    prodBelow (sdf_factor_search fm h b).cpu_split b.ndims ≤ h.ncpus := by
  rcases hnd with h2 | h3
  · have hinv := factor2dSearch_inv fm h.ncpus (adjustedDims b) b.cpu_split
    have e : sdf_factor_search fm h b
        = factor2dSearch fm h.ncpus (adjustedDims b) b.cpu_split := by
      simp [sdf_factor_search, h2]
    rw [e] at ha ⊢
    rcases hinv with ⟨hf, _⟩ | ⟨_, tmp, ⟨g0, g1, gp⟩, hcs⟩
    · rw [hf] at ha; cases ha
    · rw [h2, hcs, prodBelow_two]
      constructor
      · intro n hn
        have r0 := (toI32_range (MIN (toU64 h.ncpus) (adjustedDims b 0))).2
        have r1 := (toI32_range (MIN (toU64 h.ncpus) (adjustedDims b 1))).2
        have : n = 0 ∨ n = 1 := by omega
        rcases this with hn | hn <;> subst hn
        · simp only [Nat.ofNat_pos, if_true]
          exact ⟨g0.1, by omega⟩
        · simp only [Nat.one_lt_ofNat, if_true]
          exact ⟨g1.1, by omega⟩
      · simp only [Nat.ofNat_pos, if_true, Nat.one_lt_ofNat]
        rw [gp]
        exact MIN_le_left _ _
  · have hinv := factor3dSearch_inv fm h.ncpus (adjustedDims b) b.cpu_split
    have e : sdf_factor_search fm h b
        = factor3dSearch fm h.ncpus (adjustedDims b) b.cpu_split := by
      simp [sdf_factor_search, h3]
    rw [e] at ha ⊢
    rcases hinv with ⟨hf, _⟩ | ⟨_, tmp, ⟨g0, g1, g2, gp⟩, hcs⟩
    · rw [hf] at ha; cases ha
    · rw [h3, hcs, prodBelow_three]
      constructor
      · intro n hn
        have r0 := (toI32_range (MIN (toU64 h.ncpus) (adjustedDims b 0))).2
        have r1 := (toI32_range (MIN (toU64 h.ncpus) (adjustedDims b 1))).2
        have r2 := (toI32_range (MIN (toU64 h.ncpus) (adjustedDims b 2))).2
        have : n = 0 ∨ n = 1 ∨ n = 2 := by omega
        rcases this with hn | hn | hn <;> subst hn
        · simp only [Nat.ofNat_pos, if_true]
          exact ⟨g0.1, by omega⟩
        · simp only [Nat.one_lt_ofNat, if_true]
          exact ⟨g1.1, by omega⟩
        · simp only [Nat.lt_add_one, if_true]
          exact ⟨g2.1, by omega⟩
      · simp only [Nat.ofNat_pos, if_true, Nat.one_lt_ofNat, Nat.lt_add_one]
        rw [gp]
        exact MIN_le_left _ _

theorem coordN_mod (t : Nat → Nat) (K r n : Nat) (hn : n < K) :
    coordN t (r % prodBelowN t K) n = coordN t r n := by
  obtain ⟨M, hM⟩ := prodBelowN_dvd t n K hn
  unfold coordN
  rw [hM, show prodBelowN t n * t n * M = (t n * M) * prodBelowN t n by ring,
    Nat.mod_mul_left_div_self, Nat.mod_mul_right_mod]

/-- A rank and its remainder modulo the product of the split factors have the same
coordinates. -/
theorem coordOf_emod (s : Nat → Int) (K : Nat) (r : Int) (n : Nat)
    (hs : ∀ m, m < K → 1 ≤ s m) (hr : 0 ≤ r) (hn : n < K) :
    coordOf s (r % prodBelow s K) n = coordOf s r n := by
  obtain ⟨a, rfl⟩ := Int.eq_ofNat_of_zero_le hr
  rw [prodBelow_eq_cast s K hs]
  have : ((a : Int) % ((prodBelowN (fun m => (s m).toNat) K : Nat) : Int))
      = ((a % prodBelowN (fun m => (s m).toNat) K : Nat) : Int) := by norm_cast
  rw [this, coordOf_eq_cast s _ n fun m hm => hs m (by omega),
    coordOf_eq_cast s a n fun m hm => hs m (by omega), coordN_mod _ K a n hn]

/-- In a product of dimensions that are all at least 1, every factor is at most
the product. -/
theorem le_prodBelow (d : Nat → Int) (k : Nat) (h : ∀ n, n < k → 1 ≤ d n) (n : Nat)
    (hn : n < k) : d n ≤ prodBelow d k := by
  induction k with
  | zero => omega
  | succ k ih =>
    have hk := h k (by omega)
    have hp : 1 ≤ prodBelow d k := prodBelow_pos d k (fun m hm => h m (by omega))
    simp only [prodBelow]
    by_cases hnk : n = k
    · subst hnk
      calc d n = 1 * d n := by ring
        _ ≤ prodBelow d n * d n := Int.mul_le_mul_of_nonneg_right hp (by omega)
    · have := ih (fun m hm => h m (by omega)) (by omega)
      calc d n ≤ prodBelow d k := this
        _ = prodBelow d k * 1 := by ring
        _ ≤ prodBelow d k * d k := Int.mul_le_mul_of_nonneg_left hk (by omega)

/-- C4, as amended. For a rank count below 2^30 and a cell-centred block of 2 or 3
axes, every axis at least 1 and fewer than 2^31 cells in all (so that every `int`
of the decomposition holds its value), for which the search of `sdf_factor` stores
split factors, with `P` the product of these factors: `P ≤ ncpus`; for two
distinct ranks `0 ≤ r1 < r2 < P` the rectangles
`[starts[n], starts[n] + local_dims[n])` that `sdf_factor` computes share no cell;
and a rank `0 ≤ r < ncpus` of the job is given the coordinates, hence the
rectangle, of the rank `r mod P`: ranks from `P` on are not left idle. -/
theorem factor_extents_disjoint (fm : FloatOps) (pn : Int) (ncpus : Int) (b : sdf_block_t)
    (hcc : b.stagger = SDF_STAGGER_CELL_CENTRE)
    (hnd : b.ndims = 2 ∨ b.ndims = 3)
    (hpos : ∀ n, n < b.ndims → 1 ≤ b.dims n)
    (hcells : prodBelow (fun n => (b.dims n : Int)) b.ndims < 2 ^ 31)
    (hn' : ncpus < 2 ^ 30)
    (ha : (sdf_factor_search fm { ncpus := ncpus } b).assigned = true) :
    prodBelow (sdf_factor_search fm { ncpus := ncpus } b).cpu_split b.ndims ≤ ncpus ∧
    (∀ r1 r2 : Int, 0 ≤ r1 → r1 < r2 →
      r2 < prodBelow (sdf_factor_search fm { ncpus := ncpus } b).cpu_split b.ndims →
      ∃ b1 b2,
        sdf_factor fm pn { ncpus := ncpus, rank := r1 } b = some (0, b1) ∧
        sdf_factor fm pn { ncpus := ncpus, rank := r2 } b = some (0, b2) ∧
        ¬ ∃ x : Nat → Int, ∀ n, n < b.ndims →
          (b1.starts n ≤ x n ∧ x n < b1.starts n + b1.local_dims n) ∧
          (b2.starts n ≤ x n ∧ x n < b2.starts n + b2.local_dims n)) ∧
    (∀ r : Int, 0 ≤ r → r < ncpus →
      ∃ b1 b2,
        sdf_factor fm pn { ncpus := ncpus, rank := r } b = some (0, b1) ∧
        sdf_factor fm pn
          { ncpus := ncpus, rank :=
              r % prodBelow (sdf_factor_search fm { ncpus := ncpus } b).cpu_split b.ndims }
          b = some (0, b2) ∧
        ∀ n, n < b.ndims → b1.starts n = b2.starts n ∧ b1.local_dims n = b2.local_dims n) := by
  have _ := hn'
  have hsrch : ∀ r : Int, sdf_factor_search fm { ncpus := ncpus, rank := r } b
      = sdf_factor_search fm { ncpus := ncpus } b := fun r => rfl
  obtain ⟨hs2, hP⟩ := sdf_factor_search_assigned fm { ncpus := ncpus } b hnd ha
  have hs : ∀ n, n < b.ndims →
      1 ≤ (sdf_factor_search fm { ncpus := ncpus } b).cpu_split n := fun n hn => (hs2 n hn).1
  have hdims : ∀ n, n < b.ndims → (b.dims n : Int) < 2 ^ 31 := by
    intro n hn
    have := le_prodBelow (fun n => (b.dims n : Int)) b.ndims
      (fun m hm => by
        have := hpos m hm
        show (1 : Int) ≤ (b.dims m : Int)
        omega) n hn
    simp only [] at this
    omega
  have hext : ∀ r : Int, ∃ b1,
      sdf_factor fm pn { ncpus := ncpus, rank := r } b = some (0, b1) ∧
      ∀ n, n < b.ndims →
        b1.starts n = idealStart (b.dims n)
          ((sdf_factor_search fm { ncpus := ncpus } b).cpu_split n)
          (coordOf (sdf_factor_search fm { ncpus := ncpus } b).cpu_split r n) ∧
        b1.local_dims n = idealLocal (b.dims n)
          ((sdf_factor_search fm { ncpus := ncpus } b).cpu_split n)
          (coordOf (sdf_factor_search fm { ncpus := ncpus } b).cpu_split r n) := by
    intro r
    obtain ⟨e, he, h1⟩ := extents_cell_centre pn
      { b with dims := fun n => if n < b.ndims then b.dims n else adjustedDims b n,
               cpu_split := (sdf_factor_search fm { ncpus := ncpus } b).cpu_split }
      r b.starts b.local_dims hcc hs
      (fun n hn => by
        have hn' : n < b.ndims := hn
        refine ⟨(hs2 n hn').2, ?_⟩
        simp only [hn', if_true]
        exact hdims n hn')
    rw [sdf_factor_eq, hsrch]
    simp only [he, Option.map_some']
    refine ⟨_, rfl, fun n hn => ?_⟩
    have := h1 n hn
    simp only [hn, if_true] at this
    exact this
  refine ⟨hP, ?_, ?_⟩
  · intro r1 r2 h0 h12 h2P
    obtain ⟨b1, hb1, e1⟩ := hext r1
    obtain ⟨b2, hb2, e2⟩ := hext r2
    refine ⟨b1, b2, hb1, hb2, ?_⟩
    rintro ⟨x, hx⟩
    have := rank_unique_of_common_cell b.dims _ b.ndims hs x r1 r2 h0 (by omega)
      (by omega) h2P
      (fun n hn => by
        have := (hx n hn).1
        rw [(e1 n hn).1, (e1 n hn).2] at this
        exact this)
      (fun n hn => by
        have := (hx n hn).2
        rw [(e2 n hn).1, (e2 n hn).2] at this
        exact this)
    omega
  · intro r hr _
    obtain ⟨b1, hb1, e1⟩ := hext r
    obtain ⟨b2, hb2, e2⟩ := hext
      (r % prodBelow (sdf_factor_search fm { ncpus := ncpus } b).cpu_split b.ndims)
    refine ⟨b1, b2, hb1, hb2, fun n hn => ?_⟩
    rw [(e1 n hn).1, (e1 n hn).2, (e2 n hn).1, (e2 n hn).2,
      coordOf_emod _ b.ndims r n hs hr hn]
    exact ⟨rfl, rfl⟩

set_option maxRecDepth 100000 in
/-- C4, as stated, fails: with `ncpus = 2` and a cell-centred grid of 1 x 1 cells
the search stores the split `[1, 1]`, whose product 1 is smaller than `ncpus`, and
`sdf_factor` gives the two ranks 0 and 1 of the job the same rectangle, start
`[0, 0]` and size `[1, 1]`: the cell `(0, 0)` lies in both. -/
theorem surplus_rank_overlaps :
    ∃ b0 b1,
      sdf_factor f32Ops (-1) { ncpus := 2, rank := 0 } block1x1 = some (0, b0) ∧
      sdf_factor f32Ops (-1) { ncpus := 2, rank := 1 } block1x1 = some (0, b1) ∧
      (b0.cpu_split 0 = 1 ∧ b0.cpu_split 1 = 1) ∧
      (b0.starts 0 = 0 ∧ b0.starts 1 = 0 ∧ b0.local_dims 0 = 1 ∧ b0.local_dims 1 = 1) ∧
      (b1.starts 0 = 0 ∧ b1.starts 1 = 0 ∧ b1.local_dims 0 = 1 ∧ b1.local_dims 1 = 1) ∧
      ∃ x : Nat → Int, ∀ n, n < 2 →
        (b0.starts n ≤ x n ∧ x n < b0.starts n + b0.local_dims n) ∧
        (b1.starts n ≤ x n ∧ x n < b1.starts n + b1.local_dims n) := by
  refine ⟨_, _, rfl, rfl, by decide, by decide, by decide, fun _ => 0, fun n hn => ?_⟩
  have : n = 0 ∨ n = 1 := by omega
  rcases this with h | h <;> subst h <;> decide

set_option maxRecDepth 100000 in
/-- C4 as amended, at 4 ranks on a cell-centred 10 x 10 grid. -/
theorem factor_extents_disjoint_witness :
    prodBelow (sdf_factor_search f32Ops { ncpus := 4 } grid10).cpu_split grid10.ndims ≤ 4 ∧
    (∀ r1 r2 : Int, 0 ≤ r1 → r1 < r2 →
      r2 < prodBelow (sdf_factor_search f32Ops { ncpus := 4 } grid10).cpu_split grid10.ndims →
      ∃ b1 b2,
        sdf_factor f32Ops (-1) { ncpus := 4, rank := r1 } grid10 = some (0, b1) ∧
        sdf_factor f32Ops (-1) { ncpus := 4, rank := r2 } grid10 = some (0, b2) ∧
        ¬ ∃ x : Nat → Int, ∀ n, n < grid10.ndims →
          (b1.starts n ≤ x n ∧ x n < b1.starts n + b1.local_dims n) ∧
          (b2.starts n ≤ x n ∧ x n < b2.starts n + b2.local_dims n)) ∧
    (∀ r : Int, 0 ≤ r → r < 4 →
      ∃ b1 b2,
        sdf_factor f32Ops (-1) { ncpus := 4, rank := r } grid10 = some (0, b1) ∧
        sdf_factor f32Ops (-1)
          { ncpus := 4, rank :=
              r % prodBelow (sdf_factor_search f32Ops { ncpus := 4 } grid10).cpu_split
                grid10.ndims }
          grid10 = some (0, b2) ∧
        ∀ n, n < grid10.ndims →
          b1.starts n = b2.starts n ∧ b1.local_dims n = b2.local_dims n) :=
  factor_extents_disjoint f32Ops (-1) 4 grid10 rfl (Or.inl rfl)
    (fun n hn => by
      have : n = 0 ∨ n = 1 := by
        have : n < 2 := hn
        omega
      rcases this with h | h <;> subst h <;> decide)
    (by decide) (by decide) (by decide)

/-- C1, the code at the failing inputs. With 7 ranks on a 3 x 3 grid `factor2d`
stores nothing, whatever the float arithmetic and whatever `cpu_split` held: no
two factors between 1 and 3 have the product 7. The same holds for `factor3d`
with 5 ranks on a 2 x 2 x 2 grid. On a block whose `cpu_split` is still zero,
`sdf_factor` then divides by zero in `sdf_get_domain_extents`. -/
theorem factor_leaves_cpu_split_unassigned (fm : FloatOps) (pn : Int) (cs : Nat → Int) :
    (factor2d fm 7 (arr3 3 3 0) cs).1 = 0 ∧
    (factor2d fm 7 (arr3 3 3 0) cs).2 = cs ∧
    (factor3d fm 5 (arr3 2 2 2) cs).1 = 0 ∧
    (factor3d fm 5 (arr3 2 2 2) cs).2 = cs ∧
    sdf_factor fm pn { ncpus := 7 } grid3 = none :=
  ⟨rfl, rfl, rfl, rfl, rfl⟩

/-! ### The search does not depend on what `cpu_split` held -/

theorem foldl_rel {α β : Type} (R : β → β → Prop) (f : β → α → β) (l : List α)
    (h : ∀ b b' a, R b b' → R (f b a) (f b' a)) (b0 b0' : β) (h0 : R b0 b0') :
    R (l.foldl f b0) (l.foldl f b0') := by
  induction l generalizing b0 b0' with
  | nil => exact h0
  | cons a l ih =>
    simp only [List.foldl_cons]
    exact ih _ _ (h b0 b0' a h0)

theorem tryCorner_same (fm : FloatOps) (gridav : fm.F) (k : Nat) (tmp : Nat → Int)
    (st st' : FactorState fm) (grid : Int) (h : SameSearch k st st') :
    SameSearch k (tryCorner fm gridav k tmp st grid) (tryCorner fm gridav k tmp st' grid) := by
  obtain ⟨h1, h2, h3⟩ := h
  unfold tryCorner
  simp only [← h1]
  split
  · refine ⟨rfl, rfl, fun _ n hn => ?_⟩
    simp [hn]
  · exact ⟨h1, h2, h3⟩

theorem factor2dSearch_same (fm : FloatOps) (ncpus : Int) (dims : Nat → Nat)
    (cs cs' : Nat → Int) :
    SameSearch 2 (factor2dSearch fm ncpus dims cs) (factor2dSearch fm ncpus dims cs') := by
  unfold factor2dSearch
  simp only []
  refine foldl_rel _ _ _ (fun st st' j hst => ?_) _ _ ⟨rfl, rfl, fun h => by cases h⟩
  refine foldl_rel _ _ _ (fun st st' i hst => ?_) _ _ hst
  unfold factor2dBody
  simp only []
  split
  · exact hst
  · exact foldl_rel _ _ _ (fun b b' a hb => tryCorner_same fm _ 2 _ b b' a hb) _ _ hst

theorem factor3dSearch_same (fm : FloatOps) (ncpus : Int) (dims : Nat → Nat)
    (cs cs' : Nat → Int) :
    SameSearch 3 (factor3dSearch fm ncpus dims cs) (factor3dSearch fm ncpus dims cs') := by
  unfold factor3dSearch
  simp only []
  refine foldl_rel _ _ _ (fun st st' k hst => ?_) _ _ ⟨rfl, rfl, fun h => by cases h⟩
  refine foldl_rel _ _ _ (fun st st' j hst => ?_) _ _ hst
  refine foldl_rel _ _ _ (fun st st' i hst => ?_) _ _ hst
  unfold factor3dBody
  simp only []
  split
  · exact hst
  · exact foldl_rel _ _ _ (fun b b' a hb => tryCorner_same fm _ 3 _ b b' a hb) _ _ hst

theorem factor2d_snd (fm : FloatOps) (ncpus : Int) (dims : Nat → Nat) (cs : Nat → Int) :
    (factor2d fm ncpus dims cs).2 = (factor2dSearch fm ncpus dims cs).cpu_split := by
  unfold factor2d
  rfl

theorem factor3d_snd (fm : FloatOps) (ncpus : Int) (dims : Nat → Nat) (cs : Nat → Int) :
    (factor3d fm ncpus dims cs).2 = (factor3dSearch fm ncpus dims cs).cpu_split := by
  unfold factor3d
  rfl

set_option maxRecDepth 100000 in
/-- On the 10 x 10 grid with 4 ranks the search of `factor2d` ends with the split
`[2, 2]` in the first two entries of `cpu_split`, and the other entries as they
were. -/
theorem factor2dSearch_10x10 (cs : Nat → Int) :
    (factor2dSearch exactOps 4 (arr3 10 10 0) cs).cpu_split
      = fun n => if n < 2 then 2 else cs n := by
  obtain ⟨_, h2, h3⟩ := factor2dSearch_same exactOps 4 (arr3 10 10 0) (arr3 0 0 0) cs
  have ha : (factor2dSearch exactOps 4 (arr3 10 10 0) (arr3 0 0 0)).assigned = true := by
    decide
  have h0 : (factor2dSearch exactOps 4 (arr3 10 10 0) (arr3 0 0 0)).cpu_split 0 = 2 := by
    decide
  have h1 : (factor2dSearch exactOps 4 (arr3 10 10 0) (arr3 0 0 0)).cpu_split 1 = 2 := by
    decide
  have e0 := h3 ha 0 (by omega)
  have e1 := h3 ha 1 (by omega)
  rw [h0] at e0
  rw [h1] at e1
  rw [ha] at h2
  funext n
  rcases factor2dSearch_inv exactOps 4 (arr3 10 10 0) cs with ⟨hf, _⟩ | ⟨_, tmp, _, h⟩
  · rw [hf] at h2; cases h2
  · by_cases hn : n < 2
    · have : n = 0 ∨ n = 1 := by omega
      rcases this with e | e <;> subst e <;> simp [← e0, ← e1]
    · rw [h]; simp [hn]

/-- C6. For a cell-centred grid with `dims = [10, 10]` and `ncpus = 4`, `factor2d`
(in exact arithmetic; all values are small integers) yields the split factors
`[2, 2]`, whatever `cpu_split` held, and with those factors (the block `block10`)
`sdf_get_domain_extents` gives rank 0 the start `[0, 0]` and the size `[5, 5]` and
rank 3 the start `[5, 5]` and the size `[5, 5]`. -/
theorem scenario_10x10_on_4 (pn : Int) (cs start local_ : Nat → Int) :
    ((factor2d exactOps 4 block10.dims cs).2 0 = 2 ∧
      (factor2d exactOps 4 block10.dims cs).2 1 = 2) ∧
    (block10.cpu_split 0 = 2 ∧ block10.cpu_split 1 = 2) ∧
    (sdf_get_domain_extents pn block10 0 start local_).map
      (fun e => ((e.start 0, e.start 1), (e.local_ 0, e.local_ 1)))
      = some ((0, 0), (5, 5)) ∧
    (sdf_get_domain_extents pn block10 3 start local_).map
      (fun e => ((e.start 0, e.start 1), (e.local_ 0, e.local_ 1)))
      = some ((5, 5), (5, 5)) := by
  have hs : (factor2d exactOps 4 block10.dims cs).2
      = fun n => if n < 2 then 2 else cs n := by
    rw [factor2d_snd]
    exact factor2dSearch_10x10 cs
  rw [hs]
  exact ⟨⟨rfl, rfl⟩, ⟨rfl, rfl⟩, rfl, rfl⟩

/-- C7, as stated, fails: on the 10 x 10 grid split 2 x 2, for no value of
`MPI_PROC_NULL` is the high-side neighbour of rank 0 on axis 0 the rank 2. -/
theorem proc_max_axis0_is_not_rank2 :
    ¬ ∃ (pn : Int) (e : Extents),
        sdf_get_domain_extents pn block10 0 (arr3 0 0 0) (arr3 0 0 0) = some e ∧
        e.block.proc_max 0 = 2 := by
  rintro ⟨pn, e, he, h⟩
  have key : (sdf_get_domain_extents pn block10 0 (arr3 0 0 0) (arr3 0 0 0)).map
      (fun e => e.block.proc_max 0) = some 1 := rfl
  rw [he] at key
  simp only [Option.map_some', Option.some.injEq] at key
  omega

/-- C7, as amended. For `dims = [10, 10]` and the split factors `[2, 2]`, the
high-side neighbour that `sdf_get_domain_extents` computes for rank 0 on axis 0
is rank 1; rank 2 is its high-side neighbour on axis 1. -/
theorem proc_max_of_rank0 (pn : Int) (start local_ : Nat → Int) :
    (sdf_get_domain_extents pn block10 0 start local_).map
      (fun e => (e.block.proc_max 0, e.block.proc_max 1)) = some (1, 2) :=
  rfl

/-! ## Staggered blocks -/

theorem decU64_eq (d : Nat) (h1 : 1 ≤ d) (h2 : d < 2 ^ 64) : decU64 d = d - 1 := by
  unfold decU64
  omega

/-- C8, as stated, fails: the block `blockFaceX` (11 x 11 samples, split 2 x 2) has
the stagger 1, which marks axis 0 only, yet for rank 0 `local[1]` is 6, one more
than the 5 that the cell-centred split of the reduced 10 x 10 grid gives; the same
holds on axis 0, the axis that the test `stagger & n` of `sdf_factor` leaves
unmarked. -/
theorem unmarked_axis_gets_one_more :
    ∃ e ecc,
      sdf_get_domain_extents (-1) blockFaceX 0 (arr3 0 0 0) (arr3 0 0 0) = some e ∧
      sdf_get_domain_extents (-1) (cellCentred blockFaceX) 0 (arr3 0 0 0) (arr3 0 0 0)
        = some ecc ∧
      (cellCentred blockFaceX).dims 0 = 10 ∧ (cellCentred blockFaceX).dims 1 = 10 ∧
      staggerMarks blockFaceX.stagger 1 = false ∧
      ecc.local_ 1 = 5 ∧ e.local_ 1 = 6 ∧
      blockFaceX.stagger &&& 0 = 0 ∧
      ecc.local_ 0 = 5 ∧ e.local_ 0 = 6 := by
  refine ⟨_, _, rfl, rfl, ?_, ?_, ?_, ?_, ?_, ?_, ?_, ?_⟩ <;> decide

/-- C8, as amended. For a block whose stagger is not cell-centred (and split
factors that are not zero), `sdf_get_domain_extents` splits the grid with each
axis below `ndims` reduced by one, as it splits the cell-centred block of these
dimensions, and then adds one to the local size on every axis below `ndims`,
whichever axes the stagger marks: `local[n]` is the size the cell-centred split
gives that rank plus one, and `start[n]` and the neighbours are those of the
cell-centred split. -/
theorem staggered_extents (pn : Int) (b : sdf_block_t) (rank : Int)
    (start local_ : Nat → Int)
    (hst : b.stagger ≠ SDF_STAGGER_CELL_CENTRE)
    (hs : ∀ n, n < b.ndims → b.cpu_split n ≠ 0) :
    ∃ e ecc,
      sdf_get_domain_extents pn b rank start local_ = some e ∧
      sdf_get_domain_extents pn (cellCentred b) rank start local_ = some ecc ∧
      (∀ n, n < b.ndims → (cellCentred b).dims n = decU64 (b.dims n)) ∧
      (∀ n, n < b.ndims →
        e.local_ n = ecc.local_ n + 1 ∧ e.start n = ecc.start n ∧
        e.block.proc_min n = ecc.block.proc_min n ∧
        e.block.proc_max n = ecc.block.proc_max n) := by
  obtain ⟨e, he, _, h1, _⟩ := sdf_get_domain_extents_eq pn b rank start local_ hs
  obtain ⟨ecc, hecc, _, h2, _⟩ :=
    sdf_get_domain_extents_eq pn (cellCentred b) rank start local_ hs
  have hw : workDims (cellCentred b) = workDims b := by
    simp [workDims, cellCentred]
  refine ⟨e, ecc, he, hecc, fun n hn => ?_, fun n hn => ?_⟩
  · simp [cellCentred, workDims, hst, hn]
  · have a1 := h1 n hn
    have a2 := h2 n hn
    rw [hw] at a2
    simp only [cellCentred, ne_eq, not_true_eq_false, if_false, add_zero] at a2
    simp only [hst, ne_eq, not_false_eq_true, if_true] at a1
    rw [a1.1, a1.2.1, a1.2.2.1, a1.2.2.2, a2.1, a2.2.1, a2.2.2.1, a2.2.2.2]
    exact ⟨rfl, rfl, rfl, rfl⟩

/-- C8 as amended, at the block `blockFaceX` and rank 3. -/
theorem staggered_extents_witness :
    ∃ e ecc,
      sdf_get_domain_extents (-1) blockFaceX 3 (arr3 0 0 0) (arr3 0 0 0) = some e ∧
      sdf_get_domain_extents (-1) (cellCentred blockFaceX) 3 (arr3 0 0 0) (arr3 0 0 0)
        = some ecc ∧
      (∀ n, n < blockFaceX.ndims →
        (cellCentred blockFaceX).dims n = decU64 (blockFaceX.dims n)) ∧
      (∀ n, n < blockFaceX.ndims →
        e.local_ n = ecc.local_ n + 1 ∧ e.start n = ecc.start n ∧
        e.block.proc_min n = ecc.block.proc_min n ∧
        e.block.proc_max n = ecc.block.proc_max n) :=
  staggered_extents (-1) blockFaceX 3 (arr3 0 0 0) (arr3 0 0 0) (by decide)
    (fun n hn => by
      have : n = 0 ∨ n = 1 := by
        have : n < 2 := hn
        omega
      rcases this with h | h <;> subst h <;> decide)

/-! ## Release of a block's payload -/

theorem grid_calls_nodup (g : Nat → Nat) (k : Nat) :
    (((List.range k).filterMap
        (fun i => if g i ≠ 0 then some (⟨Buffer.grid i, g i⟩ : FreeCall) else none)).map
      FreeCall.buffer).Nodup := by
  rw [List.map_filterMap]
  refine List.Nodup.filterMap ?_ (List.nodup_range k)
  intro a a' c h1 h2
  by_cases ha : g a ≠ 0 <;> by_cases ha' : g a' ≠ 0 <;> simp_all
  rw [← h2] at h1
  exact Buffer.grid.inj h1

theorem grid_calls_buffer (g : Nat → Nat) (k : Nat) (c : FreeCall)
    (hc : c ∈ (List.range k).filterMap
        (fun i => if g i ≠ 0 then some (⟨Buffer.grid i, g i⟩ : FreeCall) else none)) :
    ∃ i, c.buffer = Buffer.grid i := by
  rw [List.mem_filterMap] at hc
  obtain ⟨i, _, hi⟩ := hc
  by_cases h : g i ≠ 0
  · rw [if_pos h] at hi
    cases hi
    exact ⟨i, rfl⟩
  · rw [if_neg h] at hi
    cases hi

theorem all_buffers_nodup (g : Nat → Nat) (k : Nat) :
    (((List.range k).filterMap
        (fun i => if g i ≠ 0 then some (⟨Buffer.grid i, g i⟩ : FreeCall) else none)).map
      FreeCall.buffer
      ++ [Buffer.grids, Buffer.data, Buffer.node_list, Buffer.boundary_cells]).Nodup := by
  rw [List.nodup_append]
  refine ⟨grid_calls_nodup g k, by decide, ?_⟩
  intro x hx hx2
  rw [List.mem_map] at hx
  obtain ⟨c, hc, rfl⟩ := hx
  obtain ⟨i, hi⟩ := grid_calls_buffer g k c hc
  rw [hi] at hx2
  simp at hx2

/-- The buffers freed by one call are, in order, among: the grid buffers, the grid
pointer array, the data buffer, `node_list`, `boundary_cells`. -/
theorem free_calls_sublist (h : sdf_file_t) (b : sdf_block_t) :
    List.Sublist ((sdf_free_block_data h (some b)).freed.map FreeCall.buffer)
      (((List.range b.ndims).filterMap
          (fun i => if b.gridsMem i ≠ 0 then some (⟨Buffer.grid i, b.gridsMem i⟩ : FreeCall)
            else none)).map FreeCall.buffer
        ++ [Buffer.grids, Buffer.data, Buffer.node_list, Buffer.boundary_cells]) := by
  simp only [sdf_free_block_data, List.map_append]
  have e : ∀ l : List Buffer,
      l ++ [Buffer.grids, Buffer.data, Buffer.node_list, Buffer.boundary_cells]
        = l ++ [Buffer.grids] ++ [Buffer.data] ++ [Buffer.node_list]
          ++ [Buffer.boundary_cells] := by
    intro l; simp
  rw [e]
  refine List.Sublist.append (List.Sublist.append (List.Sublist.append ?_ ?_) ?_) ?_
  · by_cases c1 : b.grids ≠ 0
    · rw [if_pos c1, List.map_append]
      refine List.Sublist.append ?_ (List.Sublist.refl _)
      by_cases c2 : h.mmap = 0 ∧ b.done_data ≠ 0
      · rw [if_pos c2]
      · rw [if_neg c2]; exact List.nil_sublist _
    · rw [if_neg c1]; exact List.nil_sublist _
  · by_cases c : h.mmap = 0 ∧ b.data ≠ 0 ∧ b.done_data ≠ 0 ∧ b.dont_own_data = 0
    · rw [if_pos c]; exact List.Sublist.refl _
    · rw [if_neg c]; exact List.nil_sublist _
  · by_cases c : b.node_list ≠ 0
    · rw [if_pos c]; exact List.Sublist.refl _
    · rw [if_neg c]; exact List.nil_sublist _
  · by_cases c : b.boundary_cells ≠ 0
    · rw [if_pos c]; exact List.Sublist.refl _
    · rw [if_neg c]; exact List.nil_sublist _

/-- C9. Releasing the payload of a block is idempotent: for every handle and every
block (or null pointer), a second `sdf_free_block_data` leaves the block as the
first left it and calls `free` on nothing; over both calls each buffer of the
block (the data buffer, each grid buffer, the grid pointer array, `node_list`,
`boundary_cells`) is freed at most once. -/
theorem free_block_data_idempotent (h : sdf_file_t) (b : Option sdf_block_t) :
    (sdf_free_block_data h (sdf_free_block_data h b).block).block
      = (sdf_free_block_data h b).block ∧
    (sdf_free_block_data h (sdf_free_block_data h b).block).freed = [] ∧
    (sdf_free_block_data h (sdf_free_block_data h b).block).ret
      = (sdf_free_block_data h b).ret ∧
    (((sdf_free_block_data h b).freed
        ++ (sdf_free_block_data h (sdf_free_block_data h b).block).freed).map
      FreeCall.buffer).Nodup := by
  cases b with
  | none => simp [sdf_free_block_data]
  | some b =>
    refine ⟨by simp [sdf_free_block_data], by simp [sdf_free_block_data],
      by simp [sdf_free_block_data], ?_⟩
    have h2 : (sdf_free_block_data h (sdf_free_block_data h (some b)).block).freed = [] := by
      simp [sdf_free_block_data]
    rw [h2, List.append_nil]
    exact List.Nodup.sublist (free_calls_sublist h b) (all_buffers_nodup b.gridsMem b.ndims)

/-- C10, as stated, fails: on a memory-mapped handle `sdf_free_block_data` still
calls `free`, on the grid pointer array and on `node_list` of the block
`meshBlock`. -/
theorem mapped_handle_still_frees :
    mappedHandle.mmap ≠ 0 ∧
    (sdf_free_block_data mappedHandle (some meshBlock)).freed
      = [⟨Buffer.grids, 100⟩, ⟨Buffer.node_list, 400⟩] := by
  decide

/-- C10, as amended. `sdf_free_block_data` frees the data buffer of a block only if
the handle is not memory-mapped, the block has been materialized (`done_data`
set) and the payload is owned (`dont_own_data` not set), and it frees a per-axis
grid buffer only if the handle is not memory-mapped and the block has been
materialized. When the handle is memory-mapped no payload buffer is freed: the
only calls of `free` are on the grid pointer array, `node_list` and
`boundary_cells`. The data buffer of a block with `dont_own_data` set is not
freed; in every case the pointers `data`, `grids`, `node_list` and
`boundary_cells` are cleared and `done_data` is reset. -/
theorem free_block_data_ownership (h : sdf_file_t) (b : sdf_block_t) :
    (∀ p, (⟨Buffer.data, p⟩ : FreeCall) ∈ (sdf_free_block_data h (some b)).freed →
      h.mmap = 0 ∧ b.done_data ≠ 0 ∧ b.dont_own_data = 0 ∧ p = b.data ∧ p ≠ 0) ∧
    (∀ i p, (⟨Buffer.grid i, p⟩ : FreeCall) ∈ (sdf_free_block_data h (some b)).freed →
      h.mmap = 0 ∧ b.done_data ≠ 0 ∧ i < b.ndims ∧ p = b.gridsMem i ∧ p ≠ 0) ∧
    (h.mmap ≠ 0 → ∀ c, c ∈ (sdf_free_block_data h (some b)).freed →
      c.buffer = Buffer.grids ∨ c.buffer = Buffer.node_list ∨
        c.buffer = Buffer.boundary_cells) ∧
    (b.dont_own_data ≠ 0 →
      ∀ p, (⟨Buffer.data, p⟩ : FreeCall) ∉ (sdf_free_block_data h (some b)).freed) ∧
    (∃ b', (sdf_free_block_data h (some b)).block = some b' ∧
      b'.data = 0 ∧ b'.grids = 0 ∧ b'.node_list = 0 ∧ b'.boundary_cells = 0 ∧
      b'.done_data = 0) := by
  have hdata : ∀ p, (⟨Buffer.data, p⟩ : FreeCall) ∈ (sdf_free_block_data h (some b)).freed →
      h.mmap = 0 ∧ b.done_data ≠ 0 ∧ b.dont_own_data = 0 ∧ p = b.data ∧ p ≠ 0 := by
    intro p hp
    simp only [sdf_free_block_data, List.mem_append] at hp
    rcases hp with ((hp | hp) | hp) | hp
    · by_cases c1 : b.grids ≠ 0
      · rw [if_pos c1, List.mem_append] at hp
        rcases hp with hp | hp
        · by_cases c2 : h.mmap = 0 ∧ b.done_data ≠ 0
          · rw [if_pos c2] at hp
            obtain ⟨i, hi⟩ := grid_calls_buffer _ _ _ hp
            cases hi
          · rw [if_neg c2] at hp; cases hp
        · simp at hp
      · rw [if_neg c1] at hp; cases hp
    · by_cases c : h.mmap = 0 ∧ b.data ≠ 0 ∧ b.done_data ≠ 0 ∧ b.dont_own_data = 0
      · rw [if_pos c] at hp
        simp only [List.mem_singleton, FreeCall.mk.injEq, true_and] at hp
        subst hp
        exact ⟨c.1, c.2.2.1, c.2.2.2, rfl, c.2.1⟩
      · rw [if_neg c] at hp; cases hp
    · by_cases c : b.node_list ≠ 0
      · rw [if_pos c] at hp; simp at hp
      · rw [if_neg c] at hp; cases hp
    · by_cases c : b.boundary_cells ≠ 0
      · rw [if_pos c] at hp; simp at hp
      · rw [if_neg c] at hp; cases hp
  refine ⟨hdata, ?_, ?_, ?_, ?_⟩
  · intro i p hp
    simp only [sdf_free_block_data, List.mem_append] at hp
    rcases hp with ((hp | hp) | hp) | hp
    · by_cases c1 : b.grids ≠ 0
      · rw [if_pos c1, List.mem_append] at hp
        rcases hp with hp | hp
        · by_cases c2 : h.mmap = 0 ∧ b.done_data ≠ 0
          · rw [if_pos c2, List.mem_filterMap] at hp
            obtain ⟨j, hj, hjp⟩ := hp
            by_cases c3 : b.gridsMem j ≠ 0
            · rw [if_pos c3] at hjp
              simp only [Option.some.injEq, FreeCall.mk.injEq, Buffer.grid.injEq] at hjp
              obtain ⟨rfl, rfl⟩ := hjp
              exact ⟨c2.1, c2.2, List.mem_range.mp hj, rfl, c3⟩
            · rw [if_neg c3] at hjp; cases hjp
          · rw [if_neg c2] at hp; cases hp
        · simp at hp
      · rw [if_neg c1] at hp; cases hp
    · by_cases c : h.mmap = 0 ∧ b.data ≠ 0 ∧ b.done_data ≠ 0 ∧ b.dont_own_data = 0
      · rw [if_pos c] at hp; simp at hp
      · rw [if_neg c] at hp; cases hp
    · by_cases c : b.node_list ≠ 0
      · rw [if_pos c] at hp; simp at hp
      · rw [if_neg c] at hp; cases hp
    · by_cases c : b.boundary_cells ≠ 0
      · rw [if_pos c] at hp; simp at hp
      · rw [if_neg c] at hp; cases hp
  · intro hm c hc
    simp only [sdf_free_block_data, List.mem_append] at hc
    have n2 : ¬ (h.mmap = 0 ∧ b.done_data ≠ 0) := fun hh => hm hh.1
    have n3 : ¬ (h.mmap = 0 ∧ b.data ≠ 0 ∧ b.done_data ≠ 0 ∧ b.dont_own_data = 0) :=
      fun hh => hm hh.1
    rw [if_neg n2, if_neg n3] at hc
    rcases hc with ((hc | hc) | hc) | hc
    · by_cases c1 : b.grids ≠ 0
      · rw [if_pos c1] at hc
        simp only [List.nil_append, List.mem_singleton] at hc
        subst hc; exact Or.inl rfl
      · rw [if_neg c1] at hc; cases hc
    · cases hc
    · by_cases c4 : b.node_list ≠ 0
      · rw [if_pos c4, List.mem_singleton] at hc
        subst hc; exact Or.inr (Or.inl rfl)
      · rw [if_neg c4] at hc; cases hc
    · by_cases c5 : b.boundary_cells ≠ 0
      · rw [if_pos c5, List.mem_singleton] at hc
        subst hc; exact Or.inr (Or.inr rfl)
      · rw [if_neg c5] at hc; cases hc
  · intro hd p hp
    exact hd (hdata p hp).2.2.1
  · exact ⟨_, rfl, rfl, rfl, rfl, rfl, rfl⟩

/-! ## The exact instance of the float operations computes in the rationals -/

theorem exactOps_ofInt (n : Int) : Frac.toRat (exactOps.ofInt n) = (n : ℚ) := by
  simp [exactOps, Frac.toRat]

theorem exactOps_mul (a b : Frac) (ha : 0 < a.den) (hb : 0 < b.den) :
    Frac.toRat (exactOps.mul a b) = Frac.toRat a * Frac.toRat b ∧
      0 < (exactOps.mul a b : Frac).den := by
  have ha' : (a.den : ℚ) ≠ 0 := by positivity
  have hb' : (b.den : ℚ) ≠ 0 := by positivity
  constructor
  · simp only [exactOps, Frac.toRat]
    push_cast
    field_simp
  · exact Nat.mul_pos ha hb

theorem exactOps_sub (a b : Frac) (ha : 0 < a.den) (hb : 0 < b.den) :
    Frac.toRat (exactOps.sub a b) = Frac.toRat a - Frac.toRat b ∧
      0 < (exactOps.sub a b : Frac).den := by
  have ha' : (a.den : ℚ) ≠ 0 := by positivity
  have hb' : (b.den : ℚ) ≠ 0 := by positivity
  constructor
  · simp only [exactOps, Frac.toRat]
    push_cast
    field_simp
    ring
  · exact Nat.mul_pos ha hb

theorem exactOps_neg (a : Frac) :
    Frac.toRat (exactOps.neg a) = - Frac.toRat a ∧ (exactOps.neg a : Frac).den = a.den := by
  constructor
  · simp only [exactOps, Frac.toRat]
    push_cast
    ring
  · rfl

theorem exactOps_div (a b : Frac) (ha : 0 < a.den) (hb : 0 < b.den) (hn : b.num ≠ 0) :
    Frac.toRat (exactOps.div a b) = Frac.toRat a / Frac.toRat b ∧
      0 < (exactOps.div a b : Frac).den := by
  have ha' : (a.den : ℚ) ≠ 0 := by positivity
  have hb' : (b.den : ℚ) ≠ 0 := by positivity
  have hn' : (b.num : ℚ) ≠ 0 := by exact_mod_cast hn
  by_cases hpos : 0 < b.num
  · have e : ((b.num.toNat : Nat) : ℚ) = (b.num : ℚ) := by
      have : ((b.num.toNat : Nat) : Int) = b.num := Int.toNat_of_nonneg (le_of_lt hpos)
      exact_mod_cast this
    constructor
    · simp only [exactOps, Frac.div, if_pos hpos, Frac.toRat]
      push_cast
      rw [e]
      field_simp
    · simp only [exactOps, Frac.div, if_pos hpos]
      exact Nat.mul_pos ha (by omega)
  · have hneg : b.num < 0 := by omega
    have e : (((-b.num).toNat : Nat) : ℚ) = -(b.num : ℚ) := by
      have : (((-b.num).toNat : Nat) : Int) = -b.num := Int.toNat_of_nonneg (by omega)
      exact_mod_cast this
    constructor
    · simp only [exactOps, Frac.div, if_neg hpos, Frac.toRat]
      push_cast
      rw [e]
      field_simp
    · simp only [exactOps, Frac.div, if_neg hpos]
      exact Nat.mul_pos ha (by omega)

theorem exactOps_lt (a b : Frac) (ha : 0 < a.den) (hb : 0 < b.den) :
    exactOps.lt a b = true ↔ Frac.toRat a < Frac.toRat b := by
  have ha' : (0 : ℚ) < (a.den : ℚ) := by exact_mod_cast ha
  have hb' : (0 : ℚ) < (b.den : ℚ) := by exact_mod_cast hb
  simp only [exactOps, Frac.toRat, decide_eq_true_eq]
  rw [div_lt_div_iff₀ ha' hb']
  constructor
  · intro h
    have : ((a.num * (b.den : Int) : Int) : ℚ) < ((b.num * (a.den : Int) : Int) : ℚ) := by
      exact_mod_cast h
    push_cast at this
    exact this
  · intro h
    have : ((a.num * (b.den : Int) : Int) : ℚ) < ((b.num * (a.den : Int) : Int) : ℚ) := by
      push_cast
      exact h
    exact_mod_cast this

/-! ## Closing and destroying a handle -/

theorem freeHandleLoop_blockObject (h : sdf_file_full_t) (k : Nat) :
    ∀ (i : Nat) (l : List sdf_block_full_t) (j : Nat),
      HandleEvent.blockObject j ∈ freeHandleLoop h k i l → i ≤ j ∧ j + 1 < i + l.length := by
  induction k with
  | zero => intro i l j hj; simp [freeHandleLoop] at hj
  | succ k ih =>
    intro i l j hj
    match l with
    | [] => simp [freeHandleLoop] at hj
    | [_] => simp [freeHandleLoop] at hj
    | b :: b' :: rest =>
      simp only [freeHandleLoop, List.mem_append] at hj
      rcases hj with hj | hj
      · simp only [sdf_free_block, List.mem_append, List.mem_map, List.mem_singleton] at hj
        rcases hj with (⟨_, _, hj⟩ | ⟨_, _, hj⟩) | hj
        · cases hj
        · cases hj
        · cases hj
          simp only [List.length_cons]
          omega
      · have := ih (i + 1) (b' :: rest) j hj
        simp only [List.length_cons] at this ⊢
        omega

/-- C11, what the code does. `sdf_close` on a handle closes the byte stream (when
open) and frees nothing: `sdf_fclose` has reset `filehandle`, so the
`sdf_free_handle` that follows finds the handle not open and returns at once; the
handle and all its blocks stay allocated. And `sdf_free_handle` itself, called on
an open handle, never frees the last block of the list. -/
theorem sdf_close_frees_nothing (h : sdf_file_full_t) :
    (sdf_close (some h)).events
      = (if h.filehandle = 0 then [] else [HandleEvent.closed h.filehandle]) ∧
    (sdf_close (some h)).handle = some { h with filehandle := 0 } ∧
    (sdf_close (some h)).ret = (if h.filehandle = 0 then 1 else 0) ∧
    HandleEvent.blockObject (h.blocklist.length - 1)
      ∉ (sdf_free_handle (some h)).events := by
  refine ⟨?_, ?_, ?_, ?_⟩
  · by_cases hf : h.filehandle = 0 <;> simp [sdf_close, sdf_fclose, sdf_free_handle, hf]
  · by_cases hf : h.filehandle = 0
    · simp only [sdf_close, hf, if_true]
      congr 1
      cases h
      simp_all
    · simp [sdf_close, sdf_fclose, sdf_free_handle, hf]
  · by_cases hf : h.filehandle = 0 <;> simp [sdf_close, hf]
  · intro hmem
    by_cases hf : h.filehandle = 0
    · simp [sdf_free_handle, hf] at hmem
    · simp only [sdf_free_handle, hf, if_false, List.mem_append] at hmem
      rcases hmem with (((hmem | hmem) | hmem) | hmem) | hmem
      · have := freeHandleLoop_blockObject h _ _ _ _ hmem
        omega
      · split at hmem <;> simp at hmem
      · split at hmem <;> simp at hmem
      · split at hmem <;> simp at hmem
      · simp at hmem

/-- C14, as stated, fails: after a first narrowing of the block `real8Block` (two
doubles at address 1000, new buffer at 2000), a second call on the narrowed block
and buffer allocates again (at 3000), frees the buffer at 2000 and moves
`*var_in` to 3000. -/
theorem second_narrowing_acts :
    (sdf_convert_array_to_float (fun x : Int => x) 2000 9 floatHandle real8Block 1000
        (Content.doubles [1, 2]) 2).var_in = 2000 ∧
    (sdf_convert_array_to_float (fun x : Int => x) 2000 9 floatHandle real8Block 1000
        (Content.doubles [1, 2]) 2).block.datatype_out = SDF_DATATYPE_REAL4 ∧
    (sdf_convert_array_to_float (fun x : Int => x) 3000 9 floatHandle
        (sdf_convert_array_to_float (fun x : Int => x) 2000 9 floatHandle real8Block 1000
          (Content.doubles [1, 2]) 2).block
        2000 (Content.floats [1, 2]) 2).events
      = [MemEvent.malloc 8 3000, MemEvent.free 2000] ∧
    (sdf_convert_array_to_float (fun x : Int => x) 3000 9 floatHandle
        (sdf_convert_array_to_float (fun x : Int => x) 2000 9 floatHandle real8Block 1000
          (Content.doubles [1, 2]) 2).block
        2000 (Content.floats [1, 2]) 2).var_in = 3000 := by
  decide

/-- C14, as amended. After `sdf_convert_array_to_float` has narrowed a block
(`use_float` set, stored datatype the 8-byte float), a second call on the narrowed
block and buffer passes the same test, which looks at `use_float` and the stored
datatype only: it allocates a new buffer of `count` floats, frees the buffer it was
given unless the handle is memory-mapped, and stores the new address in
`*var_in`; the block, with `datatype_out` and `type_size_out`, is left as the
first call left it. -/
theorem second_narrowing (D F : Type) (cast : D → F) (fresh1 fresh2 MPI_FLOAT : Nat)
    (h : sdf_file_full_t) (b : sdf_block_full_t) (var_in : Nat) (content : Content D F)
    (count : Int)
    (h1 : h.use_float ≠ 0) (h2 : b.datatype = SDF_DATATYPE_REAL8) :
    (sdf_convert_array_to_float cast fresh1 MPI_FLOAT h b var_in content count).block.datatype_out
      = SDF_DATATYPE_REAL4 ∧
    (sdf_convert_array_to_float cast fresh2 MPI_FLOAT h
        (sdf_convert_array_to_float cast fresh1 MPI_FLOAT h b var_in content count).block
        (sdf_convert_array_to_float cast fresh1 MPI_FLOAT h b var_in content count).var_in
        (sdf_convert_array_to_float cast fresh1 MPI_FLOAT h b var_in content count).content
        count).events
      = MemEvent.malloc (count * 4) fresh2
        :: (if h.mmap = 0 then [MemEvent.free fresh1] else []) ∧
    (sdf_convert_array_to_float cast fresh2 MPI_FLOAT h
        (sdf_convert_array_to_float cast fresh1 MPI_FLOAT h b var_in content count).block
        (sdf_convert_array_to_float cast fresh1 MPI_FLOAT h b var_in content count).var_in
        (sdf_convert_array_to_float cast fresh1 MPI_FLOAT h b var_in content count).content
        count).var_in = fresh2 ∧
    (sdf_convert_array_to_float cast fresh2 MPI_FLOAT h
        (sdf_convert_array_to_float cast fresh1 MPI_FLOAT h b var_in content count).block
        (sdf_convert_array_to_float cast fresh1 MPI_FLOAT h b var_in content count).var_in
        (sdf_convert_array_to_float cast fresh1 MPI_FLOAT h b var_in content count).content
        count).block
      = (sdf_convert_array_to_float cast fresh1 MPI_FLOAT h b var_in content count).block := by
  simp [sdf_convert_array_to_float, h1, h2]

/-- C14 as amended, at the block `real8Block`. -/
theorem second_narrowing_witness :
    (sdf_convert_array_to_float (fun x : Int => x) 2000 9 floatHandle real8Block 1000
        (Content.doubles [1, 2]) 2).block.datatype_out = SDF_DATATYPE_REAL4 ∧
    (sdf_convert_array_to_float (fun x : Int => x) 3000 9 floatHandle
        (sdf_convert_array_to_float (fun x : Int => x) 2000 9 floatHandle real8Block 1000
          (Content.doubles [1, 2]) 2).block
        (sdf_convert_array_to_float (fun x : Int => x) 2000 9 floatHandle real8Block 1000
          (Content.doubles [1, 2]) 2).var_in
        (sdf_convert_array_to_float (fun x : Int => x) 2000 9 floatHandle real8Block 1000
          (Content.doubles [1, 2]) 2).content
        2).events
      = MemEvent.malloc (2 * 4) 3000
        :: (if floatHandle.mmap = 0 then [MemEvent.free 2000] else []) ∧
    (sdf_convert_array_to_float (fun x : Int => x) 3000 9 floatHandle
        (sdf_convert_array_to_float (fun x : Int => x) 2000 9 floatHandle real8Block 1000
          (Content.doubles [1, 2]) 2).block
        (sdf_convert_array_to_float (fun x : Int => x) 2000 9 floatHandle real8Block 1000
          (Content.doubles [1, 2]) 2).var_in
        (sdf_convert_array_to_float (fun x : Int => x) 2000 9 floatHandle real8Block 1000
          (Content.doubles [1, 2]) 2).content
        2).var_in = 3000 ∧
    (sdf_convert_array_to_float (fun x : Int => x) 3000 9 floatHandle
        (sdf_convert_array_to_float (fun x : Int => x) 2000 9 floatHandle real8Block 1000
          (Content.doubles [1, 2]) 2).block
        (sdf_convert_array_to_float (fun x : Int => x) 2000 9 floatHandle real8Block 1000
          (Content.doubles [1, 2]) 2).var_in
        (sdf_convert_array_to_float (fun x : Int => x) 2000 9 floatHandle real8Block 1000
          (Content.doubles [1, 2]) 2).content
        2).block
      = (sdf_convert_array_to_float (fun x : Int => x) 2000 9 floatHandle real8Block 1000
          (Content.doubles [1, 2]) 2).block :=
  second_narrowing Int Int (fun x => x) 2000 3000 9 floatHandle real8Block 1000
    (Content.doubles [1, 2]) 2 (by decide) rfl

/-! ## Invalid rank configurations and the adjusted dimensions -/

/-- C19, what the code does. The test `b->stagger & n` of `sdf_factor` is never
true on axis 0: the dimension of axis 0 that `factor2d`/`factor3d` receive is
never decremented, whatever the stagger (it is only raised to 1 when 0). For the
block `vertexBlock` (11 x 11 samples, staggered on every axis) `sdf_factor` hands
the dimensions `[11, 10]` to `factor2d`, while `sdf_get_domain_extents` splits
`[10, 10]`. -/
theorem axis0_never_adjusted (b : sdf_block_t) :
    (0 < b.ndims → adjustedDims b 0 = if b.dims 0 < 1 then 1 else b.dims 0) ∧
    (vertexBlock.stagger ≠ SDF_STAGGER_CELL_CENTRE ∧
      staggerMarks vertexBlock.stagger 0 = true ∧
      adjustedDims vertexBlock 0 = 11 ∧ adjustedDims vertexBlock 1 = 10 ∧
      workDims vertexBlock 0 = 10 ∧ workDims vertexBlock 1 = 10) := by
  constructor
  · intro h0
    simp [adjustedDims, adjustDim, h0]
  · decide

/-! ## The random generator -/

theorem seed_fold_indep (l : List (Fin 41790)) :
    ∀ s s' : RngState, s.indx = s'.indx → s.carry = s'.carry → s.xcng = s'.xcng →
      s.xs = s'.xs →
      (l.foldl seedStep s).indx = (l.foldl seedStep s').indx ∧
      (l.foldl seedStep s).carry = (l.foldl seedStep s').carry ∧
      (l.foldl seedStep s).xcng = (l.foldl seedStep s').xcng ∧
      (l.foldl seedStep s).xs = (l.foldl seedStep s').xs ∧
      ∀ i, (i ∈ l ∨ s.Q i = s'.Q i) → (l.foldl seedStep s).Q i = (l.foldl seedStep s').Q i := by
  induction l with
  | nil =>
    intro s s' h1 h2 h3 h4
    refine ⟨h1, h2, h3, h4, fun i hi => ?_⟩
    rcases hi with hi | hi
    · cases hi
    · exact hi
  | cons a l ih =>
    intro s s' h1 h2 h3 h4
    simp only [List.foldl_cons]
    obtain ⟨e1, e2, e3, e4, e5⟩ := ih (seedStep s a) (seedStep s' a)
      (by simp [seedStep, h1]) (by simp [seedStep, h2]) (by simp [seedStep, h3])
      (by simp [seedStep, h4])
    refine ⟨e1, e2, e3, e4, fun i hi => e5 i ?_⟩
    by_cases hia : i = a
    · right
      subst hia
      simp [seedStep, h3, h4]
    · rcases hi with hi | hi
      · rcases List.mem_cons.mp hi with h | h
        · exact absurd h hia
        · exact Or.inl h
      · right
        simp [seedStep, Function.update_noteq hia, hi]

theorem RngState.ext_fields (s s' : RngState) (hQ : s.Q = s'.Q) (h1 : s.indx = s'.indx)
    (h2 : s.carry = s'.carry) (h3 : s.xcng = s'.xcng) (h4 : s.xs = s'.xs) : s = s' := by
  cases s; cases s'
  simp only at hQ h1 h2 h3 h4
  subst hQ h1 h2 h3 h4
  rfl

theorem sdf_random_init_indep (s1 s2 : RngState) : sdf_random_init s1 = sdf_random_init s2 := by
  unfold sdf_random_init
  simp only []
  have h := seed_fold_indep (List.finRange 41790)
    { Q := s1.Q, indx := 41790, carry := 362436, xcng := 1236789, xs := 521288629 }
    { Q := s2.Q, indx := 41790, carry := 362436, xcng := 1236789, xs := 521288629 }
    rfl rfl rfl rfl
  obtain ⟨e1, e2, e3, e4, e5⟩ := h
  have : (List.finRange 41790).foldl seedStep
      { Q := s1.Q, indx := 41790, carry := 362436, xcng := 1236789, xs := 521288629 }
      = (List.finRange 41790).foldl seedStep
      { Q := s2.Q, indx := 41790, carry := 362436, xcng := 1236789, xs := 521288629 } :=
    RngState.ext_fields _ _ (funext fun i => e5 i (Or.inl (List.mem_finRange i))) e1 e2 e3 e4
  rw [this]

/-- C13. Seeding makes the generator deterministic: whatever the generator state
was, `sdf_random_init` leaves the same state; hence the `N` values that
`sdf_random` then returns are the same for every `N`, and `sdf_randomize_array`,
which seeds first, does the same swaps and leaves the same array and generator on
equal arrays with equal `count`, whatever the generator was used for before. -/
theorem seeding_is_deterministic (s1 s2 : RngState) :
    sdf_random_init s1 = sdf_random_init s2 ∧
    (∀ N : Nat, (draws N (sdf_random_init s1)).1 = (draws N (sdf_random_init s2)).1) ∧
    (∀ (α : Type) (b : sdf_block_full_t) (array : Nat → α) (count : Int),
      sdf_randomize_array s1 b array count = sdf_randomize_array s2 b array count) := by
  have h := sdf_random_init_indep s1 s2
  refine ⟨h, fun N => by rw [h], fun α b array count => ?_⟩
  unfold sdf_randomize_array
  rw [h]

theorem sdf_random_lt (s : RngState) : (sdf_random s).1 < 2 ^ 32 := by
  unfold sdf_random u32
  exact Nat.mod_lt _ (by norm_num)

theorem swapIndex_bounds (count : Int) (d : Nat) (h1 : 1 ≤ count) (h2 : count < 2 ^ 31)
    (hd : d < 2 ^ 32) :
    toI64 (1 * count) = count ∧ toI64 (count * (d : Int)) = count * (d : Int) ∧
    swapIndex count d = count * (d : Int) / 2 ^ 32 ∧
    0 ≤ swapIndex count d ∧ swapIndex count d < count := by
  have hd' : (d : Int) < 2 ^ 32 := by exact_mod_cast hd
  have hp0 : 0 ≤ count * (d : Int) := Int.mul_nonneg (by omega) (by omega)
  have hp1 : count * (d : Int) < count * 2 ^ 32 :=
    Int.mul_lt_mul_of_pos_left hd' (by omega)
  have e1 : toI64 (1 * count) = count := by
    unfold toI64; omega
  have e2 : toI64 (count * (d : Int)) = count * (d : Int) := by
    unfold toI64
    generalize count * (d : Int) = p at hp0 hp1
    omega
  have e3 : Int.tdiv (count * (d : Int)) (2 ^ 32) = count * (d : Int) / 2 ^ 32 :=
    Int.tdiv_eq_ediv hp0 (by norm_num)
  have e4 : 0 ≤ count * (d : Int) / 2 ^ 32 ∧ count * (d : Int) / 2 ^ 32 < count := by
    generalize count * (d : Int) = p at hp0 hp1
    omega
  have e5 : swapIndex count d = count * (d : Int) / 2 ^ 32 := by
    unfold swapIndex
    rw [e1, e2, e3]
    unfold toI32
    omega
  exact ⟨e1, e2, e5, by rw [e5]; exact e4.1, by rw [e5]; exact e4.2⟩

/-- C16. For `1 ≤ count < 2^31` and a draw `0 ≤ d < 2^32`, the index that
`sdf_randomize_array` computes, `1LL * count * d / 2^32` in signed 64-bit
arithmetic stored in an `int`, is computed without overflow, equals
`floor(count * d / 2^32)` and lies in `[0, count)`; every value of `sdf_random` is
such a draw, so both indices of an iteration are positions of the array. -/
theorem swap_index_in_range (count : Int) (d : Nat) (h1 : 1 ≤ count) (h2 : count < 2 ^ 31)
    (hd : d < 2 ^ 32) :
    toI64 (count * (d : Int)) = count * (d : Int) ∧
    swapIndex count d = count * (d : Int) / 2 ^ 32 ∧
    0 ≤ swapIndex count d ∧ swapIndex count d < count ∧
    (∀ s : RngState, (sdf_random s).1 < 2 ^ 32 ∧
      0 ≤ swapIndex count (sdf_random s).1 ∧ swapIndex count (sdf_random s).1 < count ∧
      0 ≤ swapIndex count (sdf_random (sdf_random s).2).1 ∧
      swapIndex count (sdf_random (sdf_random s).2).1 < count) := by
  obtain ⟨_, e2, e3, e4, e5⟩ := swapIndex_bounds count d h1 h2 hd
  refine ⟨e2, e3, e4, e5, fun s => ?_⟩
  obtain ⟨_, _, _, a1, a2⟩ := swapIndex_bounds count _ h1 h2 (sdf_random_lt s)
  obtain ⟨_, _, _, a3, a4⟩ := swapIndex_bounds count _ h1 h2 (sdf_random_lt (sdf_random s).2)
  exact ⟨sdf_random_lt s, a1, a2, a3, a4⟩

/-- C16, at `count = 3` and the draw `2^31`: the index is 1. -/
theorem swap_index_in_range_witness :
    toI64 (3 * ((2 ^ 31 : Nat) : Int)) = 3 * ((2 ^ 31 : Nat) : Int) ∧
    swapIndex 3 (2 ^ 31) = 3 * ((2 ^ 31 : Nat) : Int) / 2 ^ 32 ∧
    0 ≤ swapIndex 3 (2 ^ 31) ∧ swapIndex 3 (2 ^ 31) < 3 ∧
    (∀ s : RngState, (sdf_random s).1 < 2 ^ 32 ∧
      0 ≤ swapIndex 3 (sdf_random s).1 ∧ swapIndex 3 (sdf_random s).1 < 3 ∧
      0 ≤ swapIndex 3 (sdf_random (sdf_random s).2).1 ∧
      swapIndex 3 (sdf_random (sdf_random s).2).1 < 3) :=
  swap_index_in_range 3 (2 ^ 31) (by decide) (by decide) (by decide)

/-! ## The shuffle -/

theorem update_update_eq_comp_swap {α : Type} (f : Nat → α) (i j : Nat) :
    Function.update (Function.update f i (f j)) j (f i) = f ∘ Equiv.swap i j := by
  funext k
  by_cases hkj : k = j
  · subst hkj
    simp
  · by_cases hki : k = i
    · subst hki
      simp [Function.update_noteq hkj]
    · simp [Function.update_noteq hkj, Function.update_noteq hki,
        Equiv.swap_apply_of_ne_of_ne hki hkj]

theorem perm_fixing_lt (σ : Equiv.Perm Nat) (n : Nat) (hσ : ∀ i, n ≤ i → σ i = i) (i : Nat)
    (hi : i < n) : σ i < n := by
  by_contra hc
  have h1 : σ (σ i) = σ i := hσ _ (by omega)
  have h2 : σ i = i := σ.injective h1
  omega

theorem perm_fixing_symm_lt (σ : Equiv.Perm Nat) (n : Nat) (hσ : ∀ i, n ≤ i → σ i = i)
    (i : Nat) (hi : i < n) : σ.symm i < n := by
  by_contra hc
  have h1 : σ (σ.symm i) = σ.symm i := hσ _ (by omega)
  rw [Equiv.apply_symm_apply] at h1
  omega

theorem map_perm_range (σ : Equiv.Perm Nat) (n : Nat) (hσ : ∀ i, n ≤ i → σ i = i) :
    List.Perm ((List.range n).map σ) (List.range n) := by
  refine (List.perm_ext_iff_of_nodup ((List.nodup_range n).map σ.injective)
    (List.nodup_range n)).mpr fun x => ?_
  simp only [List.mem_map, List.mem_range]
  constructor
  · rintro ⟨i, hi, rfl⟩
    exact perm_fixing_lt σ n hσ i hi
  · intro hx
    exact ⟨σ.symm x, perm_fixing_symm_lt σ n hσ x hx, Equiv.apply_symm_apply σ x⟩

theorem shuffleStep_array {α : Type} (a : Nat → α) (count : Int) (h1 : 1 ≤ count)
    (h2 : count < 2 ^ 31) (st : ShuffleState α)
    (hst : ∃ σ : Equiv.Perm Nat, (∀ i, count.toNat ≤ i → σ i = i) ∧ st.array = a ∘ σ) :
    ∃ σ : Equiv.Perm Nat, (∀ i, count.toNat ≤ i → σ i = i) ∧
      (shuffleStep count st).array = a ∘ σ := by
  obtain ⟨σ, hσ, e⟩ := hst
  obtain ⟨_, _, _, a1, a2⟩ := swapIndex_bounds count _ h1 h2 (sdf_random_lt st.rng)
  obtain ⟨_, _, _, a3, a4⟩ :=
    swapIndex_bounds count _ h1 h2 (sdf_random_lt (sdf_random st.rng).2)
  refine ⟨σ * Equiv.swap (swapIndex count (sdf_random st.rng).1).toNat
    (swapIndex count (sdf_random (sdf_random st.rng).2).1).toNat, fun i hi => ?_, ?_⟩
  · rw [Equiv.Perm.mul_apply, Equiv.swap_apply_of_ne_of_ne (by omega) (by omega)]
    exact hσ i hi
  · show Function.update (Function.update st.array _ (st.array _)) _ (st.array _) = _
    rw [update_update_eq_comp_swap, e]
    funext k
    simp [Equiv.Perm.mul_apply]

theorem shuffleLoop_array {α : Type} (a : Nat → α) (count : Int) (h1 : 1 ≤ count)
    (h2 : count < 2 ^ 31) (l : List Nat) :
    ∀ st : ShuffleState α,
      (∃ σ : Equiv.Perm Nat, (∀ i, count.toNat ≤ i → σ i = i) ∧ st.array = a ∘ σ) →
      ∃ σ : Equiv.Perm Nat, (∀ i, count.toNat ≤ i → σ i = i) ∧
        (l.foldl (fun st _ => shuffleStep count st) st).array = a ∘ σ := by
  induction l with
  | nil => intro st h; exact h
  | cons x l ih =>
    intro st h
    simp only [List.foldl_cons]
    exact ih _ (shuffleStep_array a count h1 h2 st h)

theorem sdf_randomize_array_eq {α : Type} (s : RngState) (b : sdf_block_full_t)
    (array : Nat → α) (count : Int) :
    sdf_randomize_array s b array count =
      (0, (List.range count.toNat).foldl (fun st _ => shuffleStep count st)
        { array := array, rng := sdf_random_init s, swaps := [] }) := by
  unfold sdf_randomize_array
  simp

/-- C20. For `0 ≤ count < 2^31`, `sdf_randomize_array` returns 0 and leaves a
permutation of the array: the first `count` elements are a rearrangement of the
first `count` elements of the input (the same elements with the same
multiplicities), every element at a position `≥ count` is untouched, and for
`count = 0` the array is unchanged. -/
theorem shuffle_is_permutation {α : Type} (s : RngState) (b : sdf_block_full_t)
    (array : Nat → α) (count : Int) (h0 : 0 ≤ count) (h2 : count < 2 ^ 31) :
    (sdf_randomize_array s b array count).1 = 0 ∧
    List.Perm ((List.range count.toNat).map (sdf_randomize_array s b array count).2.array)
      ((List.range count.toNat).map array) ∧
    (∀ i, count.toNat ≤ i → (sdf_randomize_array s b array count).2.array i = array i) ∧
    (count = 0 → (sdf_randomize_array s b array count).2.array = array) := by
  rw [sdf_randomize_array_eq]
  refine ⟨rfl, ?_⟩
  by_cases hc : count = 0
  · subst hc
    exact ⟨List.Perm.refl _, fun _ _ => rfl, fun _ => rfl⟩
  · obtain ⟨σ, hσ, e⟩ := shuffleLoop_array array count (by omega) h2 (List.range count.toNat)
      { array := array, rng := sdf_random_init s, swaps := [] } ⟨1, fun _ _ => rfl, rfl⟩
    simp only [] at e ⊢
    rw [e]
    refine ⟨?_, fun i hi => ?_, fun h => absurd h hc⟩
    · rw [← List.map_map]
      exact (map_perm_range σ _ hσ).map array
    · simp [hσ i hi]

/-- C20, on the array `0, 1, 2, ...` with `count = 3`. -/
theorem shuffle_is_permutation_witness :
    (sdf_randomize_array zeroRng real8Block (fun i => i) 3).1 = 0 ∧
    List.Perm
      ((List.range (3 : Int).toNat).map
        (sdf_randomize_array zeroRng real8Block (fun i => i) 3).2.array)
      ((List.range (3 : Int).toNat).map (fun i => i)) ∧
    (∀ i, (3 : Int).toNat ≤ i →
      (sdf_randomize_array zeroRng real8Block (fun i => i) 3).2.array i = i) ∧
    ((3 : Int) = 0 → (sdf_randomize_array zeroRng real8Block (fun i => i) 3).2.array
      = fun i => i) :=
  shuffle_is_permutation zeroRng real8Block (fun i => i) 3 (by decide) (by decide)


/-! ## The search of `factor2d` and `factor3d` keeps the first least deviation -/

theorem foldl_min_min {α : Type} [LinearOrder α] (l : List α) :
    ∀ a b : α, l.foldl min (min a b) = min a (l.foldl min b) := by
  induction l with
  | nil => intro a b; rfl
  | cons x l ih =>
    intro a b
    simp only [List.foldl_cons]
    rw [min_assoc, ih]

theorem foldl_min_le {α : Type} [LinearOrder α] (l : List α) (m : α) :
    l.foldl min m ≤ m := by
  have h := foldl_min_min l m m
  rw [min_self] at h
  rw [h]
  exact min_le_left _ _

theorem val_leastOf {α : Type} [LinearOrder α] (fm : FloatOps) (val : fm.F → α)
    (hval : ∀ a b, fm.lt a b = true ↔ val a < val b) (ds : List fm.F) :
    ∀ m : fm.F, val (leastOf fm m ds) = (ds.map val).foldl min (val m) := by
  induction ds with
  | nil => intro m; rfl
  | cons d ds ih =>
    intro m
    show val (leastOf fm (if fm.lt d m then d else m) ds) = _
    rw [ih]
    simp only [List.map_cons, List.foldl_cons]
    by_cases h : fm.lt d m = true
    · rw [if_pos h, min_eq_right (le_of_lt ((hval d m).mp h))]
    · rw [if_neg h, min_eq_left (not_lt.mp fun hc => h ((hval d m).mpr hc))]

/-- The value of the least float deviation of a list of candidates that is not
empty. -/
theorem val_bestCandidate {α : Type} [LinearOrder α] (fm : FloatOps) (val : fm.F → α)
    (hval : ∀ a b, fm.lt a b = true ↔ val a < val b) (gridav : fm.F) (g : Int)
    (gs : List Int) :
    val (bestCandidate fm gridav (g :: gs))
      = (gs.map (fun g => val (deviationOf fm gridav g))).foldl min
          (val (deviationOf fm gridav g)) := by
  show val (leastOf fm _ _) = _
  rw [val_leastOf fm val hval, List.map_map]
  rfl

/-- The corner loops, for a float comparison that is the order of the values
`val`: `mindeviation` becomes the least of its value and the deviations of the
candidates; when it has decreased the combination has been stored, otherwise
nothing has changed. -/
theorem cornerLoop_least {α : Type} [LinearOrder α] (fm : FloatOps) (val : fm.F → α)
    (hval : ∀ a b, fm.lt a b = true ↔ val a < val b) (gridav : fm.F) (k : Nat)
    (tmp : Nat → Int) (gs : List Int) :
    ∀ st : FactorState fm,
      val (gs.foldl (tryCorner fm gridav k tmp) st).mindeviation
        = (gs.map (fun g => val (deviationOf fm gridav g))).foldl min (val st.mindeviation) ∧
      (val (gs.foldl (tryCorner fm gridav k tmp) st).mindeviation < val st.mindeviation →
        (gs.foldl (tryCorner fm gridav k tmp) st).assigned = true ∧
        (gs.foldl (tryCorner fm gridav k tmp) st).cpu_split
          = fun n => if n < k then tmp n else st.cpu_split n) ∧
      (¬ val (gs.foldl (tryCorner fm gridav k tmp) st).mindeviation < val st.mindeviation →
        gs.foldl (tryCorner fm gridav k tmp) st = st) := by
  induction gs with
  | nil =>
    intro st
    exact ⟨rfl, fun h => absurd h (lt_irrefl _), fun _ => rfl⟩
  | cons g gs ih =>
    intro st
    simp only [List.foldl_cons, List.map_cons]
    have hlt := hval (deviationOf fm gridav g) st.mindeviation
    by_cases hc : fm.lt (deviationOf fm gridav g) st.mindeviation = true
    · have e : tryCorner fm gridav k tmp st g
          = { mindeviation := deviationOf fm gridav g
              cpu_split := fun n => if n < k then tmp n else st.cpu_split n
              assigned := true } := by
        unfold tryCorner deviationOf at *
        simp only [hc, if_true]
      have hlt' := hlt.mp hc
      rw [e]
      obtain ⟨i2, i3, i4⟩ := ih
        { mindeviation := deviationOf fm gridav g
          cpu_split := fun n => if n < k then tmp n else st.cpu_split n
          assigned := true }
      simp only [] at i2 i3 i4
      rw [min_eq_right (le_of_lt hlt')]
      have hle := foldl_min_le (gs.map (fun g => val (deviationOf fm gridav g)))
        (val (deviationOf fm gridav g))
      refine ⟨i2, ?_, ?_⟩
      · intro _
        by_cases h' : (gs.map (fun g => val (deviationOf fm gridav g))).foldl min
            (val (deviationOf fm gridav g)) < val (deviationOf fm gridav g)
        · obtain ⟨j1, j2⟩ := i3 (by rw [i2]; exact h')
          refine ⟨j1, ?_⟩
          rw [j2]
          funext n
          by_cases hn : n < k <;> simp [hn]
        · have := i4 (by rw [i2]; exact h')
          rw [this]
          exact ⟨rfl, rfl⟩
      · intro h'
        exfalso
        apply h'
        rw [i2]
        exact lt_of_le_of_lt hle hlt'
    · have e : tryCorner fm gridav k tmp st g = st := by
        unfold tryCorner deviationOf at *
        simp only [hc]
        rfl
      rw [e]
      have hge : val st.mindeviation ≤ val (deviationOf fm gridav g) :=
        not_lt.mp (fun h' => hc (hlt.mpr h'))
      rw [min_eq_left hge]
      exact ih st

/-- Trying one more combination: the body of the split loop on a combination whose
product is `maxcpus`. -/
theorem tryCombination_least {α : Type} [LinearOrder α] (fm : FloatOps) (val : fm.F → α)
    (hval : ∀ a b, fm.lt a b = true ↔ val a < val b) (gridav : fm.F) (k : Nat)
    (tmp : Nat → Int) (g : Int) (gs : List Int) (st : FactorState fm) :
    (val (bestCandidate fm gridav (g :: gs)) < val st.mindeviation →
      ((g :: gs).foldl (tryCorner fm gridav k tmp) st).assigned = true ∧
      ((g :: gs).foldl (tryCorner fm gridav k tmp) st).cpu_split
        = (fun n => if n < k then tmp n else st.cpu_split n) ∧
      val ((g :: gs).foldl (tryCorner fm gridav k tmp) st).mindeviation
        = val (bestCandidate fm gridav (g :: gs))) ∧
    (¬ val (bestCandidate fm gridav (g :: gs)) < val st.mindeviation →
      (g :: gs).foldl (tryCorner fm gridav k tmp) st = st) := by
  obtain ⟨i2, i3, i4⟩ := cornerLoop_least fm val hval gridav k tmp (g :: gs) st
  have hm : ((g :: gs).map (fun g => val (deviationOf fm gridav g))).foldl min
      (val st.mindeviation)
      = min (val st.mindeviation) (val (bestCandidate fm gridav (g :: gs))) := by
    rw [val_bestCandidate fm val hval]
    simp only [List.map_cons, List.foldl_cons]
    exact foldl_min_min _ _ _
  rw [hm] at i2
  refine ⟨fun h => ?_, fun h => ?_⟩
  · have e : val ((g :: gs).foldl (tryCorner fm gridav k tmp) st).mindeviation
        = val (bestCandidate fm gridav (g :: gs)) := by
      rw [i2, min_eq_right (le_of_lt h)]
    obtain ⟨j1, j2⟩ := i3 (by rw [e]; exact h)
    exact ⟨j1, j2, e⟩
  · apply i4
    rw [i2, min_eq_left (not_lt.mp h)]
    exact lt_irrefl _

theorem SearchInv_congr {ι α : Type} [LinearOrder α] (fm : FloatOps) (val : fm.F → α)
    (m0 : α) (cs : Nat → Int) (k : Nat) (key : ι → α)
    (tmpOf : ι → Nat → Int) (Before : ι → ι → Prop) (Done Done' : ι → Prop)
    (st : FactorState fm) (hD : ∀ t, Done' t ↔ Done t)
    (h : SearchInv fm val m0 cs k key tmpOf Before Done st) :
    SearchInv fm val m0 cs k key tmpOf Before Done' st := by
  have e : Done' = Done := funext fun t => propext (hD t)
  rw [e]
  exact h

theorem SearchInv_step {ι α : Type} [LinearOrder α] (fm : FloatOps) (val : fm.F → α)
    (m0 : α) (cs : Nat → Int) (k : Nat) (key : ι → α)
    (tmpOf : ι → Nat → Int) (Before : ι → ι → Prop) (Done Done' : ι → Prop) (x : ι)
    (st st' : FactorState fm)
    (hD : ∀ t, Done' t ↔ (Done t ∨ t = x)) (hB : ∀ t, Done t → ¬ Before x t)
    (hxx : ¬ Before x x)
    (h : SearchInv fm val m0 cs k key tmpOf Before Done st)
    (h1 : key x < val st.mindeviation →
      st'.assigned = true ∧
      st'.cpu_split = (fun n => if n < k then tmpOf x n else st.cpu_split n) ∧
      val st'.mindeviation = key x)
    (h2 : ¬ key x < val st.mindeviation → st' = st) :
    SearchInv fm val m0 cs k key tmpOf Before Done' st' := by
  by_cases hc : key x < val st.mindeviation
  · obtain ⟨a1, a2, a3⟩ := h1 hc
    right
    refine ⟨a1, x, (hD x).mpr (Or.inr rfl), ?_, a3, ?_, ?_⟩
    · rw [a2]
      rcases h with ⟨_, _, e, _⟩ | ⟨_, w, _, e, _⟩
      · rw [e]
      · rw [e]
        funext n
        by_cases hn : n < k <;> simp [hn]
    · rcases h with ⟨_, e, _, _⟩ | ⟨_, w, _, _, e, hw, _⟩
      · rw [← e]; exact hc
      · rw [e] at hc; exact lt_trans hc hw
    · intro t ht
      rcases (hD t).mp ht with ht | ht
      · have hlt : key x < key t := by
          rcases h with ⟨_, e, _, hall⟩ | ⟨_, w, _, _, e, _, hall⟩
          · rw [e] at hc; exact lt_of_lt_of_le hc (hall t ht)
          · rw [e] at hc; exact lt_of_lt_of_le hc (hall t ht).1
        exact ⟨le_of_lt hlt, fun _ => hlt⟩
      · subst ht
        exact ⟨le_refl _, fun hb => absurd hb hxx⟩
  · have e := h2 hc
    rw [e]
    have hge : val st.mindeviation ≤ key x := not_lt.mp hc
    rcases h with ⟨a1, a2, a3, a4⟩ | ⟨a1, w, a2, a3, a4, a5, a6⟩
    · left
      refine ⟨a1, a2, a3, fun t ht => ?_⟩
      rcases (hD t).mp ht with ht | ht
      · exact a4 t ht
      · subst ht; rw [← a2]; exact hge
    · right
      refine ⟨a1, w, (hD w).mpr (Or.inl a2), a3, a4, a5, fun t ht => ?_⟩
      rcases (hD t).mp ht with ht | ht
      · exact a6 t ht
      · subst ht
        rw [a4] at hge
        exact ⟨hge, fun hb => absurd hb (hB w a2)⟩

theorem foldl_range_invariant {β : Type} (P : Nat → β → Prop) (f : β → Nat → β) (n : Nat)
    (h : ∀ i b, i < n → P i b → P (i + 1) (f b i)) (b0 : β) (h0 : P 0 b0) :
    P n ((List.range n).foldl f b0) := by
  induction n with
  | zero => exact h0
  | succ n ih =>
    rw [List.range_succ, List.foldl_append]
    simp only [List.foldl_cons, List.foldl_nil]
    exact h n _ (Nat.lt_succ_self n)
      (ih (fun i b hi hb => h i b (Nat.lt_succ_of_lt hi) hb))

theorem factor2dBody_match (fm : FloatOps) (dims : Nat → Nat) (gridav : fm.F)
    (maxcpus t0 t1 : Int) (st : FactorState fm) (hc : 1 * t0 * t1 = maxcpus) :
    factor2dBody fm dims gridav maxcpus t0 t1 st
      = (corners2 dims t0 t1).foldl (tryCorner fm gridav 2 (tmp2 t0 t1)) st := by
  unfold factor2dBody corners2
  simp only [hc, ne_eq, not_true_eq_false, if_false]

theorem factor2dBody_skip (fm : FloatOps) (dims : Nat → Nat) (gridav : fm.F)
    (maxcpus t0 t1 : Int) (st : FactorState fm) (hc : 1 * t0 * t1 ≠ maxcpus) :
    factor2dBody fm dims gridav maxcpus t0 t1 st = st := by
  unfold factor2dBody
  simp only [ne_eq, hc, not_false_eq_true, if_true]

/-- The split loops of `factor2d`, started in a state in which nothing has been
tried, for a float comparison that is the order of the values `val`. -/
theorem search2_least {α : Type} [LinearOrder α] (fm : FloatOps) (val : fm.F → α)
    (hval : ∀ a b, fm.lt a b = true ↔ val a < val b) (dims : Nat → Nat) (gridav : fm.F)
    (maxcpus D0 D1 : Int) (m0 : α) (cs : Nat → Int) (st0 : FactorState fm)
    (h0 : SearchInv fm val m0 cs 2
      (fun t : Int × Int => val (bestCandidate fm gridav (corners2 dims t.1 t.2)))
      (fun t => tmp2 t.1 t.2) precedes2 (fun _ => False) st0) :
    SearchInv fm val m0 cs 2
      (fun t : Int × Int => val (bestCandidate fm gridav (corners2 dims t.1 t.2)))
      (fun t => tmp2 t.1 t.2) precedes2
      (fun t => (1 ≤ t.1 ∧ t.1 ≤ D0) ∧ (1 ≤ t.2 ∧ t.2 ≤ D1) ∧ 1 * t.1 * t.2 = maxcpus)
      ((List.range D1.toNat).foldl
        (fun st (j : Nat) =>
          (List.range D0.toNat).foldl
            (fun st (i : Nat) =>
              factor2dBody fm dims gridav maxcpus (D0 - (i : Int)) (D1 - (j : Int)) st)
            st)
        st0) := by
  have hfin := foldl_range_invariant
    (fun (j : Nat) st => SearchInv fm val m0 cs 2
      (fun t : Int × Int => val (bestCandidate fm gridav (corners2 dims t.1 t.2)))
      (fun t => tmp2 t.1 t.2) precedes2
      (fun t => ((1 ≤ t.1 ∧ t.1 ≤ D0) ∧ (1 ≤ t.2 ∧ t.2 ≤ D1) ∧ 1 * t.1 * t.2 = maxcpus) ∧
        D1 - t.2 < (j : Int)) st)
    (fun st (j : Nat) =>
      (List.range D0.toNat).foldl
        (fun st (i : Nat) =>
          factor2dBody fm dims gridav maxcpus (D0 - (i : Int)) (D1 - (j : Int)) st) st)
    D1.toNat ?_ st0 ?_
  · refine SearchInv_congr _ _ _ _ _ _ _ _ _ _ _ (fun t => ?_) hfin
    constructor
    · rintro ⟨⟨a1, a2⟩, ⟨b1, b2⟩, c⟩
      exact ⟨⟨⟨a1, a2⟩, ⟨b1, b2⟩, c⟩, by omega⟩
    · rintro ⟨h, _⟩
      exact h
  · intro j st hj hst
    have hin := foldl_range_invariant
      (fun (i : Nat) st => SearchInv fm val m0 cs 2
        (fun t : Int × Int => val (bestCandidate fm gridav (corners2 dims t.1 t.2)))
        (fun t => tmp2 t.1 t.2) precedes2
        (fun t => ((1 ≤ t.1 ∧ t.1 ≤ D0) ∧ (1 ≤ t.2 ∧ t.2 ≤ D1) ∧ 1 * t.1 * t.2 = maxcpus) ∧
          (D1 - t.2 < (j : Int) ∨ (D1 - t.2 = (j : Int) ∧ D0 - t.1 < (i : Int)))) st)
      (fun st (i : Nat) =>
        factor2dBody fm dims gridav maxcpus (D0 - (i : Int)) (D1 - (j : Int)) st)
      D0.toNat ?_ st ?_
    · refine SearchInv_congr _ _ _ _ _ _ _ _ _ _ _ (fun t => ?_) hin
      constructor
      · rintro ⟨⟨⟨a1, a2⟩, ⟨b1, b2⟩, c⟩, h⟩
        exact ⟨⟨⟨a1, a2⟩, ⟨b1, b2⟩, c⟩, by omega⟩
      · rintro ⟨⟨⟨a1, a2⟩, ⟨b1, b2⟩, c⟩, h⟩
        exact ⟨⟨⟨a1, a2⟩, ⟨b1, b2⟩, c⟩, by omega⟩
    · intro i st hi hst
      simp only [] at hst ⊢
      by_cases hc : 1 * (D0 - (i : Int)) * (D1 - (j : Int)) = maxcpus
      · rw [factor2dBody_match _ _ _ _ _ _ _ hc]
        obtain ⟨r2, r3⟩ := tryCombination_least fm val hval gridav 2
          (tmp2 (D0 - (i : Int)) (D1 - (j : Int))) _ _ st
        refine SearchInv_step _ _ _ _ _ _ _ _ _ _ (D0 - (i : Int), D1 - (j : Int)) st _
          (fun t => ?_) (fun t ht => ?_) ?_ hst r2 r3
        · constructor
          · rintro ⟨⟨⟨a1, a2⟩, ⟨b1, b2⟩, c⟩, h⟩
            by_cases ht : t = (D0 - (i : Int), D1 - (j : Int))
            · exact Or.inr ht
            · left
              refine ⟨⟨⟨a1, a2⟩, ⟨b1, b2⟩, c⟩, ?_⟩
              have hne : ¬ (t.1 = D0 - (i : Int) ∧ t.2 = D1 - (j : Int)) := by
                rintro ⟨e1, e2⟩
                exact ht (Prod.ext e1 e2)
              omega
          · rintro (⟨⟨⟨a1, a2⟩, ⟨b1, b2⟩, c⟩, h⟩ | rfl)
            · exact ⟨⟨⟨a1, a2⟩, ⟨b1, b2⟩, c⟩, by omega⟩
            · simp only []
              refine ⟨⟨?_, ?_, hc⟩, by omega⟩
              · omega
              · omega
        · obtain ⟨_, h⟩ := ht
          unfold precedes2
          simp only []
          omega
        · unfold precedes2
          simp only []
          omega
      · rw [factor2dBody_skip _ _ _ _ _ _ _ hc]
        refine SearchInv_congr _ _ _ _ _ _ _ _ _ _ _ (fun t => ?_) hst
        constructor
        · rintro ⟨⟨⟨a1, a2⟩, ⟨b1, b2⟩, c⟩, h⟩
          refine ⟨⟨⟨a1, a2⟩, ⟨b1, b2⟩, c⟩, ?_⟩
          have hne : ¬ (t.1 = D0 - (i : Int) ∧ t.2 = D1 - (j : Int)) := by
            rintro ⟨e1, e2⟩
            rw [e1, e2] at c
            exact hc c
          omega
        · rintro ⟨⟨⟨a1, a2⟩, ⟨b1, b2⟩, c⟩, h⟩
          exact ⟨⟨⟨a1, a2⟩, ⟨b1, b2⟩, c⟩, by omega⟩
    · refine SearchInv_congr _ _ _ _ _ _ _ _ _ _ _ (fun t => ?_) hst
      constructor
      · rintro ⟨h, h'⟩
        exact ⟨h, by omega⟩
      · rintro ⟨h, h'⟩
        exact ⟨h, by omega⟩
  · refine SearchInv_congr _ _ _ _ _ _ _ _ _ _ _ (fun t => ?_) h0
    constructor
    · rintro ⟨_, h⟩
      omega
    · intro h; exact absurd h id

theorem factor3dBody_match (fm : FloatOps) (dims : Nat → Nat) (gridav : fm.F)
    (maxcpus t0 t1 t2 : Int) (st : FactorState fm) (hc : 1 * t0 * t1 * t2 = maxcpus) :
    factor3dBody fm dims gridav maxcpus t0 t1 t2 st
      = (corners3 dims t0 t1 t2).foldl (tryCorner fm gridav 3 (tmp3 t0 t1 t2)) st := by
  unfold factor3dBody corners3
  simp only [hc, ne_eq, not_true_eq_false, if_false]

theorem factor3dBody_skip (fm : FloatOps) (dims : Nat → Nat) (gridav : fm.F)
    (maxcpus t0 t1 t2 : Int) (st : FactorState fm) (hc : 1 * t0 * t1 * t2 ≠ maxcpus) :
    factor3dBody fm dims gridav maxcpus t0 t1 t2 st = st := by
  unfold factor3dBody
  simp only [ne_eq, hc, not_false_eq_true, if_true]

/-- The split loops of `factor3d`, started in a state in which nothing has been
tried, for a float comparison that is the order of the values `val`. -/
theorem search3_least {α : Type} [LinearOrder α] (fm : FloatOps) (val : fm.F → α)
    (hval : ∀ a b, fm.lt a b = true ↔ val a < val b) (dims : Nat → Nat) (gridav : fm.F)
    (maxcpus D0 D1 D2 : Int) (m0 : α) (cs : Nat → Int) (st0 : FactorState fm)
    (h0 : SearchInv fm val m0 cs 3
      (fun t : Int × Int × Int =>
        val (bestCandidate fm gridav (corners3 dims t.1 t.2.1 t.2.2)))
      (fun t => tmp3 t.1 t.2.1 t.2.2) precedes3 (fun _ => False) st0) :
    SearchInv fm val m0 cs 3
      (fun t : Int × Int × Int =>
        val (bestCandidate fm gridav (corners3 dims t.1 t.2.1 t.2.2)))
      (fun t => tmp3 t.1 t.2.1 t.2.2) precedes3
      (fun t => (1 ≤ t.1 ∧ t.1 ≤ D0) ∧ (1 ≤ t.2.1 ∧ t.2.1 ≤ D1) ∧ (1 ≤ t.2.2 ∧ t.2.2 ≤ D2) ∧
        1 * t.1 * t.2.1 * t.2.2 = maxcpus)
      ((List.range D2.toNat).foldl
        (fun st (k : Nat) =>
          (List.range D1.toNat).foldl
            (fun st (j : Nat) =>
              (List.range D0.toNat).foldl
                (fun st (i : Nat) =>
                  factor3dBody fm dims gridav maxcpus (D0 - (i : Int)) (D1 - (j : Int))
                    (D2 - (k : Int)) st) st)
            st)
        st0) := by
  have hfin := foldl_range_invariant
    (fun (k : Nat) st => SearchInv fm val m0 cs 3
      (fun t : Int × Int × Int =>
        val (bestCandidate fm gridav (corners3 dims t.1 t.2.1 t.2.2)))
      (fun t => tmp3 t.1 t.2.1 t.2.2) precedes3
      (fun t => ((1 ≤ t.1 ∧ t.1 ≤ D0) ∧ (1 ≤ t.2.1 ∧ t.2.1 ≤ D1) ∧
          (1 ≤ t.2.2 ∧ t.2.2 ≤ D2) ∧ 1 * t.1 * t.2.1 * t.2.2 = maxcpus) ∧
        D2 - t.2.2 < (k : Int)) st)
    (fun st (k : Nat) =>
      (List.range D1.toNat).foldl
        (fun st (j : Nat) =>
          (List.range D0.toNat).foldl
            (fun st (i : Nat) =>
              factor3dBody fm dims gridav maxcpus (D0 - (i : Int)) (D1 - (j : Int))
                (D2 - (k : Int)) st) st)
        st)
    D2.toNat ?_ st0 ?_
  · refine SearchInv_congr _ _ _ _ _ _ _ _ _ _ _ (fun t => ?_) hfin
    constructor
    · rintro ⟨⟨a1, a2⟩, ⟨b1, b2⟩, ⟨c1, c2⟩, c⟩
      exact ⟨⟨⟨a1, a2⟩, ⟨b1, b2⟩, ⟨c1, c2⟩, c⟩, by omega⟩
    · rintro ⟨h, _⟩
      exact h
  · intro k st hk hst
    have hmid := foldl_range_invariant
      (fun (j : Nat) st => SearchInv fm val m0 cs 3
        (fun t : Int × Int × Int =>
          val (bestCandidate fm gridav (corners3 dims t.1 t.2.1 t.2.2)))
        (fun t => tmp3 t.1 t.2.1 t.2.2) precedes3
        (fun t => ((1 ≤ t.1 ∧ t.1 ≤ D0) ∧ (1 ≤ t.2.1 ∧ t.2.1 ≤ D1) ∧
            (1 ≤ t.2.2 ∧ t.2.2 ≤ D2) ∧ 1 * t.1 * t.2.1 * t.2.2 = maxcpus) ∧
          (D2 - t.2.2 < (k : Int) ∨ (D2 - t.2.2 = (k : Int) ∧ D1 - t.2.1 < (j : Int)))) st)
      (fun st (j : Nat) =>
        (List.range D0.toNat).foldl
          (fun st (i : Nat) =>
            factor3dBody fm dims gridav maxcpus (D0 - (i : Int)) (D1 - (j : Int))
              (D2 - (k : Int)) st) st)
      D1.toNat ?_ st ?_
    · refine SearchInv_congr _ _ _ _ _ _ _ _ _ _ _ (fun t => ?_) hmid
      constructor
      · rintro ⟨⟨⟨a1, a2⟩, ⟨b1, b2⟩, ⟨c1, c2⟩, c⟩, h⟩
        exact ⟨⟨⟨a1, a2⟩, ⟨b1, b2⟩, ⟨c1, c2⟩, c⟩, by omega⟩
      · rintro ⟨⟨⟨a1, a2⟩, ⟨b1, b2⟩, ⟨c1, c2⟩, c⟩, h⟩
        exact ⟨⟨⟨a1, a2⟩, ⟨b1, b2⟩, ⟨c1, c2⟩, c⟩, by omega⟩
    · intro j st hj hst
      have hin := foldl_range_invariant
        (fun (i : Nat) st => SearchInv fm val m0 cs 3
          (fun t : Int × Int × Int =>
            val (bestCandidate fm gridav (corners3 dims t.1 t.2.1 t.2.2)))
          (fun t => tmp3 t.1 t.2.1 t.2.2) precedes3
          (fun t => ((1 ≤ t.1 ∧ t.1 ≤ D0) ∧ (1 ≤ t.2.1 ∧ t.2.1 ≤ D1) ∧
              (1 ≤ t.2.2 ∧ t.2.2 ≤ D2) ∧ 1 * t.1 * t.2.1 * t.2.2 = maxcpus) ∧
            (D2 - t.2.2 < (k : Int) ∨ (D2 - t.2.2 = (k : Int) ∧
              (D1 - t.2.1 < (j : Int) ∨ (D1 - t.2.1 = (j : Int) ∧ D0 - t.1 < (i : Int))))))
            st)
        (fun st (i : Nat) =>
          factor3dBody fm dims gridav maxcpus (D0 - (i : Int)) (D1 - (j : Int))
            (D2 - (k : Int)) st)
        D0.toNat ?_ st ?_
      · refine SearchInv_congr _ _ _ _ _ _ _ _ _ _ _ (fun t => ?_) hin
        constructor
        · rintro ⟨⟨⟨a1, a2⟩, ⟨b1, b2⟩, ⟨c1, c2⟩, c⟩, h⟩
          exact ⟨⟨⟨a1, a2⟩, ⟨b1, b2⟩, ⟨c1, c2⟩, c⟩, by omega⟩
        · rintro ⟨⟨⟨a1, a2⟩, ⟨b1, b2⟩, ⟨c1, c2⟩, c⟩, h⟩
          exact ⟨⟨⟨a1, a2⟩, ⟨b1, b2⟩, ⟨c1, c2⟩, c⟩, by omega⟩
      · intro i st hi hst
        simp only [] at hst ⊢
        by_cases hc : 1 * (D0 - (i : Int)) * (D1 - (j : Int)) * (D2 - (k : Int)) = maxcpus
        · rw [factor3dBody_match _ _ _ _ _ _ _ _ hc]
          obtain ⟨r2, r3⟩ := tryCombination_least fm val hval gridav 3
            (tmp3 (D0 - (i : Int)) (D1 - (j : Int)) (D2 - (k : Int))) _ _ st
          refine SearchInv_step _ _ _ _ _ _ _ _ _ _
            (D0 - (i : Int), D1 - (j : Int), D2 - (k : Int)) st _
            (fun t => ?_) (fun t ht => ?_) ?_ hst r2 r3
          · constructor
            · rintro ⟨⟨⟨a1, a2⟩, ⟨b1, b2⟩, ⟨c1, c2⟩, c⟩, h⟩
              by_cases ht : t = (D0 - (i : Int), D1 - (j : Int), D2 - (k : Int))
              · exact Or.inr ht
              · left
                refine ⟨⟨⟨a1, a2⟩, ⟨b1, b2⟩, ⟨c1, c2⟩, c⟩, ?_⟩
                have hne : ¬ (t.1 = D0 - (i : Int) ∧ t.2.1 = D1 - (j : Int) ∧
                    t.2.2 = D2 - (k : Int)) := by
                  rintro ⟨e1, e2, e3⟩
                  exact ht (Prod.ext e1 (Prod.ext e2 e3))
                omega
            · rintro (⟨⟨⟨a1, a2⟩, ⟨b1, b2⟩, ⟨c1, c2⟩, c⟩, h⟩ | rfl)
              · exact ⟨⟨⟨a1, a2⟩, ⟨b1, b2⟩, ⟨c1, c2⟩, c⟩, by omega⟩
              · simp only []
                refine ⟨⟨?_, ?_, ?_, hc⟩, by omega⟩
                · omega
                · omega
                · omega
          · obtain ⟨_, h⟩ := ht
            unfold precedes3
            simp only []
            omega
          · unfold precedes3
            simp only []
            omega
        · rw [factor3dBody_skip _ _ _ _ _ _ _ _ hc]
          refine SearchInv_congr _ _ _ _ _ _ _ _ _ _ _ (fun t => ?_) hst
          constructor
          · rintro ⟨⟨⟨a1, a2⟩, ⟨b1, b2⟩, ⟨c1, c2⟩, c⟩, h⟩
            refine ⟨⟨⟨a1, a2⟩, ⟨b1, b2⟩, ⟨c1, c2⟩, c⟩, ?_⟩
            have hne : ¬ (t.1 = D0 - (i : Int) ∧ t.2.1 = D1 - (j : Int) ∧
                t.2.2 = D2 - (k : Int)) := by
              rintro ⟨e1, e2, e3⟩
              rw [e1, e2, e3] at c
              exact hc c
            omega
          · rintro ⟨⟨⟨a1, a2⟩, ⟨b1, b2⟩, ⟨c1, c2⟩, c⟩, h⟩
            exact ⟨⟨⟨a1, a2⟩, ⟨b1, b2⟩, ⟨c1, c2⟩, c⟩, by omega⟩
      · refine SearchInv_congr _ _ _ _ _ _ _ _ _ _ _ (fun t => ?_) hst
        constructor
        · rintro ⟨h, h'⟩
          exact ⟨h, by omega⟩
        · rintro ⟨h, h'⟩
          exact ⟨h, by omega⟩
    · refine SearchInv_congr _ _ _ _ _ _ _ _ _ _ _ (fun t => ?_) hst
      constructor
      · rintro ⟨h, h'⟩
        exact ⟨h, by omega⟩
      · rintro ⟨h, h'⟩
        exact ⟨h, by omega⟩
  · refine SearchInv_congr _ _ _ _ _ _ _ _ _ _ _ (fun t => ?_) h0
    constructor
    · rintro ⟨_, h⟩
      omega
    · intro h; exact absurd h id


/-! ## The candidates for values that fit an `int` -/

theorem MIN_eq_min (a b : Int) : MIN a b = min a b := by
  unfold MIN
  by_cases h : a < b
  · rw [if_pos h, min_eq_left (le_of_lt h)]
  · rw [if_neg h, min_eq_right (not_lt.mp h)]

/-- For a rank count in the range of a non-negative `int`, `dmin[n]` is
`min(ncpus, dims[n])`. -/
theorem dmin_fits (ncpus : Int) (d : Nat) (h0 : 0 ≤ ncpus) (h1 : ncpus < 2 ^ 31) :
    toI32 (MIN (toU64 ncpus) (d : Int)) = min ncpus (d : Int) := by
  rw [toU64_fits ncpus h0 (by omega), MIN_eq_min]
  have h2 : min ncpus (d : Int) ≤ ncpus := min_le_left _ _
  have h3 : 0 ≤ min ncpus (d : Int) := le_min h0 (by omega)
  exact toI32_fits _ (by omega) (by omega)

/-- For a split factor and a dimension that fit an `int`, the two sizes the search
computes for an axis are the floor, and the floor plus one or 0. -/
theorem gridsOf_fits (d : Nat) (t : Int) (ht : 1 ≤ t) (ht' : t < 2 ^ 31)
    (hd : (d : Int) < 2 ^ 31) : gridsOf d t = sizesOf d t := by
  obtain ⟨e1, e2⟩ := npointMin_fits d t ht ht' hd
  have e3 : (d : Int) % t < t := Int.emod_lt_of_pos _ (by omega)
  unfold gridsOf sizesOf
  simp only [e1, e2]
  rw [if_neg (by omega)]

theorem corners2_fits (dims : Nat → Nat) (t0 t1 : Int) (a0 : 1 ≤ t0) (b0 : t0 < 2 ^ 31)
    (a1 : 1 ≤ t1) (b1 : t1 < 2 ^ 31) (d0 : (dims 0 : Int) < 2 ^ 31)
    (d1 : (dims 1 : Int) < 2 ^ 31) : corners2 dims t0 t1 = candidates2 dims t0 t1 := by
  unfold corners2 candidates2
  rw [gridsOf_fits _ _ a0 b0 d0, gridsOf_fits _ _ a1 b1 d1]

theorem corners3_fits (dims : Nat → Nat) (t0 t1 t2 : Int) (a0 : 1 ≤ t0) (b0 : t0 < 2 ^ 31)
    (a1 : 1 ≤ t1) (b1 : t1 < 2 ^ 31) (a2 : 1 ≤ t2) (b2 : t2 < 2 ^ 31)
    (d0 : (dims 0 : Int) < 2 ^ 31) (d1 : (dims 1 : Int) < 2 ^ 31)
    (d2 : (dims 2 : Int) < 2 ^ 31) : corners3 dims t0 t1 t2 = candidates3 dims t0 t1 t2 := by
  unfold corners3 candidates3
  rw [gridsOf_fits _ _ a0 b0 d0, gridsOf_fits _ _ a1 b1 d1, gridsOf_fits _ _ a2 b2 d2]

theorem admissible2_bounds (ncpus : Int) (dims : Nat → Nat) (t0 t1 : Int)
    (h : admissible2 ncpus dims t0 t1) :
    (1 ≤ t0 ∧ t0 ≤ ncpus ∧ t0 ≤ (dims 0 : Int)) ∧
      (1 ≤ t1 ∧ t1 ≤ ncpus ∧ t1 ≤ (dims 1 : Int)) := by
  obtain ⟨⟨a0, b0⟩, ⟨a1, b1⟩, _⟩ := h
  exact ⟨⟨a0, le_trans b0 (min_le_left _ _), le_trans b0 (min_le_right _ _)⟩,
    ⟨a1, le_trans b1 (min_le_left _ _), le_trans b1 (min_le_right _ _)⟩⟩

theorem admissible3_bounds (ncpus : Int) (dims : Nat → Nat) (t0 t1 t2 : Int)
    (h : admissible3 ncpus dims t0 t1 t2) :
    (1 ≤ t0 ∧ t0 ≤ ncpus ∧ t0 ≤ (dims 0 : Int)) ∧
      (1 ≤ t1 ∧ t1 ≤ ncpus ∧ t1 ≤ (dims 1 : Int)) ∧
      (1 ≤ t2 ∧ t2 ≤ ncpus ∧ t2 ≤ (dims 2 : Int)) := by
  obtain ⟨⟨a0, b0⟩, ⟨a1, b1⟩, ⟨a2, b2⟩, _⟩ := h
  exact ⟨⟨a0, le_trans b0 (min_le_left _ _), le_trans b0 (min_le_right _ _)⟩,
    ⟨a1, le_trans b1 (min_le_left _ _), le_trans b1 (min_le_right _ _)⟩,
    ⟨a2, le_trans b2 (min_le_left _ _), le_trans b2 (min_le_right _ _)⟩⟩

/-- Two dimensions that are at least 1 and whose product fits an `int` fit an
`int`. -/
theorem dims2_fit (d0 d1 : Int) (h0 : 1 ≤ d0) (h1 : 1 ≤ d1) (hc : d0 * d1 < 2 ^ 31) :
    d0 < 2 ^ 31 ∧ d1 < 2 ^ 31 := by
  have e0 : d0 * 1 ≤ d0 * d1 := Int.mul_le_mul_of_nonneg_left h1 (by omega)
  have e1 : 1 * d1 ≤ d0 * d1 := Int.mul_le_mul_of_nonneg_right h0 (by omega)
  constructor <;> omega

theorem dims3_fit (d0 d1 d2 : Int) (h0 : 1 ≤ d0) (h1 : 1 ≤ d1) (h2 : 1 ≤ d2)
    (hc : d0 * d1 * d2 < 2 ^ 31) : d0 < 2 ^ 31 ∧ d1 < 2 ^ 31 ∧ d2 < 2 ^ 31 := by
  have p : 1 ≤ d0 * d1 := one_le_mul_of_one_le_of_one_le h0 h1
  obtain ⟨e01, e2⟩ := dims2_fit (d0 * d1) d2 p h2 hc
  obtain ⟨e0, e1⟩ := dims2_fit d0 d1 h0 h1 e01
  exact ⟨e0, e1, e2⟩

/-- The search of `factor2d` for a rank count in the range of a positive `int` and
a float comparison that is the order of the values `val`: what the final state is
in terms of all the combinations. -/
theorem factor2dSearch_least {α : Type} [LinearOrder α] (fm : FloatOps) (val : fm.F → α)
    (hval : ∀ a b, fm.lt a b = true ↔ val a < val b) (ncpus : Int) (dims : Nat → Nat)
    (cs : Nat → Int) (hn : 1 ≤ ncpus) (hn' : ncpus < 2 ^ 31) :
    SearchInv fm val (val (floatTotal2 fm dims)) cs 2
      (fun t : Int × Int =>
        val (bestCandidate fm (floatAverage2 fm ncpus dims) (corners2 dims t.1 t.2)))
      (fun t => tmp2 t.1 t.2) precedes2
      (fun t => admissible2 ncpus dims t.1 t.2)
      (factor2dSearch fm ncpus dims cs) := by
  have h := search2_least fm val hval dims (floatAverage2 fm ncpus dims)
    (MIN ncpus (1 * toI32 (MIN (toU64 ncpus) (dims 0)) * toI32 (MIN (toU64 ncpus) (dims 1))))
    (toI32 (MIN (toU64 ncpus) (dims 0))) (toI32 (MIN (toU64 ncpus) (dims 1)))
    (val (floatTotal2 fm dims)) cs
    { mindeviation := floatTotal2 fm dims, cpu_split := cs, assigned := false }
    (Or.inl ⟨rfl, rfl, rfl, fun t ht => absurd ht id⟩)
  refine SearchInv_congr _ _ _ _ _ _ _ _ _ _ _ (fun t => ?_) h
  unfold admissible2
  rw [dmin_fits _ _ (by omega) hn', dmin_fits _ _ (by omega) hn', MIN_eq_min, one_mul,
    one_mul]

/-- The search of `factor3d` for a rank count in the range of a positive `int` and
a float comparison that is the order of the values `val`. -/
theorem factor3dSearch_least {α : Type} [LinearOrder α] (fm : FloatOps) (val : fm.F → α)
    (hval : ∀ a b, fm.lt a b = true ↔ val a < val b) (ncpus : Int) (dims : Nat → Nat)
    (cs : Nat → Int) (hn : 1 ≤ ncpus) (hn' : ncpus < 2 ^ 31) :
    SearchInv fm val (val (floatTotal3 fm dims)) cs 3
      (fun t : Int × Int × Int =>
        val (bestCandidate fm (floatAverage3 fm ncpus dims) (corners3 dims t.1 t.2.1 t.2.2)))
      (fun t => tmp3 t.1 t.2.1 t.2.2) precedes3
      (fun t => admissible3 ncpus dims t.1 t.2.1 t.2.2)
      (factor3dSearch fm ncpus dims cs) := by
  have h := search3_least fm val hval dims (floatAverage3 fm ncpus dims)
    (MIN ncpus (1 * toI32 (MIN (toU64 ncpus) (dims 0)) * toI32 (MIN (toU64 ncpus) (dims 1))
      * toI32 (MIN (toU64 ncpus) (dims 2))))
    (toI32 (MIN (toU64 ncpus) (dims 0))) (toI32 (MIN (toU64 ncpus) (dims 1)))
    (toI32 (MIN (toU64 ncpus) (dims 2)))
    (val (floatTotal3 fm dims)) cs
    { mindeviation := floatTotal3 fm dims, cpu_split := cs, assigned := false }
    (Or.inl ⟨rfl, rfl, rfl, fun t ht => absurd ht id⟩)
  refine SearchInv_congr _ _ _ _ _ _ _ _ _ _ _ (fun t => ?_) h
  unfold admissible3
  rw [dmin_fits _ _ (by omega) hn', dmin_fits _ _ (by omega) hn',
    dmin_fits _ _ (by omega) hn', MIN_eq_min, one_mul, one_mul]

/-! ## Single precision -/

/-- The comparison of `f32Ops` is the order of the rational values. -/
theorem f32Ops_lt (a b : Dyadic) :
    f32Ops.lt a b = true ↔ Dyadic.toRat a < Dyadic.toRat b := by
  have ha : (0 : ℚ) < (2 : ℚ) ^ a.exp := by positivity
  have hb : (0 : ℚ) < (2 : ℚ) ^ b.exp := by positivity
  simp only [f32Ops, Dyadic.toRat, decide_eq_true_eq]
  rw [div_lt_div_iff₀ ha hb]
  constructor
  · intro h
    have : ((a.num * (2 : Int) ^ b.exp : Int) : ℚ) < ((b.num * (2 : Int) ^ a.exp : Int) : ℚ) := by
      exact_mod_cast h
    push_cast at this
    exact this
  · intro h
    have : ((a.num * (2 : Int) ^ b.exp : Int) : ℚ) < ((b.num * (2 : Int) ^ a.exp : Int) : ℚ) := by
      push_cast
      exact h
    exact_mod_cast this

set_option maxRecDepth 100000 in
/-- On the 10 x 10 grid with 2 ranks the search of `factor2d`, in single precision,
ends with the split `[1, 2]`, whatever `cpu_split` held. -/
theorem factor2dSearch_10x10_on_2 (cs : Nat → Int) :
    (factor2dSearch f32Ops 2 (arr3 10 10 0) cs).cpu_split 0 = 1 ∧
    (factor2dSearch f32Ops 2 (arr3 10 10 0) cs).cpu_split 1 = 2 := by
  obtain ⟨_, _, h3⟩ := factor2dSearch_same f32Ops 2 (arr3 10 10 0) (arr3 0 0 0) cs
  have ha : (factor2dSearch f32Ops 2 (arr3 10 10 0) (arr3 0 0 0)).assigned = true := by
    decide
  have h0 : (factor2dSearch f32Ops 2 (arr3 10 10 0) (arr3 0 0 0)).cpu_split 0 = 1 := by
    decide
  have h1 : (factor2dSearch f32Ops 2 (arr3 10 10 0) (arr3 0 0 0)).cpu_split 1 = 2 := by
    decide
  have e0 := h3 ha 0 (by omega)
  have e1 := h3 ha 1 (by omega)
  rw [h0] at e0
  rw [h1] at e1
  exact ⟨e0.symm, e1.symm⟩

set_option maxRecDepth 100000 in
/-- C17, as stated, fails. In single precision, with 2 ranks on a grid of
2 x 16777217 cells, `factor2d` assigns `[1, 2]`: the total 33554434 is rounded to
2^25, the average is 2^24, and the candidate 2 * 8388608 of `[1, 2]`, met first,
has the float deviation 0. The combination `[2, 1]` is as admissible, and the
deviation `|cells - total/ncpus|` of its best corner is 0, smaller than the one
of `[1, 2]`, which is 1. -/
theorem exact_optimum_not_kept :
    (factor2dSearch f32Ops 2 (arr3 2 16777217 0) (arr3 0 0 0)).assigned = true ∧
    ((factor2d f32Ops 2 (arr3 2 16777217 0) (arr3 0 0 0)).2 0 = 1 ∧
      (factor2d f32Ops 2 (arr3 2 16777217 0) (arr3 0 0 0)).2 1 = 2) ∧
    admissible2 2 (arr3 2 16777217 0) 1 2 ∧ admissible2 2 (arr3 2 16777217 0) 2 1 ∧
    bestCorner2 2 (arr3 2 16777217 0) 2 1 = 0 ∧ bestCorner2 2 (arr3 2 16777217 0) 1 2 = 1 ∧
    bestCorner2 2 (arr3 2 16777217 0) 2 1 < bestCorner2 2 (arr3 2 16777217 0) 1 2 := by
  refine ⟨by decide, ⟨by decide, by decide⟩, ?_, ?_, ?_, ?_, ?_⟩
  · unfold admissible2; decide
  · unfold admissible2; decide
  · norm_num [bestCorner2, cornerDeviation, floorSize, ceilSize, arr3]
  · norm_num [bestCorner2, cornerDeviation, floorSize, ceilSize, arr3]
  · norm_num [bestCorner2, cornerDeviation, floorSize, ceilSize, arr3]

/-- C17, as amended. For a rank count `1 ≤ ncpus` (an `int`), a grid with every
axis at least 1 and fewer than 2^31 cells (so that every `int` of the search holds
its value), and a float comparison that is the order of the values of the floats:
whenever `factor2d` (resp. `factor3d`) assigns a result, the result is one of the
combinations with `1 ≤ split[n] ≤ min(ncpus, dims[n])` whose product is
`min(ncpus, product of min(ncpus, dims[n]))`; no such combination has a candidate
cell count (a product of the sizes `floor(dims[n]/split[n])` or that plus one, 0
in place of the latter on an axis that divides evenly) whose deviation from the
average, as the float arithmetic computes it, is below the least of the result;
and every such combination that comes earlier in the enumeration (highest axis
outermost, factors descending) has a larger least deviation, so among equals the
first is kept. In single precision, `dims = [10, 10]` and `ncpus = 2` give
`[1, 2]`. -/
theorem search_keeps_first_least {α : Type} [LinearOrder α] (fm : FloatOps)
    (val : fm.F → α) (ncpus : Int) (dims : Nat → Nat) (cs : Nat → Int)
    (hval : ∀ a b, fm.lt a b = true ↔ val a < val b)
    (hn : 1 ≤ ncpus) (hn' : ncpus < 2 ^ 31)
    (h0 : 1 ≤ dims 0) (h1 : 1 ≤ dims 1) :
    ((dims 0 : Int) * (dims 1 : Int) < 2 ^ 31 →
      (factor2dSearch fm ncpus dims cs).assigned = true →
      admissible2 ncpus dims ((factor2d fm ncpus dims cs).2 0)
        ((factor2d fm ncpus dims cs).2 1) ∧
      ∀ t0 t1, admissible2 ncpus dims t0 t1 →
        fm.lt (bestCandidate2 fm ncpus dims t0 t1)
          (bestCandidate2 fm ncpus dims ((factor2d fm ncpus dims cs).2 0)
            ((factor2d fm ncpus dims cs).2 1)) = false ∧
        (precedes2 (t0, t1)
            ((factor2d fm ncpus dims cs).2 0, (factor2d fm ncpus dims cs).2 1) →
          fm.lt (bestCandidate2 fm ncpus dims ((factor2d fm ncpus dims cs).2 0)
              ((factor2d fm ncpus dims cs).2 1))
            (bestCandidate2 fm ncpus dims t0 t1) = true)) ∧
    (1 ≤ dims 2 → (dims 0 : Int) * (dims 1 : Int) * (dims 2 : Int) < 2 ^ 31 →
      (factor3dSearch fm ncpus dims cs).assigned = true →
      admissible3 ncpus dims ((factor3d fm ncpus dims cs).2 0)
        ((factor3d fm ncpus dims cs).2 1) ((factor3d fm ncpus dims cs).2 2) ∧
      ∀ t0 t1 t2, admissible3 ncpus dims t0 t1 t2 →
        fm.lt (bestCandidate3 fm ncpus dims t0 t1 t2)
          (bestCandidate3 fm ncpus dims ((factor3d fm ncpus dims cs).2 0)
            ((factor3d fm ncpus dims cs).2 1) ((factor3d fm ncpus dims cs).2 2)) = false ∧
        (precedes3 (t0, t1, t2)
            ((factor3d fm ncpus dims cs).2 0, (factor3d fm ncpus dims cs).2 1,
              (factor3d fm ncpus dims cs).2 2) →
          fm.lt (bestCandidate3 fm ncpus dims ((factor3d fm ncpus dims cs).2 0)
              ((factor3d fm ncpus dims cs).2 1) ((factor3d fm ncpus dims cs).2 2))
            (bestCandidate3 fm ncpus dims t0 t1 t2) = true)) ∧
    ((factor2d f32Ops 2 (arr3 10 10 0) cs).2 0 = 1 ∧
      (factor2d f32Ops 2 (arr3 10 10 0) cs).2 1 = 2) := by
  have h0' : (1 : Int) ≤ (dims 0 : Int) := by omega
  have h1' : (1 : Int) ≤ (dims 1 : Int) := by omega
  refine ⟨fun hcells ha => ?_, fun h2 hcells ha => ?_, ?_⟩
  · obtain ⟨d0, d1⟩ := dims2_fit _ _ h0' h1' hcells
    rcases factor2dSearch_least fm val hval ncpus dims cs hn hn' with
      ⟨hf, _⟩ | ⟨_, w, hw, hcs, _, _, hall⟩
    · rw [hf] at ha; cases ha
    · have e0 : (factor2d fm ncpus dims cs).2 0 = w.1 := by
        rw [factor2d_snd, hcs]; rfl
      have e1 : (factor2d fm ncpus dims cs).2 1 = w.2 := by
        rw [factor2d_snd, hcs]; rfl
      rw [e0, e1]
      refine ⟨hw, fun t0 t1 ht => ?_⟩
      obtain ⟨hle, hlt⟩ := hall (t0, t1) ht
      obtain ⟨⟨p0, q0, _⟩, ⟨p1, q1, _⟩⟩ := admissible2_bounds _ _ _ _ ht
      obtain ⟨⟨r0, s0, _⟩, ⟨r1, s1, _⟩⟩ := admissible2_bounds _ _ _ _ hw
      simp only [] at hle hlt
      rw [corners2_fits dims t0 t1 p0 (by omega) p1 (by omega) d0 d1,
        corners2_fits dims w.1 w.2 r0 (by omega) r1 (by omega) d0 d1] at hle hlt
      constructor
      · cases hb : fm.lt (bestCandidate2 fm ncpus dims t0 t1)
            (bestCandidate2 fm ncpus dims w.1 w.2) with
        | false => rfl
        | true => exact absurd ((hval _ _).mp hb) (not_lt.mpr hle)
      · intro hp
        exact (hval _ _).mpr (hlt hp)
  · have h2' : (1 : Int) ≤ (dims 2 : Int) := by omega
    obtain ⟨d0, d1, d2⟩ := dims3_fit _ _ _ h0' h1' h2' hcells
    rcases factor3dSearch_least fm val hval ncpus dims cs hn hn' with
      ⟨hf, _⟩ | ⟨_, w, hw, hcs, _, _, hall⟩
    · rw [hf] at ha; cases ha
    · have e0 : (factor3d fm ncpus dims cs).2 0 = w.1 := by
        rw [factor3d_snd, hcs]; rfl
      have e1 : (factor3d fm ncpus dims cs).2 1 = w.2.1 := by
        rw [factor3d_snd, hcs]; rfl
      have e2 : (factor3d fm ncpus dims cs).2 2 = w.2.2 := by
        rw [factor3d_snd, hcs]; rfl
      rw [e0, e1, e2]
      refine ⟨hw, fun t0 t1 t2 ht => ?_⟩
      obtain ⟨hle, hlt⟩ := hall (t0, t1, t2) ht
      obtain ⟨⟨p0, q0, _⟩, ⟨p1, q1, _⟩, ⟨p2, q2, _⟩⟩ := admissible3_bounds _ _ _ _ _ ht
      obtain ⟨⟨r0, s0, _⟩, ⟨r1, s1, _⟩, ⟨r2, s2, _⟩⟩ := admissible3_bounds _ _ _ _ _ hw
      simp only [] at hle hlt
      rw [corners3_fits dims t0 t1 t2 p0 (by omega) p1 (by omega) p2 (by omega) d0 d1 d2,
        corners3_fits dims w.1 w.2.1 w.2.2 r0 (by omega) r1 (by omega) r2 (by omega)
          d0 d1 d2] at hle hlt
      constructor
      · cases hb : fm.lt (bestCandidate3 fm ncpus dims t0 t1 t2)
            (bestCandidate3 fm ncpus dims w.1 w.2.1 w.2.2) with
        | false => rfl
        | true => exact absurd ((hval _ _).mp hb) (not_lt.mpr hle)
      · intro hp
        exact (hval _ _).mpr (hlt hp)
  · rw [factor2d_snd]
    exact factor2dSearch_10x10_on_2 cs

/-- C17 as amended, in single precision, for 2 ranks on the 10 x 10 (x 1) grid. -/
theorem search_keeps_first_least_witness :
    (((arr3 10 10 1 : Nat → Nat) 0 : Int) * ((arr3 10 10 1 : Nat → Nat) 1 : Int) < 2 ^ 31 →
      (factor2dSearch f32Ops 2 (arr3 10 10 1) (arr3 0 0 0)).assigned = true →
      admissible2 2 (arr3 10 10 1) ((factor2d f32Ops 2 (arr3 10 10 1) (arr3 0 0 0)).2 0)
        ((factor2d f32Ops 2 (arr3 10 10 1) (arr3 0 0 0)).2 1) ∧
      ∀ t0 t1, admissible2 2 (arr3 10 10 1) t0 t1 →
        f32Ops.lt (bestCandidate2 f32Ops 2 (arr3 10 10 1) t0 t1)
          (bestCandidate2 f32Ops 2 (arr3 10 10 1)
            ((factor2d f32Ops 2 (arr3 10 10 1) (arr3 0 0 0)).2 0)
            ((factor2d f32Ops 2 (arr3 10 10 1) (arr3 0 0 0)).2 1)) = false ∧
        (precedes2 (t0, t1)
            ((factor2d f32Ops 2 (arr3 10 10 1) (arr3 0 0 0)).2 0,
              (factor2d f32Ops 2 (arr3 10 10 1) (arr3 0 0 0)).2 1) →
          f32Ops.lt (bestCandidate2 f32Ops 2 (arr3 10 10 1)
              ((factor2d f32Ops 2 (arr3 10 10 1) (arr3 0 0 0)).2 0)
              ((factor2d f32Ops 2 (arr3 10 10 1) (arr3 0 0 0)).2 1))
            (bestCandidate2 f32Ops 2 (arr3 10 10 1) t0 t1) = true)) ∧
    (1 ≤ (arr3 10 10 1 : Nat → Nat) 2 →
      ((arr3 10 10 1 : Nat → Nat) 0 : Int) * ((arr3 10 10 1 : Nat → Nat) 1 : Int)
        * ((arr3 10 10 1 : Nat → Nat) 2 : Int) < 2 ^ 31 →
      (factor3dSearch f32Ops 2 (arr3 10 10 1) (arr3 0 0 0)).assigned = true →
      admissible3 2 (arr3 10 10 1) ((factor3d f32Ops 2 (arr3 10 10 1) (arr3 0 0 0)).2 0)
        ((factor3d f32Ops 2 (arr3 10 10 1) (arr3 0 0 0)).2 1)
        ((factor3d f32Ops 2 (arr3 10 10 1) (arr3 0 0 0)).2 2) ∧
      ∀ t0 t1 t2, admissible3 2 (arr3 10 10 1) t0 t1 t2 →
        f32Ops.lt (bestCandidate3 f32Ops 2 (arr3 10 10 1) t0 t1 t2)
          (bestCandidate3 f32Ops 2 (arr3 10 10 1)
            ((factor3d f32Ops 2 (arr3 10 10 1) (arr3 0 0 0)).2 0)
            ((factor3d f32Ops 2 (arr3 10 10 1) (arr3 0 0 0)).2 1)
            ((factor3d f32Ops 2 (arr3 10 10 1) (arr3 0 0 0)).2 2)) = false ∧
        (precedes3 (t0, t1, t2)
            ((factor3d f32Ops 2 (arr3 10 10 1) (arr3 0 0 0)).2 0,
              (factor3d f32Ops 2 (arr3 10 10 1) (arr3 0 0 0)).2 1,
              (factor3d f32Ops 2 (arr3 10 10 1) (arr3 0 0 0)).2 2) →
          f32Ops.lt (bestCandidate3 f32Ops 2 (arr3 10 10 1)
              ((factor3d f32Ops 2 (arr3 10 10 1) (arr3 0 0 0)).2 0)
              ((factor3d f32Ops 2 (arr3 10 10 1) (arr3 0 0 0)).2 1)
              ((factor3d f32Ops 2 (arr3 10 10 1) (arr3 0 0 0)).2 2))
            (bestCandidate3 f32Ops 2 (arr3 10 10 1) t0 t1 t2) = true)) ∧
    ((factor2d f32Ops 2 (arr3 10 10 0) (arr3 0 0 0)).2 0 = 1 ∧
      (factor2d f32Ops 2 (arr3 10 10 0) (arr3 0 0 0)).2 1 = 2) :=
  search_keeps_first_least f32Ops Dyadic.toRat 2 (arr3 10 10 1) (arr3 0 0 0) f32Ops_lt
    (by decide) (by decide) (by decide) (by decide)

/-! ## When the search writes `cpu_split` -/

theorem foldl_reaches {α β : Type} (I G : β → Prop) (f : β → α → β) (l : List α) (x : α)
    (hx : x ∈ l) (hI : ∀ b a, I b → I (f b a)) (hG : ∀ b a, G b → G (f b a))
    (hstep : ∀ b, I b → G (f b x)) : ∀ b0, I b0 → G (l.foldl f b0) := by
  induction l with
  | nil => cases hx
  | cons a l ih =>
    intro b0 h0
    simp only [List.foldl_cons]
    rcases List.mem_cons.mp hx with h | h
    · subst h
      exact foldl_invariant G f l (fun b a _ hb => hG b a hb) _ (hstep b0 h0)
    · exact ih h _ (hI b0 a h0)

theorem tryCorner_keeps_initial (fm : FloatOps) (gridav : fm.F) (k : Nat) (tmp : Nat → Int)
    (m0 : fm.F) (st : FactorState fm) (g : Int)
    (h : st.assigned = false → st.mindeviation = m0) :
    (tryCorner fm gridav k tmp st g).assigned = false →
      (tryCorner fm gridav k tmp st g).mindeviation = m0 := by
  unfold tryCorner
  simp only []
  split
  · intro hc; cases hc
  · exact h

theorem tryCorner_keeps_assigned (fm : FloatOps) (gridav : fm.F) (k : Nat) (tmp : Nat → Int)
    (st : FactorState fm) (g : Int) (h : st.assigned = true) :
    (tryCorner fm gridav k tmp st g).assigned = true := by
  unfold tryCorner
  simp only []
  split
  · rfl
  · exact h

theorem tryCorner_hit (fm : FloatOps) (gridav : fm.F) (k : Nat) (tmp : Nat → Int)
    (m0 : fm.F) (st : FactorState fm) (g : Int)
    (hg : fm.lt (deviationOf fm gridav g) m0 = true)
    (h : st.assigned = false → st.mindeviation = m0) :
    (tryCorner fm gridav k tmp st g).assigned = true := by
  unfold tryCorner
  simp only []
  split
  · rfl
  · rename_i hc
    cases ha : st.assigned with
    | true => rfl
    | false =>
      exfalso
      apply hc
      rw [h ha]
      exact hg

/-- The corner loop keeps `WriteInv`, provided `W` holds as soon as a candidate of
this loop is below the initial `mindeviation`. -/
theorem cornerLoop_pass (fm : FloatOps) (gridav : fm.F) (k : Nat) (tmp : Nat → Int)
    (m0 : fm.F) (W : Prop) (gs : List Int)
    (hW : ∀ g, g ∈ gs → fm.lt (deviationOf fm gridav g) m0 = true → W)
    (st : FactorState fm) (h : WriteInv fm m0 W st) :
    WriteInv fm m0 W (gs.foldl (tryCorner fm gridav k tmp) st) := by
  refine foldl_invariant (WriteInv fm m0 W) _ gs (fun b g hg hb => ?_) st h
  unfold tryCorner
  simp only []
  split
  · rename_i hc
    right
    refine ⟨rfl, ?_⟩
    rcases hb with ⟨_, e⟩ | ⟨_, w⟩
    · rw [e] at hc
      exact hW g hg hc
    · exact w
  · exact hb

/-- When `factor2d` writes `cpu_split`, whatever the float arithmetic: exactly when
one of the combinations the loops reach (factors from `dmin[n]` down to 1, product
`maxcpus`) has a candidate cell count whose float deviation is below the initial
`mindeviation`. -/
theorem factor2dSearch_writes_iff (fm : FloatOps) (ncpus : Int) (dims : Nat → Nat)
    (cs : Nat → Int) :
    (factor2dSearch fm ncpus dims cs).assigned = true ↔
      ∃ t0 t1 : Int,
        (1 ≤ t0 ∧ t0 ≤ toI32 (MIN (toU64 ncpus) (dims 0))) ∧
        (1 ≤ t1 ∧ t1 ≤ toI32 (MIN (toU64 ncpus) (dims 1))) ∧
        1 * t0 * t1
          = MIN ncpus (1 * toI32 (MIN (toU64 ncpus) (dims 0))
              * toI32 (MIN (toU64 ncpus) (dims 1))) ∧
        ∃ g, g ∈ corners2 dims t0 t1 ∧
          fm.lt (deviationOf fm (floatAverage2 fm ncpus dims) g) (floatTotal2 fm dims)
            = true := by
  constructor
  · intro ha
    have hinv : WriteInv fm (floatTotal2 fm dims)
        (∃ t0 t1 : Int,
          (1 ≤ t0 ∧ t0 ≤ toI32 (MIN (toU64 ncpus) (dims 0))) ∧
          (1 ≤ t1 ∧ t1 ≤ toI32 (MIN (toU64 ncpus) (dims 1))) ∧
          1 * t0 * t1
            = MIN ncpus (1 * toI32 (MIN (toU64 ncpus) (dims 0))
                * toI32 (MIN (toU64 ncpus) (dims 1))) ∧
          ∃ g, g ∈ corners2 dims t0 t1 ∧
            fm.lt (deviationOf fm (floatAverage2 fm ncpus dims) g) (floatTotal2 fm dims)
              = true)
        (factor2dSearch fm ncpus dims cs) := by
      unfold factor2dSearch
      simp only []
      refine foldl_invariant (WriteInv fm _ _) _ _ (fun st j hj hst => ?_) _
        (Or.inl ⟨rfl, rfl⟩)
      refine foldl_invariant (WriteInv fm _ _) _ _ (fun st i hi hst => ?_) _ hst
      by_cases hc : 1 * (toI32 (MIN (toU64 ncpus) (dims 0)) - (i : Int))
          * (toI32 (MIN (toU64 ncpus) (dims 1)) - (j : Int))
          = MIN ncpus (1 * toI32 (MIN (toU64 ncpus) (dims 0))
              * toI32 (MIN (toU64 ncpus) (dims 1)))
      · rw [factor2dBody_match _ _ _ _ _ _ _ hc]
        exact cornerLoop_pass fm _ 2 _ _ _ _
          (fun g hg hlt => ⟨_, _, loop_value_bounds _ i hi, loop_value_bounds _ j hj, hc,
            g, hg, hlt⟩) st hst
      · rw [factor2dBody_skip _ _ _ _ _ _ _ hc]
        exact hst
    rcases hinv with ⟨hf, _⟩ | ⟨_, h⟩
    · rw [hf] at ha; cases ha
    · exact h
  · rintro ⟨t0, t1, ⟨a0, b0⟩, ⟨a1, b1⟩, hc, g, hg, hlt⟩
    unfold factor2dSearch
    simp only []
    have hI2 : ∀ (b : FactorState fm) (u0 u1 : Int),
        (b.assigned = false → b.mindeviation = floatTotal2 fm dims) →
        ((factor2dBody fm dims (floatAverage2 fm ncpus dims)
            (MIN ncpus (1 * toI32 (MIN (toU64 ncpus) (dims 0))
              * toI32 (MIN (toU64 ncpus) (dims 1)))) u0 u1 b).assigned = false →
          (factor2dBody fm dims (floatAverage2 fm ncpus dims)
            (MIN ncpus (1 * toI32 (MIN (toU64 ncpus) (dims 0))
              * toI32 (MIN (toU64 ncpus) (dims 1)))) u0 u1 b).mindeviation
            = floatTotal2 fm dims) := by
      intro b u0 u1 hb
      unfold factor2dBody
      simp only []
      split
      · exact hb
      · exact foldl_invariant
          (fun st : FactorState fm => st.assigned = false →
            st.mindeviation = floatTotal2 fm dims) _ _
          (fun st g _ hst => tryCorner_keeps_initial fm _ 2 _ _ st g hst) b hb
    have hG2 : ∀ (b : FactorState fm) (u0 u1 : Int), b.assigned = true →
        (factor2dBody fm dims (floatAverage2 fm ncpus dims)
            (MIN ncpus (1 * toI32 (MIN (toU64 ncpus) (dims 0))
              * toI32 (MIN (toU64 ncpus) (dims 1)))) u0 u1 b).assigned = true := by
      intro b u0 u1 hb
      unfold factor2dBody
      simp only []
      split
      · exact hb
      · exact foldl_invariant (fun st : FactorState fm => st.assigned = true) _ _
          (fun st g _ hst => tryCorner_keeps_assigned fm _ 2 _ st g hst) b hb
    have hj : (toI32 (MIN (toU64 ncpus) (dims 1)) - t1).toNat
        ∈ List.range (toI32 (MIN (toU64 ncpus) (dims 1))).toNat :=
      List.mem_range.mpr (by omega)
    have hi : (toI32 (MIN (toU64 ncpus) (dims 0)) - t0).toNat
        ∈ List.range (toI32 (MIN (toU64 ncpus) (dims 0))).toNat :=
      List.mem_range.mpr (by omega)
    have ej : toI32 (MIN (toU64 ncpus) (dims 1))
        - (((toI32 (MIN (toU64 ncpus) (dims 1)) - t1).toNat : Nat) : Int) = t1 := by omega
    have ei : toI32 (MIN (toU64 ncpus) (dims 0))
        - (((toI32 (MIN (toU64 ncpus) (dims 0)) - t0).toNat : Nat) : Int) = t0 := by omega
    refine foldl_reaches
      (fun st : FactorState fm => st.assigned = false → st.mindeviation = floatTotal2 fm dims)
      (fun st : FactorState fm => st.assigned = true) _ _ _ hj
      (fun b j hb => foldl_invariant _ _ _ (fun st i _ hst => hI2 st _ _ hst) b hb)
      (fun b j hb => foldl_invariant _ _ _ (fun st i _ hst => hG2 st _ _ hst) b hb)
      (fun b hb => ?_) _ (fun _ => rfl)
    refine foldl_reaches
      (fun st : FactorState fm => st.assigned = false → st.mindeviation = floatTotal2 fm dims)
      (fun st : FactorState fm => st.assigned = true) _ _ _ hi
      (fun st i hst => hI2 st _ _ hst) (fun st i hst => hG2 st _ _ hst)
      (fun st hst => ?_) b hb
    simp only [ei, ej]
    rw [factor2dBody_match _ _ _ _ _ _ _ hc]
    exact foldl_reaches
      (fun st : FactorState fm => st.assigned = false → st.mindeviation = floatTotal2 fm dims)
      (fun st : FactorState fm => st.assigned = true) _ _ g hg
      (fun st g hst => tryCorner_keeps_initial fm _ 2 _ _ st g hst)
      (fun st g hst => tryCorner_keeps_assigned fm _ 2 _ st g hst)
      (fun st hst => tryCorner_hit fm _ 2 _ _ st g hlt hst) st hst

/-- When `factor3d` writes `cpu_split`, whatever the float arithmetic. -/
theorem factor3dSearch_writes_iff (fm : FloatOps) (ncpus : Int) (dims : Nat → Nat)
    (cs : Nat → Int) :
    (factor3dSearch fm ncpus dims cs).assigned = true ↔
      ∃ t0 t1 t2 : Int,
        (1 ≤ t0 ∧ t0 ≤ toI32 (MIN (toU64 ncpus) (dims 0))) ∧
        (1 ≤ t1 ∧ t1 ≤ toI32 (MIN (toU64 ncpus) (dims 1))) ∧
        (1 ≤ t2 ∧ t2 ≤ toI32 (MIN (toU64 ncpus) (dims 2))) ∧
        1 * t0 * t1 * t2
          = MIN ncpus (1 * toI32 (MIN (toU64 ncpus) (dims 0))
              * toI32 (MIN (toU64 ncpus) (dims 1)) * toI32 (MIN (toU64 ncpus) (dims 2))) ∧
        ∃ g, g ∈ corners3 dims t0 t1 t2 ∧
          fm.lt (deviationOf fm (floatAverage3 fm ncpus dims) g) (floatTotal3 fm dims)
            = true := by
  constructor
  · intro ha
    have hinv : WriteInv fm (floatTotal3 fm dims)
        (∃ t0 t1 t2 : Int,
          (1 ≤ t0 ∧ t0 ≤ toI32 (MIN (toU64 ncpus) (dims 0))) ∧
          (1 ≤ t1 ∧ t1 ≤ toI32 (MIN (toU64 ncpus) (dims 1))) ∧
          (1 ≤ t2 ∧ t2 ≤ toI32 (MIN (toU64 ncpus) (dims 2))) ∧
          1 * t0 * t1 * t2
            = MIN ncpus (1 * toI32 (MIN (toU64 ncpus) (dims 0))
                * toI32 (MIN (toU64 ncpus) (dims 1))
                * toI32 (MIN (toU64 ncpus) (dims 2))) ∧
          ∃ g, g ∈ corners3 dims t0 t1 t2 ∧
            fm.lt (deviationOf fm (floatAverage3 fm ncpus dims) g) (floatTotal3 fm dims)
              = true)
        (factor3dSearch fm ncpus dims cs) := by
      unfold factor3dSearch
      simp only []
      refine foldl_invariant (WriteInv fm _ _) _ _ (fun st k hk hst => ?_) _
        (Or.inl ⟨rfl, rfl⟩)
      refine foldl_invariant (WriteInv fm _ _) _ _ (fun st j hj hst => ?_) _ hst
      refine foldl_invariant (WriteInv fm _ _) _ _ (fun st i hi hst => ?_) _ hst
      by_cases hc : 1 * (toI32 (MIN (toU64 ncpus) (dims 0)) - (i : Int))
          * (toI32 (MIN (toU64 ncpus) (dims 1)) - (j : Int))
          * (toI32 (MIN (toU64 ncpus) (dims 2)) - (k : Int))
          = MIN ncpus (1 * toI32 (MIN (toU64 ncpus) (dims 0))
              * toI32 (MIN (toU64 ncpus) (dims 1)) * toI32 (MIN (toU64 ncpus) (dims 2)))
      · rw [factor3dBody_match _ _ _ _ _ _ _ _ hc]
        exact cornerLoop_pass fm _ 3 _ _ _ _
          (fun g hg hlt => ⟨_, _, _, loop_value_bounds _ i hi, loop_value_bounds _ j hj,
            loop_value_bounds _ k hk, hc, g, hg, hlt⟩) st hst
      · rw [factor3dBody_skip _ _ _ _ _ _ _ _ hc]
        exact hst
    rcases hinv with ⟨hf, _⟩ | ⟨_, h⟩
    · rw [hf] at ha; cases ha
    · exact h
  · rintro ⟨t0, t1, t2, ⟨a0, b0⟩, ⟨a1, b1⟩, ⟨a2, b2⟩, hc, g, hg, hlt⟩
    unfold factor3dSearch
    simp only []
    have hI3 : ∀ (b : FactorState fm) (u0 u1 u2 : Int),
        (b.assigned = false → b.mindeviation = floatTotal3 fm dims) →
        ((factor3dBody fm dims (floatAverage3 fm ncpus dims)
            (MIN ncpus (1 * toI32 (MIN (toU64 ncpus) (dims 0))
              * toI32 (MIN (toU64 ncpus) (dims 1)) * toI32 (MIN (toU64 ncpus) (dims 2))))
            u0 u1 u2 b).assigned = false →
          (factor3dBody fm dims (floatAverage3 fm ncpus dims)
            (MIN ncpus (1 * toI32 (MIN (toU64 ncpus) (dims 0))
              * toI32 (MIN (toU64 ncpus) (dims 1)) * toI32 (MIN (toU64 ncpus) (dims 2))))
            u0 u1 u2 b).mindeviation
            = floatTotal3 fm dims) := by
      intro b u0 u1 u2 hb
      unfold factor3dBody
      simp only []
      split
      · exact hb
      · exact foldl_invariant
          (fun st : FactorState fm => st.assigned = false →
            st.mindeviation = floatTotal3 fm dims) _ _
          (fun st g _ hst => tryCorner_keeps_initial fm _ 3 _ _ st g hst) b hb
    have hG3 : ∀ (b : FactorState fm) (u0 u1 u2 : Int), b.assigned = true →
        (factor3dBody fm dims (floatAverage3 fm ncpus dims)
            (MIN ncpus (1 * toI32 (MIN (toU64 ncpus) (dims 0))
              * toI32 (MIN (toU64 ncpus) (dims 1)) * toI32 (MIN (toU64 ncpus) (dims 2))))
            u0 u1 u2 b).assigned = true := by
      intro b u0 u1 u2 hb
      unfold factor3dBody
      simp only []
      split
      · exact hb
      · exact foldl_invariant (fun st : FactorState fm => st.assigned = true) _ _
          (fun st g _ hst => tryCorner_keeps_assigned fm _ 3 _ st g hst) b hb
    have hk : (toI32 (MIN (toU64 ncpus) (dims 2)) - t2).toNat
        ∈ List.range (toI32 (MIN (toU64 ncpus) (dims 2))).toNat :=
      List.mem_range.mpr (by omega)
    have hj : (toI32 (MIN (toU64 ncpus) (dims 1)) - t1).toNat
        ∈ List.range (toI32 (MIN (toU64 ncpus) (dims 1))).toNat :=
      List.mem_range.mpr (by omega)
    have hi : (toI32 (MIN (toU64 ncpus) (dims 0)) - t0).toNat
        ∈ List.range (toI32 (MIN (toU64 ncpus) (dims 0))).toNat :=
      List.mem_range.mpr (by omega)
    have ek : toI32 (MIN (toU64 ncpus) (dims 2))
        - (((toI32 (MIN (toU64 ncpus) (dims 2)) - t2).toNat : Nat) : Int) = t2 := by omega
    have ej : toI32 (MIN (toU64 ncpus) (dims 1))
        - (((toI32 (MIN (toU64 ncpus) (dims 1)) - t1).toNat : Nat) : Int) = t1 := by omega
    have ei : toI32 (MIN (toU64 ncpus) (dims 0))
        - (((toI32 (MIN (toU64 ncpus) (dims 0)) - t0).toNat : Nat) : Int) = t0 := by omega
    refine foldl_reaches
      (fun st : FactorState fm => st.assigned = false → st.mindeviation = floatTotal3 fm dims)
      (fun st : FactorState fm => st.assigned = true) _ _ _ hk
      (fun b k hb => foldl_invariant _ _ _ (fun st j _ hst =>
        foldl_invariant _ _ _ (fun st i _ hst => hI3 st _ _ _ hst) st hst) b hb)
      (fun b k hb => foldl_invariant _ _ _ (fun st j _ hst =>
        foldl_invariant _ _ _ (fun st i _ hst => hG3 st _ _ _ hst) st hst) b hb)
      (fun b hb => ?_) _ (fun _ => rfl)
    refine foldl_reaches
      (fun st : FactorState fm => st.assigned = false → st.mindeviation = floatTotal3 fm dims)
      (fun st : FactorState fm => st.assigned = true) _ _ _ hj
      (fun b j hb => foldl_invariant _ _ _ (fun st i _ hst => hI3 st _ _ _ hst) b hb)
      (fun b j hb => foldl_invariant _ _ _ (fun st i _ hst => hG3 st _ _ _ hst) b hb)
      (fun b hb => ?_) b hb
    refine foldl_reaches
      (fun st : FactorState fm => st.assigned = false → st.mindeviation = floatTotal3 fm dims)
      (fun st : FactorState fm => st.assigned = true) _ _ _ hi
      (fun st i hst => hI3 st _ _ _ hst) (fun st i hst => hG3 st _ _ _ hst)
      (fun st hst => ?_) b hb
    simp only [ei, ej, ek]
    rw [factor3dBody_match _ _ _ _ _ _ _ _ hc]
    exact foldl_reaches
      (fun st : FactorState fm => st.assigned = false → st.mindeviation = floatTotal3 fm dims)
      (fun st : FactorState fm => st.assigned = true) _ _ g hg
      (fun st g hst => tryCorner_keeps_initial fm _ 3 _ _ st g hst)
      (fun st g hst => tryCorner_keeps_assigned fm _ 3 _ st g hst)
      (fun st hst => tryCorner_hit fm _ 3 _ _ st g hlt hst) st hst

/-! ## The rounding of `f32Ops` is within a relative error of `2^-24` -/

theorem bitLength_zero (fuel : Nat) : bitLength fuel 0 = 0 := by
  cases fuel <;> simp [bitLength]

theorem bitLength_spec (fuel : Nat) :
    ∀ n : Nat, n ≤ fuel → 1 ≤ n →
      1 ≤ bitLength fuel n ∧ 2 ^ (bitLength fuel n - 1) ≤ n ∧ n < 2 ^ bitLength fuel n := by
  induction fuel with
  | zero => intro n h0 h1; omega
  | succ fuel ih =>
    intro n hn h1
    have hne : n ≠ 0 := by omega
    simp only [bitLength, hne, if_false]
    by_cases h2 : n / 2 = 0
    · have e1 : n = 1 := by omega
      rw [h2, bitLength_zero]
      subst e1
      simp
    · obtain ⟨b1, b2, b3⟩ := ih (n / 2) (by omega) (by omega)
      refine ⟨by omega, ?_, ?_⟩
      · have e : bitLength fuel (n / 2) + 1 - 1 = (bitLength fuel (n / 2) - 1) + 1 := by omega
        rw [e, pow_succ]
        omega
      · rw [pow_succ]
        omega

theorem roundHalfEven_near (N D : Nat) (hD : 0 < D) :
    |((roundHalfEven N D : Nat) : ℚ) - (N : ℚ) / (D : ℚ)| ≤ 1 / 2 := by
  have hD' : (0 : ℚ) < (D : ℚ) := by exact_mod_cast hD
  have hdm : (N : ℚ) = (D : ℚ) * ((N / D : Nat) : ℚ) + ((N % D : Nat) : ℚ) := by
    have := Nat.div_add_mod N D
    exact_mod_cast this.symm
  have hr : N % D < D := Nat.mod_lt _ hD
  have hy : (N : ℚ) / (D : ℚ) = ((N / D : Nat) : ℚ) + ((N % D : Nat) : ℚ) / (D : ℚ) := by
    rw [hdm]
    field_simp
    ring
  have hr0 : (0 : ℚ) ≤ ((N % D : Nat) : ℚ) / (D : ℚ) := by positivity
  have hr1 : ((N % D : Nat) : ℚ) / (D : ℚ) < 1 := by
    rw [div_lt_one hD']
    exact_mod_cast hr
  rw [hy]
  unfold roundHalfEven
  simp only []
  by_cases c1 : 2 * (N % D) < D
  · rw [if_pos c1]
    have : ((N % D : Nat) : ℚ) / (D : ℚ) < 1 / 2 := by
      rw [div_lt_iff₀ hD']
      have : ((2 * (N % D) : Nat) : ℚ) < (D : ℚ) := by exact_mod_cast c1
      push_cast at this
      linarith
    rw [abs_le]
    constructor <;> linarith
  · rw [if_neg c1]
    have hge : (1 : ℚ) / 2 ≤ ((N % D : Nat) : ℚ) / (D : ℚ) := by
      rw [le_div_iff₀ hD']
      have : ((D : Nat) : ℚ) ≤ ((2 * (N % D) : Nat) : ℚ) := by exact_mod_cast not_lt.mp c1
      push_cast at this
      linarith
    by_cases c2 : D < 2 * (N % D)
    · rw [if_pos c2]
      push_cast
      rw [abs_le]
      constructor <;> linarith
    · rw [if_neg c2]
      have heq : ((N % D : Nat) : ℚ) / (D : ℚ) = 1 / 2 := by
        have e : 2 * (N % D) = D := by omega
        rw [div_eq_iff (ne_of_gt hD')]
        have : ((2 * (N % D) : Nat) : ℚ) = (D : ℚ) := by exact_mod_cast e
        push_cast at this
        linarith
      split
      · rw [heq, abs_le]
        constructor <;> linarith
      · push_cast
        rw [heq, abs_le]
        constructor <;> linarith

/-- The rounding of a positive quotient is within `2^-24` of it, relatively. -/
theorem roundPos24_near (a q : Nat) (ha : 0 < a) (hq : 0 < q) :
    |Dyadic.toRat (roundPos24 a q) - (a : ℚ) / (q : ℚ)|
      ≤ (a : ℚ) / (q : ℚ) / 2 ^ 24 := by
  obtain ⟨a1, a2, _⟩ := bitLength_spec a a (le_refl _) ha
  obtain ⟨_, _, q3⟩ := bitLength_spec q q (le_refl _) hq
  unfold roundPos24
  simp only []
  generalize bitLength a a = la at a1 a2
  generalize bitLength q q = lq at q3
  generalize hdn' : (if a * 2 ^ (24 + lq - la) < 2 ^ 24 * (q * 2 ^ (la - (24 + lq)))
    then la - (24 + lq) else la - (24 + lq) + 1) = dn'
  -- the scaled quotient is at least 2^23
  have hscale : 2 ^ 23 * (q * 2 ^ dn') ≤ a * 2 ^ (24 + lq - la) := by
    by_cases c : a * 2 ^ (24 + lq - la) < 2 ^ 24 * (q * 2 ^ (la - (24 + lq)))
    · rw [if_pos c] at hdn'
      subst hdn'
      have h1 : 2 ^ 23 * (q * 2 ^ (la - (24 + lq)))
          ≤ 2 ^ 23 * (2 ^ lq * 2 ^ (la - (24 + lq))) :=
        Nat.mul_le_mul_left _ (Nat.mul_le_mul_right _ (le_of_lt q3))
      have h2 : 2 ^ (la - 1) * 2 ^ (24 + lq - la) ≤ a * 2 ^ (24 + lq - la) :=
        Nat.mul_le_mul_right _ a2
      have h3 : 2 ^ 23 * (2 ^ lq * 2 ^ (la - (24 + lq)))
          = 2 ^ (la - 1) * 2 ^ (24 + lq - la) := by
        rw [← pow_add, ← pow_add, ← pow_add]
        congr 1
        omega
      omega
    · rw [if_neg c] at hdn'
      subst hdn'
      have : 2 ^ 23 * (q * 2 ^ (la - (24 + lq) + 1))
          = 2 ^ 24 * (q * 2 ^ (la - (24 + lq))) := by
        rw [pow_succ]
        ring
      omega
  have hD : 0 < q * 2 ^ dn' := Nat.mul_pos hq (by positivity)
  have hnear := roundHalfEven_near (a * 2 ^ (24 + lq - la)) (q * 2 ^ dn') hD
  generalize roundHalfEven (a * 2 ^ (24 + lq - la)) (q * 2 ^ dn') = m at hnear
  generalize 24 + lq - la = up at hscale hnear
  have hP : (0 : ℚ) < (2 : ℚ) ^ up := by positivity
  have hM : (0 : ℚ) < (2 : ℚ) ^ dn' := by positivity
  have hq' : (0 : ℚ) < (q : ℚ) := by exact_mod_cast hq
  have ha' : (0 : ℚ) < (a : ℚ) := by exact_mod_cast ha
  have hscale' : (2 : ℚ) ^ 23 * ((q : ℚ) * 2 ^ dn') ≤ (a : ℚ) * 2 ^ up := by
    exact_mod_cast hscale
  push_cast at hnear
  simp only [Dyadic.toRat]
  push_cast
  -- v - a/q = (m - y) * M / P with y = a P / (q M)
  have e : (m : ℚ) * 2 ^ dn' / 2 ^ up - (a : ℚ) / (q : ℚ)
      = ((m : ℚ) - (a : ℚ) * 2 ^ up / ((q : ℚ) * 2 ^ dn')) * (2 ^ dn' / 2 ^ up) := by
    field_simp
    ring
  rw [e, abs_mul, abs_of_pos (div_pos hM hP)]
  have hy : (2 : ℚ) ^ 23 ≤ (a : ℚ) * 2 ^ up / ((q : ℚ) * 2 ^ dn') := by
    rw [le_div_iff₀ (by positivity)]
    exact hscale'
  have e2 : (a : ℚ) / (q : ℚ) / 2 ^ 24
      = ((a : ℚ) * 2 ^ up / ((q : ℚ) * 2 ^ dn') / 2 ^ 24) * (2 ^ dn' / 2 ^ up) := by
    field_simp
    ring
  rw [e2]
  refine mul_le_mul_of_nonneg_right ?_ (le_of_lt (div_pos hM hP))
  refine le_trans hnear ?_
  rw [le_div_iff₀ (by positivity)]
  linarith

/-- The rounding of a quotient is within `2^-24` of it, relatively. -/
theorem round24_near (p : Int) (q : Nat) (hq : 0 < q) :
    |Dyadic.toRat (round24 p q) - (p : ℚ) / (q : ℚ)| ≤ |(p : ℚ) / (q : ℚ)| / 2 ^ 24 := by
  have hq' : (0 : ℚ) < (q : ℚ) := by exact_mod_cast hq
  unfold round24
  by_cases h0 : p = 0
  · subst h0
    simp [Dyadic.toRat]
  · rw [if_neg (by omega)]
    by_cases hp : 0 < p
    · rw [if_pos hp]
      have e : ((p.toNat : Nat) : ℚ) = (p : ℚ) := by
        have : ((p.toNat : Nat) : Int) = p := Int.toNat_of_nonneg (le_of_lt hp)
        exact_mod_cast this
      have h := roundPos24_near p.toNat q (by omega) hq
      rw [e] at h
      have hpos : (0 : ℚ) < (p : ℚ) / (q : ℚ) := div_pos (by exact_mod_cast hp) hq'
      rw [abs_of_pos hpos]
      exact h
    · rw [if_neg hp]
      have hneg : p < 0 := by omega
      have e : (((-p).toNat : Nat) : ℚ) = -(p : ℚ) := by
        have : (((-p).toNat : Nat) : Int) = -p := Int.toNat_of_nonneg (by omega)
        exact_mod_cast this
      have h := roundPos24_near (-p).toNat q (by omega) hq
      rw [e] at h
      have hlt : (p : ℚ) / (q : ℚ) < 0 := div_neg_of_neg_of_pos (by exact_mod_cast hneg) hq'
      rw [abs_of_neg hlt]
      simp only [Dyadic.toRat] at h ⊢
      push_cast
      have e3 : -((roundPos24 (-p).toNat q).num : ℚ) / 2 ^ (roundPos24 (-p).toNat q).exp
          - (p : ℚ) / (q : ℚ)
          = -(((roundPos24 (-p).toNat q).num : ℚ) / 2 ^ (roundPos24 (-p).toNat q).exp
              - -(p : ℚ) / (q : ℚ)) := by ring
      rw [e3, abs_neg]
      have e4 : -((p : ℚ) / (q : ℚ)) = -(p : ℚ) / (q : ℚ) := by ring
      rw [e4]
      exact h

/-! ## Single precision and the total of the domain -/

theorem fl_bounds (v y lo hi A : ℚ) (hA : 0 ≤ A) (hlo : 0 ≤ lo) (h1 : lo * A ≤ y)
    (h2 : y ≤ hi * A) (hv : |v - y| ≤ |y| / 2 ^ 24) :
    (1 - 1 / 2 ^ 24) * lo * A ≤ v ∧ v ≤ (1 + 1 / 2 ^ 24) * hi * A := by
  have hy : 0 ≤ y := le_trans (mul_nonneg hlo hA) h1
  rw [abs_of_nonneg hy, abs_le] at hv
  obtain ⟨v1, v2⟩ := hv
  constructor
  · have : (1 - 1 / 2 ^ 24) * (lo * A) ≤ (1 - 1 / 2 ^ 24) * y :=
      mul_le_mul_of_nonneg_left h1 (by norm_num)
    linarith
  · have : (1 + 1 / 2 ^ 24) * y ≤ (1 + 1 / 2 ^ 24) * (hi * A) :=
      mul_le_mul_of_nonneg_left h2 (by norm_num)
    linarith

theorem mul_bounds (x y lx hx ly hy X Y : ℚ) (hlx : 0 ≤ lx) (hly : 0 ≤ ly) (hX : 0 ≤ X)
    (hY : 0 ≤ Y) (x1 : lx * X ≤ x) (x2 : x ≤ hx * X) (y1 : ly * Y ≤ y) (y2 : y ≤ hy * Y) :
    lx * ly * (X * Y) ≤ x * y ∧ x * y ≤ hx * hy * (X * Y) := by
  have hx0 : 0 ≤ x := le_trans (mul_nonneg hlx hX) x1
  have hy0 : 0 ≤ y := le_trans (mul_nonneg hly hY) y1
  constructor
  · calc lx * ly * (X * Y) = (lx * X) * (ly * Y) := by ring
      _ ≤ x * y := mul_le_mul x1 y1 (mul_nonneg hly hY) hx0
  · calc x * y ≤ (hx * X) * (hy * Y) := mul_le_mul x2 y2 hy0 (le_trans hx0 x2)
      _ = hx * hy * (X * Y) := by ring

theorem div_bounds (x y lx hx ly hy X Y : ℚ) (hlx : 0 ≤ lx) (hhx : 0 ≤ hx) (hly : 0 < ly)
    (hhy : 0 < hy) (hX : 0 ≤ X) (hY : 0 < Y) (x1 : lx * X ≤ x) (x2 : x ≤ hx * X)
    (y1 : ly * Y ≤ y) (y2 : y ≤ hy * Y) :
    lx / hy * (X / Y) ≤ x / y ∧ x / y ≤ hx / ly * (X / Y) := by
  have hy0 : 0 < y := lt_of_lt_of_le (mul_pos hly hY) y1
  constructor
  · rw [le_div_iff₀ hy0]
    calc lx / hy * (X / Y) * y ≤ lx / hy * (X / Y) * (hy * Y) :=
          mul_le_mul_of_nonneg_left y2
            (mul_nonneg (div_nonneg hlx (le_of_lt hhy)) (div_nonneg hX (le_of_lt hY)))
      _ = lx * X := by field_simp
      _ ≤ x := x1
  · rw [div_le_iff₀ hy0]
    calc x ≤ hx * X := x2
      _ = hx / ly * (X / Y) * (ly * Y) := by field_simp
      _ ≤ hx / ly * (X / Y) * y :=
          mul_le_mul_of_nonneg_left y1
            (mul_nonneg (div_nonneg hhx (le_of_lt hly)) (div_nonneg hX (le_of_lt hY)))

theorem toRat_pos_iff (a : Dyadic) : 0 < Dyadic.toRat a ↔ 0 < a.num := by
  unfold Dyadic.toRat
  rw [div_pos_iff_of_pos_right (by positivity)]
  exact_mod_cast Iff.rfl

theorem f32_ofInt_near (n : Int) :
    |Dyadic.toRat (f32Ops.ofInt n) - (n : ℚ)| ≤ |(n : ℚ)| / 2 ^ 24 := by
  have h := round24_near n 1 (by decide)
  simpa using h

theorem f32_mul_near (a b : Dyadic) :
    |Dyadic.toRat (f32Ops.mul a b) - Dyadic.toRat a * Dyadic.toRat b|
      ≤ |Dyadic.toRat a * Dyadic.toRat b| / 2 ^ 24 := by
  have h := round24_near (a.num * b.num) (2 ^ (a.exp + b.exp)) (by positivity)
  have e : ((a.num * b.num : Int) : ℚ) / ((2 ^ (a.exp + b.exp) : Nat) : ℚ)
      = Dyadic.toRat a * Dyadic.toRat b := by
    unfold Dyadic.toRat
    push_cast
    rw [pow_add]
    field_simp
  rw [e] at h
  exact h

theorem f32_div_near (a b : Dyadic) (hb : 0 < b.num) :
    |Dyadic.toRat (f32Ops.div a b) - Dyadic.toRat a / Dyadic.toRat b|
      ≤ |Dyadic.toRat a / Dyadic.toRat b| / 2 ^ 24 := by
  have hq : 0 < b.num.toNat * 2 ^ a.exp := by
    have : 0 < b.num.toNat := by omega
    positivity
  have h := round24_near (a.num * 2 ^ b.exp) (b.num.toNat * 2 ^ a.exp) hq
  have e : ((a.num * 2 ^ b.exp : Int) : ℚ) / ((b.num.toNat * 2 ^ a.exp : Nat) : ℚ)
      = Dyadic.toRat a / Dyadic.toRat b := by
    unfold Dyadic.toRat
    have hbq : (0 : ℚ) < (b.num : ℚ) := by exact_mod_cast hb
    have hc : ((b.num.toNat : Nat) : ℚ) = (b.num : ℚ) := by
      have : ((b.num.toNat : Nat) : Int) = b.num := Int.toNat_of_nonneg (le_of_lt hb)
      exact_mod_cast this
    push_cast
    rw [hc]
    field_simp
    left
    ring
  rw [e] at h
  have hd : f32Ops.div a b = round24 (a.num * 2 ^ b.exp) (b.num.toNat * 2 ^ a.exp) := by
    show (if 0 < b.num then _ else _) = _
    rw [if_pos hb]
  rw [hd]
  exact h

theorem f32_sub_near (a b : Dyadic) :
    |Dyadic.toRat (f32Ops.sub a b) - (Dyadic.toRat a - Dyadic.toRat b)|
      ≤ |Dyadic.toRat a - Dyadic.toRat b| / 2 ^ 24 := by
  have h := round24_near (a.num * 2 ^ b.exp - b.num * 2 ^ a.exp) (2 ^ (a.exp + b.exp))
    (by positivity)
  have e : ((a.num * 2 ^ b.exp - b.num * 2 ^ a.exp : Int) : ℚ)
        / ((2 ^ (a.exp + b.exp) : Nat) : ℚ)
      = Dyadic.toRat a - Dyadic.toRat b := by
    unfold Dyadic.toRat
    push_cast
    rw [pow_add]
    field_simp
    ring
  rw [e] at h
  exact h

theorem f32_ABS (a : Dyadic) : Dyadic.toRat (ABS f32Ops a) = |Dyadic.toRat a| := by
  unfold ABS
  have h0 : Dyadic.toRat (f32Ops.ofInt 0) = 0 := by
    have := f32_ofInt_near 0
    simp at this
    exact this
  by_cases h : f32Ops.lt (f32Ops.ofInt 0) a = true
  · rw [if_pos h]
    rw [f32Ops_lt, h0] at h
    rw [abs_of_pos h]
  · rw [if_neg h]
    rw [f32Ops_lt, h0, not_lt] at h
    rw [abs_of_nonpos h]
    show Dyadic.toRat ⟨-a.num, a.exp⟩ = _
    unfold Dyadic.toRat
    push_cast
    ring

theorem f32_ofInt_bounds (n : Int) (hn : 0 ≤ n) :
    (1 - 1 / 2 ^ 24) * (n : ℚ) ≤ Dyadic.toRat (f32Ops.ofInt n)
      ∧ Dyadic.toRat (f32Ops.ofInt n) ≤ (1 + 1 / 2 ^ 24) * (n : ℚ) := by
  have hq : (0 : ℚ) ≤ (n : ℚ) := by exact_mod_cast hn
  have h := fl_bounds _ (n : ℚ) 1 1 (n : ℚ) hq (by norm_num) (by simp) (by simp)
    (f32_ofInt_near n)
  simpa using h

theorem f32_mul_bounds (a b : Dyadic) (la ha lb hb A B : ℚ) (hla : 0 ≤ la) (hlb : 0 ≤ lb)
    (hA : 0 ≤ A) (hB : 0 ≤ B) (a1 : la * A ≤ Dyadic.toRat a) (a2 : Dyadic.toRat a ≤ ha * A)
    (b1 : lb * B ≤ Dyadic.toRat b) (b2 : Dyadic.toRat b ≤ hb * B) :
    (1 - 1 / 2 ^ 24) * (la * lb) * (A * B) ≤ Dyadic.toRat (f32Ops.mul a b)
      ∧ Dyadic.toRat (f32Ops.mul a b) ≤ (1 + 1 / 2 ^ 24) * (ha * hb) * (A * B) := by
  obtain ⟨m1, m2⟩ := mul_bounds _ _ la ha lb hb A B hla hlb hA hB a1 a2 b1 b2
  exact fl_bounds _ _ (la * lb) (ha * hb) (A * B) (mul_nonneg hA hB) (mul_nonneg hla hlb)
    m1 m2 (f32_mul_near a b)

theorem f32_div_bounds (a b : Dyadic) (la ha lb hb A B : ℚ) (hla : 0 ≤ la) (hha : 0 ≤ ha)
    (hlb : 0 < lb) (hhb : 0 < hb) (hA : 0 ≤ A) (hB : 0 < B)
    (a1 : la * A ≤ Dyadic.toRat a) (a2 : Dyadic.toRat a ≤ ha * A)
    (b1 : lb * B ≤ Dyadic.toRat b) (b2 : Dyadic.toRat b ≤ hb * B) :
    (1 - 1 / 2 ^ 24) * (la / hb) * (A / B) ≤ Dyadic.toRat (f32Ops.div a b)
      ∧ Dyadic.toRat (f32Ops.div a b) ≤ (1 + 1 / 2 ^ 24) * (ha / lb) * (A / B) := by
  obtain ⟨m1, m2⟩ := div_bounds _ _ la ha lb hb A B hla hha hlb hhb hA hB a1 a2 b1 b2
  have hb0 : 0 < b.num := (toRat_pos_iff b).mp (lt_of_lt_of_le (mul_pos hlb hB) b1)
  exact fl_bounds _ _ (la / hb) (ha / lb) (A / B) (div_nonneg hA (le_of_lt hB))
    (div_nonneg hla (le_of_lt hhb)) m1 m2 (f32_div_near a b hb0)

/-- In single precision the deviation of a candidate cell count `c` from the
average is below the total `That` the average was computed from, when the total
is within the factors `LT` and `HT` of the exact total `T` and either there is one
rank and `c` is the exact total, or there are at least two ranks and `c` is at
most half the exact total. -/
theorem f32_candidate_passes (That : Dyadic) (T LT HT : ℚ) (n c : Int)
    (hT : 1 ≤ T) (hLT : 0 < LT) (hH1 : 1 ≤ HT)
    (t1 : LT * T ≤ Dyadic.toRat That) (t2 : Dyadic.toRat That ≤ HT * T)
    (hA : (1 + 1 / 2 ^ 24) * ((1 + 1 / 2 ^ 24) * (HT / (1 - 1 / 2 ^ 24))) / 2 < LT)
    (hB1 : (1 + 1 / 2 ^ 24) * ((1 + 1 / 2 ^ 24) * (HT / (1 - 1 / 2 ^ 24))
      - (1 - 1 / 2 ^ 24)) < LT)
    (hB2 : (1 + 1 / 2 ^ 24) * ((1 + 1 / 2 ^ 24)
      - (1 - 1 / 2 ^ 24) * (LT / (1 + 1 / 2 ^ 24))) < LT)
    (hc : (n = 1 ∧ (c : ℚ) = T) ∨ (2 ≤ n ∧ 0 ≤ c ∧ 2 * (c : ℚ) ≤ T)) :
    f32Ops.lt (deviationOf f32Ops (f32Ops.div That (f32Ops.ofInt n)) c) That = true := by
  have hn : 1 ≤ n := by
    rcases hc with ⟨h, _⟩ | ⟨h, _⟩ <;> omega
  have hc0 : 0 ≤ c := by
    rcases hc with ⟨_, h⟩ | ⟨_, h, _⟩
    · have : (0 : ℚ) ≤ (c : ℚ) := by rw [h]; linarith
      exact_mod_cast this
    · exact h
  have hnq : (1 : ℚ) ≤ (n : ℚ) := by exact_mod_cast hn
  have hT0 : 0 < T := by linarith
  obtain ⟨n1, n2⟩ := f32_ofInt_bounds n (by omega)
  obtain ⟨c1, c2⟩ := f32_ofInt_bounds c hc0
  obtain ⟨g1, g2⟩ := f32_div_bounds That (f32Ops.ofInt n) LT HT (1 - 1 / 2 ^ 24)
    (1 + 1 / 2 ^ 24) T (n : ℚ) (le_of_lt hLT) (by linarith) (by norm_num) (by norm_num)
    (le_of_lt hT0) (by linarith) t1 t2 n1 n2
  have hs := f32_sub_near (f32Ops.ofInt c) (f32Ops.div That (f32Ops.ofInt n))
  rw [f32Ops_lt]
  unfold deviationOf
  rw [f32_ABS]
  generalize Dyadic.toRat (f32Ops.sub (f32Ops.ofInt c) (f32Ops.div That (f32Ops.ofInt n)))
    = S at hs ⊢
  generalize Dyadic.toRat (f32Ops.div That (f32Ops.ofInt n)) = G at hs g1 g2
  generalize Dyadic.toRat (f32Ops.ofInt c) = C at hs c1 c2
  generalize Dyadic.toRat That = V at t1 t2 ⊢
  have hS : |S| ≤ (1 + 1 / 2 ^ 24) * |C - G| := by
    have h1 : |S| - |C - G| ≤ |S - (C - G)| := abs_sub_abs_le_abs_sub _ _
    linarith
  have hcq : (0 : ℚ) ≤ (c : ℚ) := by exact_mod_cast hc0
  suffices h : (1 + 1 / 2 ^ 24) * |C - G| < LT * T by linarith
  rcases hc with ⟨h1, h2⟩ | ⟨h1, _, h3⟩
  · subst h1
    rw [h2] at c1 c2
    simp only [Int.cast_one, div_one] at g1 g2
    have e1 : (1 + 1 / 2 ^ 24) * (C - G)
        ≤ (1 + 1 / 2 ^ 24) * ((1 + 1 / 2 ^ 24)
          - (1 - 1 / 2 ^ 24) * (LT / (1 + 1 / 2 ^ 24))) * T := by
      have : C - G ≤ ((1 + 1 / 2 ^ 24)
          - (1 - 1 / 2 ^ 24) * (LT / (1 + 1 / 2 ^ 24))) * T := by linarith
      have := mul_le_mul_of_nonneg_left this (show (0 : ℚ) ≤ 1 + 1 / 2 ^ 24 by norm_num)
      linarith
    have e2 : (1 + 1 / 2 ^ 24) * (G - C)
        ≤ (1 + 1 / 2 ^ 24) * ((1 + 1 / 2 ^ 24) * (HT / (1 - 1 / 2 ^ 24))
          - (1 - 1 / 2 ^ 24)) * T := by
      have : G - C ≤ ((1 + 1 / 2 ^ 24) * (HT / (1 - 1 / 2 ^ 24))
          - (1 - 1 / 2 ^ 24)) * T := by linarith
      have := mul_le_mul_of_nonneg_left this (show (0 : ℚ) ≤ 1 + 1 / 2 ^ 24 by norm_num)
      linarith
    have f1 := mul_lt_mul_of_pos_right hB1 hT0
    have f2 := mul_lt_mul_of_pos_right hB2 hT0
    rcases abs_cases (C - G) with ⟨h, _⟩ | ⟨h, _⟩
    · rw [h]; linarith
    · rw [h]
      have : -(C - G) = G - C := by ring
      rw [this]; linarith
  · have h2q : (2 : ℚ) ≤ (n : ℚ) := by exact_mod_cast h1
    have hM : 0 ≤ (1 + 1 / 2 ^ 24) * (HT / (1 - 1 / 2 ^ 24)) :=
      mul_nonneg (by norm_num) (div_nonneg (by linarith) (by norm_num))
    have hM1 : (1 + 1 / 2 ^ 24 : ℚ) ≤ (1 + 1 / 2 ^ 24) * (HT / (1 - 1 / 2 ^ 24)) := by
      have : (1 : ℚ) ≤ HT / (1 - 1 / 2 ^ 24) := by
        rw [le_div_iff₀ (by norm_num)]
        linarith
      have := mul_le_mul_of_nonneg_left this (show (0 : ℚ) ≤ 1 + 1 / 2 ^ 24 by norm_num)
      linarith
    have hTn : T / (n : ℚ) ≤ T / 2 :=
      div_le_div_of_nonneg_left (le_of_lt hT0) (by norm_num) h2q
    have hTn0 : 0 ≤ T / (n : ℚ) := div_nonneg (le_of_lt hT0) (by linarith)
    have hG0 : 0 ≤ G := by
      refine le_trans ?_ g1
      exact mul_nonneg (mul_nonneg (by norm_num) (div_nonneg (le_of_lt hLT) (by norm_num)))
        hTn0
    have hG : G ≤ (1 + 1 / 2 ^ 24) * (HT / (1 - 1 / 2 ^ 24)) * (T / 2) :=
      le_trans g2 (mul_le_mul_of_nonneg_left hTn hM)
    have hC0 : 0 ≤ C := le_trans (mul_nonneg (by norm_num) hcq) c1
    have hC : C ≤ (1 + 1 / 2 ^ 24) * (HT / (1 - 1 / 2 ^ 24)) * (T / 2) := by
      have a1 : (c : ℚ) ≤ T / 2 := by linarith
      have a2 := mul_le_mul_of_nonneg_left a1 (show (0 : ℚ) ≤ 1 + 1 / 2 ^ 24 by norm_num)
      have a3 := mul_le_mul_of_nonneg_right hM1 (show (0 : ℚ) ≤ T / 2 by linarith)
      linarith
    have hz : |C - G| ≤ (1 + 1 / 2 ^ 24) * (HT / (1 - 1 / 2 ^ 24)) * (T / 2) := by
      rw [abs_le]
      constructor <;> linarith
    have hz2 := mul_le_mul_of_nonneg_left hz (show (0 : ℚ) ≤ 1 + 1 / 2 ^ 24 by norm_num)
    have f := mul_lt_mul_of_pos_right hA hT0
    calc (1 + 1 / 2 ^ 24) * |C - G|
        ≤ (1 + 1 / 2 ^ 24) * ((1 + 1 / 2 ^ 24) * (HT / (1 - 1 / 2 ^ 24)) * (T / 2)) := hz2
      _ = (1 + 1 / 2 ^ 24) * ((1 + 1 / 2 ^ 24) * (HT / (1 - 1 / 2 ^ 24))) / 2 * T := by ring
      _ < LT * T := f

theorem f32_total2_bounds (dims : Nat → Nat) :
    (1 - 1 / 2 ^ 24) ^ 5 * ((dims 0 : ℚ) * (dims 1 : ℚ))
        ≤ Dyadic.toRat (floatTotal2 f32Ops dims)
      ∧ Dyadic.toRat (floatTotal2 f32Ops dims)
        ≤ (1 + 1 / 2 ^ 24) ^ 5 * ((dims 0 : ℚ) * (dims 1 : ℚ)) := by
  obtain ⟨o1, o2⟩ := f32_ofInt_bounds 1 (by decide)
  obtain ⟨a1, a2⟩ := f32_ofInt_bounds (dims 0 : Int) (by omega)
  obtain ⟨b1, b2⟩ := f32_ofInt_bounds (dims 1 : Int) (by omega)
  simp only [Int.cast_natCast, Int.cast_one] at o1 o2 a1 a2 b1 b2
  obtain ⟨m1, m2⟩ := f32_mul_bounds (f32Ops.ofInt 1) (f32Ops.ofInt (dims 0 : Int))
    (1 - 1 / 2 ^ 24) (1 + 1 / 2 ^ 24) (1 - 1 / 2 ^ 24) (1 + 1 / 2 ^ 24) 1 (dims 0 : ℚ)
    (by norm_num) (by norm_num) (by norm_num) (by positivity) o1 o2 a1 a2
  obtain ⟨p1, p2⟩ := f32_mul_bounds
    (f32Ops.mul (f32Ops.ofInt 1) (f32Ops.ofInt (dims 0 : Int))) (f32Ops.ofInt (dims 1 : Int))
    _ _ (1 - 1 / 2 ^ 24) (1 + 1 / 2 ^ 24) _ (dims 1 : ℚ)
    (by norm_num) (by norm_num) (by positivity) (by positivity) m1 m2 b1 b2
  unfold floatTotal2
  constructor
  · refine le_trans (le_of_eq ?_) p1
    ring
  · refine le_trans p2 (le_of_eq ?_)
    ring

theorem f32_total3_bounds (dims : Nat → Nat) :
    (1 - 1 / 2 ^ 24) ^ 7 * ((dims 0 : ℚ) * (dims 1 : ℚ) * (dims 2 : ℚ))
        ≤ Dyadic.toRat (floatTotal3 f32Ops dims)
      ∧ Dyadic.toRat (floatTotal3 f32Ops dims)
        ≤ (1 + 1 / 2 ^ 24) ^ 7 * ((dims 0 : ℚ) * (dims 1 : ℚ) * (dims 2 : ℚ)) := by
  obtain ⟨o1, o2⟩ := f32_ofInt_bounds 1 (by decide)
  obtain ⟨a1, a2⟩ := f32_ofInt_bounds (dims 0 : Int) (by omega)
  obtain ⟨b1, b2⟩ := f32_ofInt_bounds (dims 1 : Int) (by omega)
  obtain ⟨c1, c2⟩ := f32_ofInt_bounds (dims 2 : Int) (by omega)
  simp only [Int.cast_natCast, Int.cast_one] at o1 o2 a1 a2 b1 b2 c1 c2
  obtain ⟨m1, m2⟩ := f32_mul_bounds (f32Ops.ofInt 1) (f32Ops.ofInt (dims 0 : Int))
    (1 - 1 / 2 ^ 24) (1 + 1 / 2 ^ 24) (1 - 1 / 2 ^ 24) (1 + 1 / 2 ^ 24) 1 (dims 0 : ℚ)
    (by norm_num) (by norm_num) (by norm_num) (by positivity) o1 o2 a1 a2
  obtain ⟨p1, p2⟩ := f32_mul_bounds
    (f32Ops.mul (f32Ops.ofInt 1) (f32Ops.ofInt (dims 0 : Int))) (f32Ops.ofInt (dims 1 : Int))
    _ _ (1 - 1 / 2 ^ 24) (1 + 1 / 2 ^ 24) _ (dims 1 : ℚ)
    (by norm_num) (by norm_num) (by positivity) (by positivity) m1 m2 b1 b2
  obtain ⟨q1, q2⟩ := f32_mul_bounds
    (f32Ops.mul (f32Ops.mul (f32Ops.ofInt 1) (f32Ops.ofInt (dims 0 : Int)))
      (f32Ops.ofInt (dims 1 : Int))) (f32Ops.ofInt (dims 2 : Int))
    _ _ (1 - 1 / 2 ^ 24) (1 + 1 / 2 ^ 24) _ (dims 2 : ℚ)
    (by norm_num) (by norm_num) (by positivity) (by positivity) p1 p2 c1 c2
  unfold floatTotal3
  constructor
  · refine le_trans (le_of_eq ?_) q1
    ring
  · refine le_trans q2 (le_of_eq ?_)
    ring

/-- In single precision, on a grid with every axis at least 1, the deviation of
the candidate `c` is below the initial `mindeviation` of `factor2d` when there is
one rank and `c` is the number of cells, or there are at least two ranks and `c`
is at most half the number of cells. -/
theorem f32_passes2 (ncpus c : Int) (dims : Nat → Nat) (h0 : 1 ≤ dims 0) (h1 : 1 ≤ dims 1)
    (hc : (ncpus = 1 ∧ c = (dims 0 : Int) * (dims 1 : Int))
      ∨ (2 ≤ ncpus ∧ 0 ≤ c ∧ 2 * c ≤ (dims 0 : Int) * (dims 1 : Int))) :
    f32Ops.lt (deviationOf f32Ops (floatAverage2 f32Ops ncpus dims) c)
      (floatTotal2 f32Ops dims) = true := by
  obtain ⟨t1, t2⟩ := f32_total2_bounds dims
  unfold floatAverage2
  have g0 : (1 : ℚ) ≤ (dims 0 : ℚ) := by exact_mod_cast h0
  have g1 : (1 : ℚ) ≤ (dims 1 : ℚ) := by exact_mod_cast h1
  refine f32_candidate_passes _ ((dims 0 : ℚ) * (dims 1 : ℚ)) _ _ ncpus c
    (one_le_mul_of_one_le_of_one_le g0 g1) (by norm_num) (by norm_num) t1 t2
    (by norm_num) (by norm_num) (by norm_num) ?_
  rcases hc with ⟨e1, e2⟩ | ⟨e1, e2, e3⟩
  · refine Or.inl ⟨e1, ?_⟩
    rw [e2]
    push_cast
    rfl
  · refine Or.inr ⟨e1, e2, ?_⟩
    have : ((2 * c : Int) : ℚ) ≤ (((dims 0 : Int) * (dims 1 : Int) : Int) : ℚ) := by
      exact_mod_cast e3
    push_cast at this
    exact this

/-- The same for `factor3d`. -/
theorem f32_passes3 (ncpus c : Int) (dims : Nat → Nat) (h0 : 1 ≤ dims 0) (h1 : 1 ≤ dims 1)
    (h2 : 1 ≤ dims 2)
    (hc : (ncpus = 1 ∧ c = (dims 0 : Int) * (dims 1 : Int) * (dims 2 : Int))
      ∨ (2 ≤ ncpus ∧ 0 ≤ c ∧ 2 * c ≤ (dims 0 : Int) * (dims 1 : Int) * (dims 2 : Int))) :
    f32Ops.lt (deviationOf f32Ops (floatAverage3 f32Ops ncpus dims) c)
      (floatTotal3 f32Ops dims) = true := by
  obtain ⟨t1, t2⟩ := f32_total3_bounds dims
  unfold floatAverage3
  have g0 : (1 : ℚ) ≤ (dims 0 : ℚ) := by exact_mod_cast h0
  have g1 : (1 : ℚ) ≤ (dims 1 : ℚ) := by exact_mod_cast h1
  have g2 : (1 : ℚ) ≤ (dims 2 : ℚ) := by exact_mod_cast h2
  refine f32_candidate_passes _ ((dims 0 : ℚ) * (dims 1 : ℚ) * (dims 2 : ℚ)) _ _ ncpus c
    (one_le_mul_of_one_le_of_one_le (one_le_mul_of_one_le_of_one_le g0 g1) g2)
    (by norm_num) (by norm_num) t1 t2
    (by norm_num) (by norm_num) (by norm_num) ?_
  rcases hc with ⟨e1, e2⟩ | ⟨e1, e2, e3⟩
  · refine Or.inl ⟨e1, ?_⟩
    rw [e2]
    push_cast
    rfl
  · refine Or.inr ⟨e1, e2, ?_⟩
    have : ((2 * c : Int) : ℚ)
        ≤ (((dims 0 : Int) * (dims 1 : Int) * (dims 2 : Int) : Int) : ℚ) := by
      exact_mod_cast e3
    push_cast at this
    exact this

theorem two_floor_le (d : Nat) (t : Int) (ht : 2 ≤ t) : 2 * ((d : Int) / t) ≤ (d : Int) := by
  have h1 : 0 ≤ (d : Int) / t := Int.ediv_nonneg (by omega) (by omega)
  have h2 : t * ((d : Int) / t) ≤ (d : Int) := Int.mul_ediv_self_le (by omega)
  have h3 : 2 * ((d : Int) / t) ≤ t * ((d : Int) / t) :=
    Int.mul_le_mul_of_nonneg_right ht h1
  omega

theorem floor_le_self (d : Nat) (t : Int) (ht : 1 ≤ t) :
    0 ≤ (d : Int) / t ∧ (d : Int) / t ≤ (d : Int) := by
  have h1 : 0 ≤ (d : Int) / t := Int.ediv_nonneg (by omega) (by omega)
  have h2 : t * ((d : Int) / t) ≤ (d : Int) := Int.mul_ediv_self_le (by omega)
  have h3 : 1 * ((d : Int) / t) ≤ t * ((d : Int) / t) :=
    Int.mul_le_mul_of_nonneg_right ht h1
  constructor <;> omega

/-- Every combination of two factors between 1 and `ncpus` has a candidate cell
count that is the number of cells when there is one rank, and at most half of it
when there are more. -/
theorem candidates2_hit (ncpus : Int) (dims : Nat → Nat) (t0 t1 : Int)
    (a0 : 1 ≤ t0) (b0 : t0 ≤ ncpus) (a1 : 1 ≤ t1) (b1 : t1 ≤ ncpus) :
    ∃ c, c ∈ candidates2 dims t0 t1 ∧
      ((ncpus = 1 ∧ c = (dims 0 : Int) * (dims 1 : Int))
        ∨ (2 ≤ ncpus ∧ 0 ≤ c ∧ 2 * c ≤ (dims 0 : Int) * (dims 1 : Int))) := by
  by_cases hn1 : ncpus = 1
  · have e0 : t0 = 1 := by omega
    have e1 : t1 = 1 := by omega
    subst e0 e1
    refine ⟨(dims 0 : Int) * (dims 1 : Int), ?_, Or.inl ⟨hn1, rfl⟩⟩
    simp [candidates2, sizesOf]
  · by_cases h : t0 = 1
    · subst h
      refine ⟨0, ?_, Or.inr ⟨by omega, le_refl _, ?_⟩⟩
      · simp [candidates2, sizesOf]
      · have : (0 : Int) ≤ (dims 0 : Int) * (dims 1 : Int) :=
          mul_nonneg (by omega) (by omega)
        omega
    · obtain ⟨f1, f2⟩ := floor_le_self (dims 1) t1 a1
      obtain ⟨f3, _⟩ := floor_le_self (dims 0) t0 a0
      have f4 := two_floor_le (dims 0) t0 (by omega)
      refine ⟨(dims 0 : Int) / t0 * ((dims 1 : Int) / t1), ?_,
        Or.inr ⟨by omega, mul_nonneg f3 f1, ?_⟩⟩
      · simp [candidates2, sizesOf]
      · calc 2 * ((dims 0 : Int) / t0 * ((dims 1 : Int) / t1))
            = (2 * ((dims 0 : Int) / t0)) * ((dims 1 : Int) / t1) := by ring
          _ ≤ (dims 0 : Int) * ((dims 1 : Int) / t1) :=
              Int.mul_le_mul_of_nonneg_right f4 f1
          _ ≤ (dims 0 : Int) * (dims 1 : Int) :=
              Int.mul_le_mul_of_nonneg_left f2 (by omega)

/-- Every combination of three factors between 1 and `ncpus` has such a candidate
cell count. -/
theorem candidates3_hit (ncpus : Int) (dims : Nat → Nat) (t0 t1 t2 : Int)
    (a0 : 1 ≤ t0) (b0 : t0 ≤ ncpus) (a1 : 1 ≤ t1) (b1 : t1 ≤ ncpus)
    (a2 : 1 ≤ t2) (b2 : t2 ≤ ncpus) :
    ∃ c, c ∈ candidates3 dims t0 t1 t2 ∧
      ((ncpus = 1 ∧ c = (dims 0 : Int) * (dims 1 : Int) * (dims 2 : Int))
        ∨ (2 ≤ ncpus ∧ 0 ≤ c
          ∧ 2 * c ≤ (dims 0 : Int) * (dims 1 : Int) * (dims 2 : Int))) := by
  by_cases hn1 : ncpus = 1
  · have e0 : t0 = 1 := by omega
    have e1 : t1 = 1 := by omega
    have e2 : t2 = 1 := by omega
    subst e0 e1 e2
    refine ⟨(dims 0 : Int) * (dims 1 : Int) * (dims 2 : Int), ?_, Or.inl ⟨hn1, rfl⟩⟩
    simp [candidates3, sizesOf]
  · by_cases h : t0 = 1
    · subst h
      refine ⟨0, ?_, Or.inr ⟨by omega, le_refl _, ?_⟩⟩
      · simp [candidates3, sizesOf]
      · have : (0 : Int) ≤ (dims 0 : Int) * (dims 1 : Int) * (dims 2 : Int) :=
          mul_nonneg (mul_nonneg (by omega) (by omega)) (by omega)
        omega
    · obtain ⟨f1, f2⟩ := floor_le_self (dims 1) t1 a1
      obtain ⟨g1, g2⟩ := floor_le_self (dims 2) t2 a2
      obtain ⟨f3, _⟩ := floor_le_self (dims 0) t0 a0
      have f4 := two_floor_le (dims 0) t0 (by omega)
      refine ⟨(dims 0 : Int) / t0 * ((dims 1 : Int) / t1) * ((dims 2 : Int) / t2), ?_,
        Or.inr ⟨by omega, mul_nonneg (mul_nonneg f3 f1) g1, ?_⟩⟩
      · simp [candidates3, sizesOf]
      · calc 2 * ((dims 0 : Int) / t0 * ((dims 1 : Int) / t1) * ((dims 2 : Int) / t2))
            = (2 * ((dims 0 : Int) / t0)) * ((dims 1 : Int) / t1)
                * ((dims 2 : Int) / t2) := by ring
          _ ≤ (dims 0 : Int) * ((dims 1 : Int) / t1) * ((dims 2 : Int) / t2) :=
              Int.mul_le_mul_of_nonneg_right
                (Int.mul_le_mul_of_nonneg_right f4 f1) g1
          _ ≤ (dims 0 : Int) * (dims 1 : Int) * ((dims 2 : Int) / t2) :=
              Int.mul_le_mul_of_nonneg_right
                (Int.mul_le_mul_of_nonneg_left f2 (by omega)) g1
          _ ≤ (dims 0 : Int) * (dims 1 : Int) * (dims 2 : Int) :=
              Int.mul_le_mul_of_nonneg_left g2 (mul_nonneg (by omega) (by omega))

/-! ## When `factor2d` and `factor3d` write, for values that fit an `int` -/

/-- For a rank count and dimensions in the range of a positive `int`, `factor2d`
writes `cpu_split` if and only if one of the combinations it chooses among has a
candidate cell count whose float deviation is below the float total. -/
theorem writes2_iff (fm : FloatOps) (ncpus : Int) (dims : Nat → Nat) (cs : Nat → Int)
    (hn : 1 ≤ ncpus) (hn' : ncpus < 2 ^ 31) (d0 : (dims 0 : Int) < 2 ^ 31)
    (d1 : (dims 1 : Int) < 2 ^ 31) :
    (factor2dSearch fm ncpus dims cs).assigned = true ↔
      ∃ a0 a1, admissible2 ncpus dims a0 a1 ∧
        ∃ g, g ∈ candidates2 dims a0 a1 ∧
          fm.lt (deviationOf fm (floatAverage2 fm ncpus dims) g) (floatTotal2 fm dims)
            = true := by
  rw [factor2dSearch_writes_iff, dmin_fits _ _ (by omega) hn', dmin_fits _ _ (by omega) hn',
    MIN_eq_min]
  constructor
  · rintro ⟨t0, t1, r0, r1, hp, g, hg, hlt⟩
    have hadm : admissible2 ncpus dims t0 t1 := by
      refine ⟨r0, r1, ?_⟩
      rw [one_mul, one_mul] at hp
      exact hp
    obtain ⟨⟨p0, q0, _⟩, ⟨p1, q1, _⟩⟩ := admissible2_bounds _ _ _ _ hadm
    rw [corners2_fits dims t0 t1 p0 (by omega) p1 (by omega) d0 d1] at hg
    exact ⟨t0, t1, hadm, g, hg, hlt⟩
  · rintro ⟨t0, t1, hadm, g, hg, hlt⟩
    obtain ⟨⟨p0, q0, _⟩, ⟨p1, q1, _⟩⟩ := admissible2_bounds _ _ _ _ hadm
    rw [← corners2_fits dims t0 t1 p0 (by omega) p1 (by omega) d0 d1] at hg
    obtain ⟨r0, r1, hp⟩ := hadm
    refine ⟨t0, t1, r0, r1, ?_, g, hg, hlt⟩
    rw [one_mul, one_mul]
    exact hp

/-- The same for `factor3d`. -/
theorem writes3_iff (fm : FloatOps) (ncpus : Int) (dims : Nat → Nat) (cs : Nat → Int)
    (hn : 1 ≤ ncpus) (hn' : ncpus < 2 ^ 31) (d0 : (dims 0 : Int) < 2 ^ 31)
    (d1 : (dims 1 : Int) < 2 ^ 31) (d2 : (dims 2 : Int) < 2 ^ 31) :
    (factor3dSearch fm ncpus dims cs).assigned = true ↔
      ∃ a0 a1 a2, admissible3 ncpus dims a0 a1 a2 ∧
        ∃ g, g ∈ candidates3 dims a0 a1 a2 ∧
          fm.lt (deviationOf fm (floatAverage3 fm ncpus dims) g) (floatTotal3 fm dims)
            = true := by
  rw [factor3dSearch_writes_iff, dmin_fits _ _ (by omega) hn', dmin_fits _ _ (by omega) hn',
    dmin_fits _ _ (by omega) hn', MIN_eq_min]
  constructor
  · rintro ⟨t0, t1, t2, r0, r1, r2, hp, g, hg, hlt⟩
    have hadm : admissible3 ncpus dims t0 t1 t2 := by
      refine ⟨r0, r1, r2, ?_⟩
      rw [one_mul, one_mul] at hp
      exact hp
    obtain ⟨⟨p0, q0, _⟩, ⟨p1, q1, _⟩, ⟨p2, q2, _⟩⟩ := admissible3_bounds _ _ _ _ _ hadm
    rw [corners3_fits dims t0 t1 t2 p0 (by omega) p1 (by omega) p2 (by omega) d0 d1 d2]
      at hg
    exact ⟨t0, t1, t2, hadm, g, hg, hlt⟩
  · rintro ⟨t0, t1, t2, hadm, g, hg, hlt⟩
    obtain ⟨⟨p0, q0, _⟩, ⟨p1, q1, _⟩, ⟨p2, q2, _⟩⟩ := admissible3_bounds _ _ _ _ _ hadm
    rw [← corners3_fits dims t0 t1 t2 p0 (by omega) p1 (by omega) p2 (by omega) d0 d1 d2]
      at hg
    obtain ⟨r0, r1, r2, hp⟩ := hadm
    refine ⟨t0, t1, t2, r0, r1, r2, ?_, g, hg, hlt⟩
    rw [one_mul, one_mul]
    exact hp

/-- What `factor2d` leaves in `cpu_split` when it has written, for a rank count in
the range of a positive `int`. -/
theorem written2_admissible (fm : FloatOps) (ncpus : Int) (dims : Nat → Nat)
    (cs : Nat → Int) (hn : 1 ≤ ncpus) (hn' : ncpus < 2 ^ 31)
    (ha : (factor2dSearch fm ncpus dims cs).assigned = true) :
    admissible2 ncpus dims ((factor2d fm ncpus dims cs).2 0)
        ((factor2d fm ncpus dims cs).2 1) ∧
      ∀ n, 2 ≤ n → (factor2d fm ncpus dims cs).2 n = cs n := by
  rw [factor2d_snd]
  rcases factor2dSearch_inv fm ncpus dims cs with ⟨hf, _⟩ | ⟨_, tmp, hg, hcs⟩
  · rw [hf] at ha; cases ha
  · rw [hcs]
    rw [dmin_fits _ _ (by omega) hn', dmin_fits _ _ (by omega) hn', MIN_eq_min,
      one_mul] at hg
    refine ⟨hg, fun n hn2 => ?_⟩
    simp only []
    rw [if_neg (by omega)]

/-- What `factor3d` leaves in `cpu_split` when it has written. -/
theorem written3_admissible (fm : FloatOps) (ncpus : Int) (dims : Nat → Nat)
    (cs : Nat → Int) (hn : 1 ≤ ncpus) (hn' : ncpus < 2 ^ 31)
    (ha : (factor3dSearch fm ncpus dims cs).assigned = true) :
    admissible3 ncpus dims ((factor3d fm ncpus dims cs).2 0)
        ((factor3d fm ncpus dims cs).2 1) ((factor3d fm ncpus dims cs).2 2) ∧
      ∀ n, 3 ≤ n → (factor3d fm ncpus dims cs).2 n = cs n := by
  rw [factor3d_snd]
  rcases factor3dSearch_inv fm ncpus dims cs with ⟨hf, _⟩ | ⟨_, tmp, hg, hcs⟩
  · rw [hf] at ha; cases ha
  · rw [hcs]
    rw [dmin_fits _ _ (by omega) hn', dmin_fits _ _ (by omega) hn',
      dmin_fits _ _ (by omega) hn', MIN_eq_min, one_mul] at hg
    refine ⟨hg, fun n hn2 => ?_⟩
    simp only []
    rw [if_neg (by omega)]

set_option maxRecDepth 100000 in
/-- C18, as stated, fails in single precision on a grid beyond the range of `int`:
for one rank and `dims = [2^32 + 10, 1]` the factors `[1, 1]` are between 1 and
`dmin[n] = 1` and have the product `target = 1`, yet `factor2d` writes nothing and
`cpu_split` keeps what it held (here 7s). The first axis is truncated to 10 cells,
and no candidate is below the float total 2^32. -/
theorem wide_grid_is_not_split :
    admissible2 1 (arr3 4294967306 1 0) 1 1 ∧
    (factor2dSearch f32Ops 1 (arr3 4294967306 1 0) (arr3 7 7 7)).assigned = false ∧
    (factor2d f32Ops 1 (arr3 4294967306 1 0) (arr3 7 7 7)).2 0 = 7 ∧
    (factor2d f32Ops 1 (arr3 4294967306 1 0) (arr3 7 7 7)).2 1 = 7 := by
  refine ⟨?_, ?_, ?_, ?_⟩
  · unfold admissible2
    decide
  · decide
  · decide
  · decide

/-- C18, as amended. For a rank count `1 ≤ ncpus` (an `int`) and a grid with every
axis at least 1 and fewer than 2^31 cells (so that every `int` of the search holds
its value), with `dmin[n] = min(ncpus, dims[n])` and
`target = min(ncpus, product of dmin[n])`: in single precision `factor2d` (resp.
`factor3d`) writes `cpu_split` if and only if there are factors
`1 ≤ a_n ≤ dmin[n]` whose product is `target`; for any float arithmetic it writes
if and only if such factors exist with a candidate cell count whose float
deviation from the average is below the float total; when it writes, the factors
written are such factors (their product is `target`) and the entries beyond them
are untouched; and when it does not write, `cpu_split` is exactly as it was. -/
theorem factor_writes_iff_factors_exist (fm : FloatOps) (ncpus : Int) (dims : Nat → Nat)
    (cs : Nat → Int) (hn : 1 ≤ ncpus) (hn' : ncpus < 2 ^ 31)
    (h0 : 1 ≤ dims 0) (h1 : 1 ≤ dims 1) :
    ((dims 0 : Int) * (dims 1 : Int) < 2 ^ 31 →
      ((factor2dSearch f32Ops ncpus dims cs).assigned = true ↔
        ∃ a0 a1, admissible2 ncpus dims a0 a1) ∧
      ((factor2dSearch fm ncpus dims cs).assigned = true ↔
        ∃ a0 a1, admissible2 ncpus dims a0 a1 ∧
          ∃ g, g ∈ candidates2 dims a0 a1 ∧
            fm.lt (deviationOf fm (floatAverage2 fm ncpus dims) g) (floatTotal2 fm dims)
              = true) ∧
      ((factor2dSearch fm ncpus dims cs).assigned = true →
        admissible2 ncpus dims ((factor2d fm ncpus dims cs).2 0)
          ((factor2d fm ncpus dims cs).2 1) ∧
        ∀ n, 2 ≤ n → (factor2d fm ncpus dims cs).2 n = cs n) ∧
      ((factor2dSearch fm ncpus dims cs).assigned = false →
        (factor2d fm ncpus dims cs).2 = cs)) ∧
    (1 ≤ dims 2 → (dims 0 : Int) * (dims 1 : Int) * (dims 2 : Int) < 2 ^ 31 →
      ((factor3dSearch f32Ops ncpus dims cs).assigned = true ↔
        ∃ a0 a1 a2, admissible3 ncpus dims a0 a1 a2) ∧
      ((factor3dSearch fm ncpus dims cs).assigned = true ↔
        ∃ a0 a1 a2, admissible3 ncpus dims a0 a1 a2 ∧
          ∃ g, g ∈ candidates3 dims a0 a1 a2 ∧
            fm.lt (deviationOf fm (floatAverage3 fm ncpus dims) g) (floatTotal3 fm dims)
              = true) ∧
      ((factor3dSearch fm ncpus dims cs).assigned = true →
        admissible3 ncpus dims ((factor3d fm ncpus dims cs).2 0)
          ((factor3d fm ncpus dims cs).2 1) ((factor3d fm ncpus dims cs).2 2) ∧
        ∀ n, 3 ≤ n → (factor3d fm ncpus dims cs).2 n = cs n) ∧
      ((factor3dSearch fm ncpus dims cs).assigned = false →
        (factor3d fm ncpus dims cs).2 = cs)) := by
  have h0' : (1 : Int) ≤ (dims 0 : Int) := by omega
  have h1' : (1 : Int) ≤ (dims 1 : Int) := by omega
  refine ⟨fun hcells => ?_, fun h2 hcells => ?_⟩
  · obtain ⟨d0, d1⟩ := dims2_fit _ _ h0' h1' hcells
    refine ⟨?_, writes2_iff fm ncpus dims cs hn hn' d0 d1,
      written2_admissible fm ncpus dims cs hn hn', fun ha => ?_⟩
    · rw [writes2_iff f32Ops ncpus dims cs hn hn' d0 d1]
      constructor
      · rintro ⟨a0, a1, hadm, _⟩
        exact ⟨a0, a1, hadm⟩
      · rintro ⟨a0, a1, hadm⟩
        obtain ⟨⟨p0, q0, _⟩, ⟨p1, q1, _⟩⟩ := admissible2_bounds _ _ _ _ hadm
        obtain ⟨c, hc, hcase⟩ := candidates2_hit ncpus dims a0 a1 p0 q0 p1 q1
        exact ⟨a0, a1, hadm, c, hc, f32_passes2 ncpus c dims h0 h1 hcase⟩
    · rw [factor2d_snd]
      rcases factor2dSearch_inv fm ncpus dims cs with ⟨_, hcs⟩ | ⟨ht, _⟩
      · exact hcs
      · rw [ht] at ha; cases ha
  · have h2' : (1 : Int) ≤ (dims 2 : Int) := by omega
    obtain ⟨d0, d1, d2⟩ := dims3_fit _ _ _ h0' h1' h2' hcells
    refine ⟨?_, writes3_iff fm ncpus dims cs hn hn' d0 d1 d2,
      written3_admissible fm ncpus dims cs hn hn', fun ha => ?_⟩
    · rw [writes3_iff f32Ops ncpus dims cs hn hn' d0 d1 d2]
      constructor
      · rintro ⟨a0, a1, a2, hadm, _⟩
        exact ⟨a0, a1, a2, hadm⟩
      · rintro ⟨a0, a1, a2, hadm⟩
        obtain ⟨⟨p0, q0, _⟩, ⟨p1, q1, _⟩, ⟨p2, q2, _⟩⟩ :=
          admissible3_bounds _ _ _ _ _ hadm
        obtain ⟨c, hc, hcase⟩ := candidates3_hit ncpus dims a0 a1 a2 p0 q0 p1 q1 p2 q2
        exact ⟨a0, a1, a2, hadm, c, hc, f32_passes3 ncpus c dims h0 h1 h2 hcase⟩
    · rw [factor3d_snd]
      rcases factor3dSearch_inv fm ncpus dims cs with ⟨_, hcs⟩ | ⟨ht, _⟩
      · exact hcs
      · rw [ht] at ha; cases ha

/-- C18 as amended, in single precision, for 4 ranks on the 10 x 10 (x 10) grid. -/
theorem factor_writes_iff_factors_exist_witness :
    (((arr3 10 10 10 : Nat → Nat) 0 : Int) * ((arr3 10 10 10 : Nat → Nat) 1 : Int) < 2 ^ 31 →
      ((factor2dSearch f32Ops 4 (arr3 10 10 10) (arr3 0 0 0)).assigned = true ↔
        ∃ a0 a1, admissible2 4 (arr3 10 10 10) a0 a1) ∧
      ((factor2dSearch f32Ops 4 (arr3 10 10 10) (arr3 0 0 0)).assigned = true ↔
        ∃ a0 a1, admissible2 4 (arr3 10 10 10) a0 a1 ∧
          ∃ g, g ∈ candidates2 (arr3 10 10 10) a0 a1 ∧
            f32Ops.lt (deviationOf f32Ops (floatAverage2 f32Ops 4 (arr3 10 10 10)) g)
              (floatTotal2 f32Ops (arr3 10 10 10)) = true) ∧
      ((factor2dSearch f32Ops 4 (arr3 10 10 10) (arr3 0 0 0)).assigned = true →
        admissible2 4 (arr3 10 10 10) ((factor2d f32Ops 4 (arr3 10 10 10) (arr3 0 0 0)).2 0)
          ((factor2d f32Ops 4 (arr3 10 10 10) (arr3 0 0 0)).2 1) ∧
        ∀ n, 2 ≤ n → (factor2d f32Ops 4 (arr3 10 10 10) (arr3 0 0 0)).2 n
          = (arr3 0 0 0 : Nat → Int) n) ∧
      ((factor2dSearch f32Ops 4 (arr3 10 10 10) (arr3 0 0 0)).assigned = false →
        (factor2d f32Ops 4 (arr3 10 10 10) (arr3 0 0 0)).2 = arr3 0 0 0)) ∧
    (1 ≤ (arr3 10 10 10 : Nat → Nat) 2 →
      ((arr3 10 10 10 : Nat → Nat) 0 : Int) * ((arr3 10 10 10 : Nat → Nat) 1 : Int)
        * ((arr3 10 10 10 : Nat → Nat) 2 : Int) < 2 ^ 31 →
      ((factor3dSearch f32Ops 4 (arr3 10 10 10) (arr3 0 0 0)).assigned = true ↔
        ∃ a0 a1 a2, admissible3 4 (arr3 10 10 10) a0 a1 a2) ∧
      ((factor3dSearch f32Ops 4 (arr3 10 10 10) (arr3 0 0 0)).assigned = true ↔
        ∃ a0 a1 a2, admissible3 4 (arr3 10 10 10) a0 a1 a2 ∧
          ∃ g, g ∈ candidates3 (arr3 10 10 10) a0 a1 a2 ∧
            f32Ops.lt (deviationOf f32Ops (floatAverage3 f32Ops 4 (arr3 10 10 10)) g)
              (floatTotal3 f32Ops (arr3 10 10 10)) = true) ∧
      ((factor3dSearch f32Ops 4 (arr3 10 10 10) (arr3 0 0 0)).assigned = true →
        admissible3 4 (arr3 10 10 10) ((factor3d f32Ops 4 (arr3 10 10 10) (arr3 0 0 0)).2 0)
          ((factor3d f32Ops 4 (arr3 10 10 10) (arr3 0 0 0)).2 1)
          ((factor3d f32Ops 4 (arr3 10 10 10) (arr3 0 0 0)).2 2) ∧
        ∀ n, 3 ≤ n → (factor3d f32Ops 4 (arr3 10 10 10) (arr3 0 0 0)).2 n
          = (arr3 0 0 0 : Nat → Int) n) ∧
      ((factor3dSearch f32Ops 4 (arr3 10 10 10) (arr3 0 0 0)).assigned = false →
        (factor3d f32Ops 4 (arr3 10 10 10) (arr3 0 0 0)).2 = arr3 0 0 0)) :=
  factor_writes_iff_factors_exist f32Ops 4 (arr3 10 10 10) (arr3 0 0 0) (by decide) (by decide)
    (by decide) (by decide)

end SDF
